import Mathlib

/-!
# tdorm: SQL fragment construction

A shallow embedding of the string-assembly core of `tdorm` (`types.go`, `filter.go`,
`client.go`) and the properties its specification states about it.

Conventions of the embedding.

* A Go `string` that is SQL text (an identifier, an operator, a clause, a statement) is a
  Lean `String`: a sequence of Unicode scalar values, that is well-formed UTF-8 text.
  `for _, r := range s` visits exactly the characters of `s.data`, in order, and `string(r)`
  is the one-character string of `r`.
* A Go `string` that is a value handed to `formatValue` is a `GoString`: any sequence of
  bytes, well-formed UTF-8 or not. `for _, ch := range val` decodes it as Go does
  (`GoString.runes`): a well-formed sequence gives its character, any other byte gives
  U+FFFD. A Lean `String` is read as the `GoString` of its UTF-8 bytes
  (`GoString.ofString`).
* A Go `error` is a value of `Error`, one constructor per error the code creates;
  `Error.message` is its message text and `Error.kind` the name the specification gives it.
* A function returning `(T, error)` returns `Except Error T`.
* The Unicode case tables and the floating-point printer of the Go library are not code of
  this repository; they are the fields of `GoLib`, a parameter of every definition that
  reaches them, so every theorem holds whatever they contain.
-/

namespace Tdorm

/-! ## The Go library -/

/-- The parts of the Go standard library that are tables or numeric algorithms: the case
mappings of `unicode` outside ASCII, the function `unicode.SimpleFold`, and the `%v`
rendering of floating-point numbers (given by their IEEE 754 bit patterns). -/
structure GoLib where
  unicodeToUpper : Char → Char
  unicodeToLower : Char → Char
  unicodeSimpleFold : Char → Char
  formatFloat32 : Nat → String
  formatFloat64 : Nat → String

/-- A stand-in for the library tables, for closed examples. The examples below consist of
ASCII text and contain no floating-point number, so none of its fields is ever consulted. -/
def GoLib.sample : GoLib where
  unicodeToUpper := fun r => r
  unicodeToLower := fun r => r
  unicodeSimpleFold := fun r => r
  formatFloat32 := fun _ => "0"
  formatFloat64 := fun _ => "0"

/-- Go's `unicode.IsSpace`: the Latin-1 cases of its `switch`, then the `White_Space`
table. -/
def unicode.IsSpace (r : Char) : Bool :=
  if r.toNat ≤ 0xFF then
    r.toNat == 0x09 || r.toNat == 0x0A || r.toNat == 0x0B || r.toNat == 0x0C ||
      r.toNat == 0x0D || r.toNat == 0x20 || r.toNat == 0x85 || r.toNat == 0xA0
  else
    r.toNat == 0x1680 || (0x2000 ≤ r.toNat && r.toNat ≤ 0x200A) || r.toNat == 0x2028 ||
      r.toNat == 0x2029 || r.toNat == 0x202F || r.toNat == 0x205F || r.toNat == 0x3000

/-- Go's `unicode.ToUpper`: ASCII is handled in line, the rest goes to the case table. -/
def unicode.ToUpper (lib : GoLib) (r : Char) : Char :=
  if r.toNat ≤ 0x7F then
    if 0x61 ≤ r.toNat ∧ r.toNat ≤ 0x7A then Char.ofNat (r.toNat - 0x20) else r
  else lib.unicodeToUpper r

/-- Go's `strings.ToUpper`: every character mapped by `unicode.ToUpper`. -/
def strings.ToUpper (lib : GoLib) (s : String) : String :=
  String.mk (s.data.map (unicode.ToUpper lib))

/-- Go's `unicode.ToLower`: ASCII is handled in line, the rest goes to the case table. -/
def unicode.ToLower (lib : GoLib) (r : Char) : Char :=
  if r.toNat ≤ 0x7F then
    if 0x41 ≤ r.toNat ∧ r.toNat ≤ 0x5A then Char.ofNat (r.toNat + 0x20) else r
  else lib.unicodeToLower r

/-- Go's `strings.ToLower`: every character mapped by `unicode.ToLower`. -/
def strings.ToLower (lib : GoLib) (s : String) : String :=
  String.mk (s.data.map (unicode.ToLower lib))

/-- The loop `for r != sr && r < tr { r = unicode.SimpleFold(r) }` of `strings.EqualFold`,
which walks the fold orbit of `sr` from `r` on: the `r` it ends with. The table is a
parameter, so the walk is bounded by `fuel`; a walk that has not ended after as many steps
as there are code points never ends. -/
def EqualFold.walk (lib : GoLib) (sr tr : Char) : Nat → Char → Char
  | 0, r => r
  | fuel + 1, r =>
    if r ≠ sr ∧ r < tr then EqualFold.walk lib sr tr fuel (lib.unicodeSimpleFold r) else r

/-- The comparison of one pair of characters in `strings.EqualFold`: equal; or, once ordered
so that `sr < tr`, an ASCII upper-case letter and its lower-case form when `tr` is ASCII;
or, when `tr` is not ASCII, `tr` found on the fold orbit of `sr`. -/
def EqualFold.rune (lib : GoLib) (sr tr : Char) : Bool :=
  if tr = sr then true
  else
    let lo := if tr < sr then tr else sr
    let hi := if tr < sr then sr else tr
    if hi.toNat < 0x80 then
      decide (0x41 ≤ lo.toNat ∧ lo.toNat ≤ 0x5A ∧ hi.toNat = lo.toNat + 0x20)
    else
      decide (EqualFold.walk lib lo hi 0x110000 (lib.unicodeSimpleFold lo) = hi)

/-- The character-by-character scan of `strings.EqualFold`. -/
def EqualFold.scan (lib : GoLib) : List Char → List Char → Bool
  | [], [] => true
  | sr :: s, tr :: t => EqualFold.rune lib sr tr && EqualFold.scan lib s t
  | _, _ => false

/-- Go's `strings.EqualFold`: equality under simple Unicode case folding. Its byte loop for
ASCII and its rune loop for the rest apply the same test to each pair of characters. -/
def strings.EqualFold (lib : GoLib) (s t : String) : Bool :=
  EqualFold.scan lib s.data t.data

/-- Go's `strings.TrimSpace`: the leading and the trailing run of white space removed. -/
def strings.TrimSpace (s : String) : String :=
  String.mk ((s.data.dropWhile unicode.IsSpace).rdropWhile unicode.IsSpace)

/-- Go's `strings.Join`. -/
def strings.Join : List String → String → String
  | [], _ => ""
  | [a], _ => a
  | a :: b :: rest, sep => a ++ sep ++ strings.Join (b :: rest) sep

/-- The verb `%d` of `fmt` at an integer: base-10 digits, a minus sign when negative. -/
def fmt.verbD (n : Int) : String :=
  if n < 0 then "-" ++ Nat.repr n.natAbs else Nat.repr n.toNat

/-- A `time.Time`, held as the calendar and clock fields of the instant in the value's own
location (what `t.Date()`, `t.Clock()` and `t.Nanosecond()` return). -/
structure Time where
  year : Int
  month : Nat
  day : Nat
  hour : Nat
  minute : Nat
  second : Nat
  nanosecond : Nat

/-- Go's `time.appendInt`: the decimal text of `x`, zero-padded on the left to `width`
digits, after a minus sign when `x` is negative. -/
def time.appendInt (x : Int) (width : Nat) : String :=
  let digits := Nat.repr x.natAbs
  (if x < 0 then "-" else "") ++
    String.mk (List.replicate (width - digits.length) '0') ++ digits

/-- Go's `time.appendNano` at the fraction `.000`: a dot, then the nanosecond field
zero-padded to nine digits and cut by its last six. -/
def time.appendNano (nanosec : Nat) : String :=
  let b := (time.appendInt nanosec 9).data
  "." ++ String.mk (b.take (b.length - 9 + 3))

/-- Go's `Time.Format` at the layout `2006-01-02 15:04:05.000`. -/
def Time.Format (t : Time) : String :=
  time.appendInt t.year 4 ++ "-" ++ time.appendInt t.month 2 ++ "-" ++
    time.appendInt t.day 2 ++ " " ++ time.appendInt t.hour 2 ++ ":" ++
    time.appendInt t.minute 2 ++ ":" ++ time.appendInt t.second 2 ++
    time.appendNano t.nanosecond

/-- Go's `time.Second`: a `time.Duration` is a number of nanoseconds. -/
def time.Second : Int := 1000000000

/-- Go's `Duration.Milliseconds`: the duration as a whole number of milliseconds, by Go's
integer division, which rounds toward zero. -/
def time.Duration.Milliseconds (d : Int) : Int := Int.tdiv d 1000000

/-! ## Go strings and UTF-8 -/

/-- Go's `utf8.RuneError`, the replacement character U+FFFD. -/
def utf8.RuneError : Char := Char.ofNat 0xFFFD

/-- Go's `utf8.AppendRune` at a Unicode scalar value: the bytes of `string(r)`. The shifts
and masks of the source are written as division and remainder. -/
def utf8.AppendRune (r : Char) : List UInt8 :=
  if r.toNat < 0x80 then [UInt8.ofNat r.toNat]
  else if r.toNat < 0x800 then
    [UInt8.ofNat (0xC0 + r.toNat / 64), UInt8.ofNat (0x80 + r.toNat % 64)]
  else if r.toNat < 0x10000 then
    [UInt8.ofNat (0xE0 + r.toNat / 4096), UInt8.ofNat (0x80 + r.toNat / 64 % 64),
      UInt8.ofNat (0x80 + r.toNat % 64)]
  else
    [UInt8.ofNat (0xF0 + r.toNat / 262144), UInt8.ofNat (0x80 + r.toNat / 4096 % 64),
      UInt8.ofNat (0x80 + r.toNat / 64 % 64), UInt8.ofNat (0x80 + r.toNat % 64)]

/-- The low bits of the table `first` of `unicode/utf8`: the number of bytes of the sequence
that the byte `s0` leads, 1 for an ASCII byte, and 0 for a byte that leads no sequence
(`0x80`-`0xC1` and `0xF5`-`0xFF`). -/
def utf8.first (s0 : Nat) : Nat :=
  if s0 < 0x80 then 1
  else if s0 < 0xC2 then 0
  else if s0 < 0xE0 then 2
  else if s0 < 0xF0 then 3
  else if s0 < 0xF5 then 4
  else 0

/-- The table `acceptRanges` of `unicode/utf8`, by leading byte: the lowest and the highest
second byte the sequence may have. -/
def utf8.acceptRange (s0 : Nat) : Nat × Nat :=
  if s0 = 0xE0 then (0xA0, 0xBF)
  else if s0 = 0xED then (0x80, 0x9F)
  else if s0 = 0xF0 then (0x90, 0xBF)
  else if s0 = 0xF4 then (0x80, 0x8F)
  else (0x80, 0xBF)

/-- Go's `utf8.DecodeRuneInString`: the first rune of `s` and the number of bytes it takes.
A byte that does not begin a well-formed sequence decodes as `RuneError` of width 1. The
masks and shifts of the source are written as remainder and multiplication. -/
def utf8.DecodeRuneInString (s : List UInt8) : Char × Nat :=
  match s with
  | [] => (utf8.RuneError, 0)
  | s0 :: rest =>
    let sz := utf8.first s0.toNat
    let s1 := (rest.getD 0 0).toNat
    let s2 := (rest.getD 1 0).toNat
    let s3 := (rest.getD 2 0).toNat
    if sz = 1 then (Char.ofNat s0.toNat, 1)
    else if sz = 0 then (utf8.RuneError, 1)
    else if rest.length + 1 < sz then (utf8.RuneError, 1)
    else if s1 < (utf8.acceptRange s0.toNat).1 ∨ (utf8.acceptRange s0.toNat).2 < s1 then
      (utf8.RuneError, 1)
    else if sz ≤ 2 then (Char.ofNat (s0.toNat % 32 * 64 + s1 % 64), 2)
    else if s2 < 0x80 ∨ 0xBF < s2 then (utf8.RuneError, 1)
    else if sz ≤ 3 then (Char.ofNat (s0.toNat % 16 * 4096 + s1 % 64 * 64 + s2 % 64), 3)
    else if s3 < 0x80 ∨ 0xBF < s3 then (utf8.RuneError, 1)
    else
      (Char.ofNat (s0.toNat % 8 * 262144 + s1 % 64 * 4096 + s2 % 64 * 64 + s3 % 64), 4)

/-- A Go `string` value: any sequence of bytes. -/
structure GoString where
  bytes : List UInt8
  deriving DecidableEq, Repr

/-- The runes a `for _, r := range s` loop visits, over the bytes still to read: the loop
decodes one rune and steps over its bytes until none is left. Every step takes at least
one byte, so `fuel` equal to the number of bytes is enough. -/
def GoString.rangeLoop : Nat → List UInt8 → List Char
  | 0, _ => []
  | fuel + 1, s =>
    match s with
    | [] => []
    | s0 :: rest =>
      (utf8.DecodeRuneInString (s0 :: rest)).1 ::
        GoString.rangeLoop fuel ((s0 :: rest).drop (utf8.DecodeRuneInString (s0 :: rest)).2)

/-- The Go string that holds the text `s`: its UTF-8 encoding. -/
def GoString.ofString (s : String) : GoString :=
  ⟨s.data.flatMap utf8.AppendRune⟩

instance : Coe String GoString := ⟨GoString.ofString⟩

/-- The runes that `for _, r := range s` visits, in order. The compiled loop decodes with
the runtime's `decoderune`, which returns what `utf8.DecodeRuneInString` returns. -/
def GoString.runes (s : GoString) : List Char :=
  GoString.rangeLoop s.bytes.length s.bytes

/-! ## Values and errors -/

/-- The signed integer types of Go. -/
inductive IntKind
  | int | int8 | int16 | int32 | int64
  deriving DecidableEq, Repr

/-- The unsigned integer types of Go that `formatValue` names. -/
inductive UintKind
  | uint | uint8 | uint16 | uint32 | uint64
  deriving DecidableEq, Repr

/-- A Go `interface{}` value, by dynamic type. `slice` is a `[]interface{}` (the ordered
sequence of the specification), `array2` a `[2]interface{}` (its ordered pair), and `other`
is a value of any further dynamic type (a struct, a map, a `[]int`, a pointer, a named
type), of which the program only ever reads the type name that `%T` prints. -/
inductive GoValue
  | nil
  | string (s : GoString)
  | time (t : Time)
  | int (k : IntKind) (n : Int)
  | uint (k : UintKind) (n : Nat)
  | float32 (bits : Nat)
  | float64 (bits : Nat)
  | bool (b : Bool)
  | slice (xs : List GoValue)
  | array2 (lo hi : GoValue)
  | other (typeName : String)

/-- The verb `%T` of `fmt`: the name of the dynamic type. -/
def GoValue.typeName : GoValue → String
  | .nil => "<nil>"
  | .string _ => "string"
  | .time _ => "time.Time"
  | .int .int _ => "int"
  | .int .int8 _ => "int8"
  | .int .int16 _ => "int16"
  | .int .int32 _ => "int32"
  | .int .int64 _ => "int64"
  | .uint .uint _ => "uint"
  | .uint .uint8 _ => "uint8"
  | .uint .uint16 _ => "uint16"
  | .uint .uint32 _ => "uint32"
  | .uint .uint64 _ => "uint64"
  | .float32 _ => "float32"
  | .float64 _ => "float64"
  | .bool _ => "bool"
  | .slice _ => "[]interface \x7b\x7d"
  | .array2 _ _ => "[2]interface \x7b\x7d"
  | .other n => n

/-- The errors the package creates, and those the driver returns. -/
inductive Error
  /-- Created by `fmt.Errorf("非法标识符: %s", id)` -/
  | illegalIdent (id : String)
  /-- Created by `fmt.Errorf("标识符不能为空")` -/
  | emptyIdent
  /-- Created by `fmt.Errorf("不支持的值类型: %T", v)` -/
  | unsupportedValue (typeName : String)
  /-- Created by `fmt.Errorf("IN 需要 []interface{} 值")` -/
  | inNeedsSlice
  /-- Created by `fmt.Errorf("BETWEEN 需要 [2]interface{}")` -/
  | betweenNeedsPair
  /-- Created by `errors.New("危险操作：不允许无 WHERE 的删除")` -/
  | deleteWithoutWhere
  /-- Created by `errors.New("columns 不能为空")` -/
  | emptyColumns
  /-- Created by `errors.New("set 不能为空")` -/
  | emptySet
  /-- Created by `fmt.Errorf("stream name cannot be empty")` -/
  | streamNameEmpty
  /-- Created by `fmt.Errorf("subquery cannot be empty")` -/
  | subqueryEmpty
  /-- An error returned by the database driver. -/
  | driver (msg : String)
  deriving DecidableEq, Repr

/-- The message of an error (`err.Error()`). -/
def Error.message : Error → String
  | .illegalIdent id => "非法标识符: " ++ id
  | .emptyIdent => "标识符不能为空"
  | .unsupportedValue t => "不支持的值类型: " ++ t
  | .inNeedsSlice => "IN 需要 []interface\x7b\x7d 值"
  | .betweenNeedsPair => "BETWEEN 需要 [2]interface\x7b\x7d"
  | .deleteWithoutWhere => "危险操作：不允许无 WHERE 的删除"
  | .emptyColumns => "columns 不能为空"
  | .emptySet => "set 不能为空"
  | .streamNameEmpty => "stream name cannot be empty"
  | .subqueryEmpty => "subquery cannot be empty"
  | .driver msg => msg

/-- The error taxonomy of the specification; `Unnamed` is an error of the code to which the
specification gives no name. -/
inductive ErrorKind
  | InvalidIdentifier
  | UnsupportedValueType
  | InvalidConditionShape
  | MissingWhereClause
  | EmptyColumnSet
  | EmptySetClause
  | Unnamed
  | Driver
  deriving DecidableEq, Repr

/-- The name the specification gives to each error of the code. -/
def Error.kind : Error → ErrorKind
  | .illegalIdent _ => .InvalidIdentifier
  | .emptyIdent => .InvalidIdentifier
  | .unsupportedValue _ => .UnsupportedValueType
  | .inNeedsSlice => .InvalidConditionShape
  | .betweenNeedsPair => .InvalidConditionShape
  | .deleteWithoutWhere => .MissingWhereClause
  | .emptyColumns => .EmptyColumnSet
  | .emptySet => .EmptySetClause
  | .streamNameEmpty => .Unnamed
  | .subqueryEmpty => .Unnamed
  | .driver _ => .Driver

/-! ## `types.go` -/

/-- The test of the loop body of `sanitizeIdent`: `_`, `0`-`9`, `A`-`Z`, `a`-`z`. -/
def isIdentRune (r : Char) : Bool :=
  r == '_' || ('0' ≤ r && r ≤ '9') || ('A' ≤ r && r ≤ 'Z') || ('a' ≤ r && r ≤ 'z')

/-- The `for _, r := range id` loop of `sanitizeIdent`, over the characters still to visit:
the error of the first character that fails the test, if there is one. -/
def sanitizeIdent.scan (id : String) : List Char → Option Error
  | [] => none
  | r :: rs => if !isIdentRune r then some (.illegalIdent id) else sanitizeIdent.scan id rs

/-- The function `sanitizeIdent` of `types.go`. -/
def sanitizeIdent (id : String) : Except Error String :=
  match sanitizeIdent.scan id id.data with
  | some e => .error e
  | none => if id = "" then .error .emptyIdent else .ok id

/-- The body of the `for _, ch := range val` loop of the `string` case of `formatValue`,
over the runes the `range` clause still has to deliver and from the accumulator `esc` on.
The accumulator only ever receives `''` and `string(ch)`, so it is well-formed text. -/
def formatValue.escape (esc : String) : List Char → String
  | [] => esc
  | ch :: rest =>
    if ch = Char.ofNat 39 then formatValue.escape (esc ++ "''") rest
    else formatValue.escape (esc ++ String.singleton ch) rest

/-- The function `formatValue` of `types.go`. -/
def formatValue (lib : GoLib) (v : GoValue) : Except Error String :=
  match v with
  | .nil => .ok "NULL"
  | .string val => .ok ("'" ++ formatValue.escape "" val.runes ++ "'")
  | .time val => .ok ("'" ++ val.Format ++ "'")
  | .int _ val => .ok (fmt.verbD val)
  | .uint _ val => .ok (fmt.verbD val)
  | .float32 bits => .ok (lib.formatFloat32 bits)
  | .float64 bits => .ok (lib.formatFloat64 bits)
  | .bool val => if val then .ok "1" else .ok "0"
  | v => .error (.unsupportedValue v.typeName)

/-! ## `filter.go` -/

/-- The struct `Condition` of `filter.go`: `column op value`. -/
structure Condition where
  Column : String
  Op : String
  Value : GoValue

/-- The struct `Filter` of `filter.go`. -/
structure Filter where
  Conditions : List Condition
  Conj : String
  OrderBy : String
  Desc : Bool
  Limit : Int

/-- The loop `for _, x := range xs` whose body computes `f x`, returns at once with its
error when it has one, and appends its result to the output slice otherwise: the outputs in
order, or the error of the first element at which `f` fails. -/
def appendEach {α β : Type} (f : α → Except Error β) : List α → Except Error (List β)
  | [] => .ok []
  | x :: rest =>
    match f x with
    | .error err => .error err
    | .ok y =>
      match appendEach f rest with
      | .error err => .error err
      | .ok ys => .ok (y :: ys)

/-- The `for _, v := range arr` loop of the `IN` branch of `buildWhere`, which formats every
element into `vals`. -/
def buildWhere.inVals (lib : GoLib) (arr : List GoValue) : Except Error (List String) :=
  appendEach (formatValue lib) arr

/-- The body of the `for _, c := range f.Conditions` loop of `buildWhere`: the fragment it
appends to `parts` for the condition `c`, or the error it returns. -/
def buildWhere.part (lib : GoLib) (c : Condition) : Except Error String :=
  match sanitizeIdent c.Column with
  | .error err => .error err
  | .ok col =>
    let op := strings.ToUpper lib (strings.TrimSpace c.Op)
    if op = "IN" then
      match c.Value with
      | .slice arr =>
        match buildWhere.inVals lib arr with
        | .error err => .error err
        | .ok vals => .ok (col ++ " IN (" ++ strings.Join vals ", " ++ ")")
      | _ => .error .inNeedsSlice
    else if op = "BETWEEN" then
      match c.Value with
      | .array2 lo hi =>
        match formatValue lib lo with
        | .error err => .error err
        | .ok l =>
          match formatValue lib hi with
          | .error err => .error err
          | .ok r => .ok (col ++ " BETWEEN " ++ l ++ " AND " ++ r)
      | _ => .error .betweenNeedsPair
    else
      match formatValue lib c.Value with
      | .error err => .error err
      | .ok fv => .ok (col ++ " " ++ op ++ " " ++ fv)

/-- The `for _, c := range f.Conditions` loop of `buildWhere`: the slice `parts` it builds,
or the error of the first condition that does not compile. -/
def buildWhere.parts (lib : GoLib) (conds : List Condition) : Except Error (List String) :=
  appendEach (buildWhere.part lib) conds

/-- The method `Filter.buildWhere` of `filter.go`. -/
def Filter.buildWhere (lib : GoLib) (f : Filter) : Except Error String :=
  if f.Conditions.length = 0 then .ok ""
  else
    let conj := strings.ToUpper lib (strings.TrimSpace f.Conj)
    let conj := if conj ≠ "AND" ∧ conj ≠ "OR" then "AND" else conj
    match buildWhere.parts lib f.Conditions with
    | .error err => .error err
    | .ok parts => .ok ("WHERE " ++ strings.Join parts (" " ++ conj ++ " "))

/-- The method `Filter.buildOrderLimit` of `filter.go`; `sb` is the string builder. -/
def Filter.buildOrderLimit (f : Filter) : Except Error String :=
  let sb := ""
  let ordered : Except Error String :=
    if f.OrderBy ≠ "" then
      match sanitizeIdent f.OrderBy with
      | .error err => .error err
      | .ok col =>
        let sb := sb ++ " ORDER BY " ++ col
        if f.Desc then .ok (sb ++ " DESC") else .ok sb
    else .ok sb
  match ordered with
  | .error err => .error err
  | .ok sb => if f.Limit > 0 then .ok (sb ++ " LIMIT " ++ fmt.verbD f.Limit) else .ok sb

/-! ## `client.go` -/

/-- A `sql.Result`, as far as the package reads it. -/
structure SqlResult where
  RowsAffected : Except Error Int

/-- The `*sql.DB` of a `Client`, as far as the package uses it: what the driver answers to
a statement handed to `c.DB.Exec`. -/
structure Driver where
  Exec : String → Except Error SqlResult

/-- What one call of a `Client` method does: the statements it handed to the driver, in
order, and what it returned. -/
structure Outcome (α : Type) where
  executed : List String
  result : Except Error α

/-- A Go `map[string]interface{}`, as an association list; a key is looked up at its first
entry. -/
abbrev Row := List (String × GoValue)

/-- The two-valued map access `v, ok := r[k]`. -/
def Row.get? (r : Row) (k : String) : Option GoValue :=
  (r.find? (fun kv => kv.1 == k)).map (fun kv => kv.2)

/-- The one-valued map access `v := r[k]`: the zero value of `interface{}`, which is `nil`,
when the key is absent. -/
def Row.get (r : Row) (k : String) : GoValue :=
  (r.get? k).getD .nil

/-- The keys of `colSet` in `BatchInsert` once every row has been visited: `ts` and every
key of every row, each once. -/
def BatchInsert.colSet (rows : List Row) : List String :=
  ("ts" :: (rows.flatMap (fun r => r.map (fun kv => kv.1)))).dedup

/-- The inner loop `for _, c := range sortCols` of `BatchInsert` for the row `r`. -/
def BatchInsert.vals (lib : GoLib) (r : Row) (sortCols : List String) :
    Except Error (List String) :=
  appendEach
    (fun c =>
      if c = "ts" then
        match r.get? "ts" with
        | some v => formatValue lib v
        | none => .ok "NOW()"
      else formatValue lib (r.get c))
    sortCols

/-- The outer loop `for _, r := range rows` of `BatchInsert` that builds `valGroups`. -/
def BatchInsert.valGroups (lib : GoLib) (sortCols : List String) (rows : List Row) :
    Except Error (List String) :=
  appendEach
    (fun r =>
      match BatchInsert.vals lib r sortCols with
      | .error err => .error err
      | .ok vals => .ok ("(" ++ strings.Join vals ", " ++ ")"))
    rows

/-- The method `Client.BatchInsert` of `client.go`. The order in which `range colSet`
delivers the keys of the map is not determined by the language; `cols` is the order it
takes in this call, a permutation of `BatchInsert.colSet rows`. -/
def Client.BatchInsert (lib : GoLib) (db : Driver) (cols : List String) (table : String)
    (rows : List Row) : Outcome Unit :=
  if rows.length = 0 then ⟨[], .ok ()⟩
  else
    match sanitizeIdent table with
    | .error err => ⟨[], .error err⟩
    | .ok tbl =>
      let sortCols := "ts" :: cols.filter (fun c => c ≠ "ts")
      match BatchInsert.valGroups lib sortCols rows with
      | .error err => ⟨[], .error err⟩
      | .ok valGroups =>
        let sqlStr := "INSERT INTO " ++ tbl ++ " (" ++ strings.Join sortCols ", " ++
          ") VALUES " ++ strings.Join valGroups " "
        ⟨[sqlStr],
          match db.Exec sqlStr with
          | .error err => .error err
          | .ok _ => .ok ()⟩

/-- The method `Client.Delete` of `client.go`. -/
def Client.Delete (lib : GoLib) (db : Driver) (table : String) (f : Filter) : Outcome Int :=
  match sanitizeIdent table with
  | .error err => ⟨[], .error err⟩
  | .ok tbl =>
    match f.buildWhere lib with
    | .error err => ⟨[], .error err⟩
    | .ok w =>
      if strings.TrimSpace w = "" then ⟨[], .error .deleteWithoutWhere⟩
      else
        let sqlStr := "DELETE FROM " ++ tbl ++ " " ++ w
        ⟨[sqlStr],
          match db.Exec sqlStr with
          | .error err => .error err
          | .ok res => res.RowsAffected⟩

/-! ## `query_helpers.go` -/

/-- The function `buildIntervalFill` of `query_helpers.go`; `interval` is a `time.Duration`,
a number of nanoseconds, and `/` on it is Go's integer division, which rounds toward
zero. -/
def buildIntervalFill (lib : GoLib) (interval : Int) (fill : String) : String :=
  let parts : List String := []
  let parts :=
    if interval > 0 then
      let sec := Int.tdiv interval time.Second
      parts ++ ["INTERVAL(" ++ fmt.verbD sec ++ "s)"]
    else parts
  let fill := strings.TrimSpace (strings.ToLower lib fill)
  let parts := if fill ≠ "" then parts ++ ["FILL(" ++ fill ++ ")"] else parts
  if parts.length = 0 then "" else " " ++ strings.Join parts " "

/-- The function `buildGroupByTags` of `query_helpers.go`. -/
def buildGroupByTags (tags : List String) : Except Error String :=
  if tags.length = 0 then .ok ""
  else
    match appendEach sanitizeIdent tags with
    | .error err => .error err
    | .ok parts => .ok (" GROUP BY " ++ strings.Join parts ", ")

/-! ## `client.go`: supertables and aggregate queries -/

/-- The struct `ColumnDef` of `types.go`; its field `Type` is written `Type_`. -/
structure ColumnDef where
  Name : String
  Type_ : String

/-- The body of the `for _, col := range columns` loop of `CreateStable`: the error it
returns, or the field definition it appends, if any (a column named `ts`, whatever the
letter case, is skipped). -/
def CreateStable.field (lib : GoLib) (col : ColumnDef) : Except Error (Option String) :=
  match sanitizeIdent col.Name with
  | .error err => .error err
  | .ok name =>
    if strings.EqualFold lib name "ts" then .ok none
    else .ok (some (name ++ " " ++ col.Type_))

/-- The body of the `for _, tag := range tagColumns` loop of `CreateStable`. -/
def CreateStable.tag (tag : ColumnDef) : Except Error String :=
  match sanitizeIdent tag.Name with
  | .error err => .error err
  | .ok name => .ok (name ++ " " ++ tag.Type_)

/-- The method `Client.CreateStable` of `client.go`. -/
def Client.CreateStable (lib : GoLib) (db : Driver) (stable : String)
    (columns tagColumns : List ColumnDef) : Outcome Unit :=
  match sanitizeIdent stable with
  | .error err => ⟨[], .error err⟩
  | .ok st =>
    if columns.length = 0 then ⟨[], .error .emptyColumns⟩
    else
      match appendEach (CreateStable.field lib) columns with
      | .error err => ⟨[], .error err⟩
      | .ok fields =>
        let fieldDefs := "ts TIMESTAMP" :: fields.reduceOption
        match appendEach CreateStable.tag tagColumns with
        | .error err => ⟨[], .error err⟩
        | .ok tagDefs =>
          let sqlStr := "CREATE STABLE IF NOT EXISTS " ++ st ++ " (" ++
            strings.Join fieldDefs ", " ++ ")"
          let sqlStr :=
            if tagDefs.length > 0 then sqlStr ++ " TAGS (" ++ strings.Join tagDefs ", " ++ ")"
            else sqlStr
          ⟨[sqlStr],
            match db.Exec sqlStr with
            | .error err => .error err
            | .ok _ => .ok ()⟩

/-- One row of a `*sql.Rows`, as the scanning loop reads it: what `rows.Columns()` returns
and what `rows.Scan` stores, by position. -/
structure SqlRow where
  Columns : Except Error (List String)
  Scan : Except Error (List GoValue)

/-- A `*sql.Rows`: the rows `rows.Next()` delivers, and what `rows.Err()` returns after
them. -/
structure SqlRows where
  rows : List SqlRow
  Err : Option Error

/-- The `*sql.DB` of a `Client`, as far as its query methods use it: what the driver
answers to a statement handed to `c.DB.Query`. -/
structure QueryDriver where
  Query : String → Except Error SqlRows

/-- The map assignment `row[k] = v`. -/
def Row.set (r : Row) (k : String) (v : GoValue) : Row :=
  r.filter (fun kv => kv.1 ≠ k) ++ [(k, v)]

/-- The loop `for i, col := range cols { row[col] = vals[i] }` of the scanning loop; a value
`rows.Scan` did not store is the `nil` of `make([]interface{}, len(cols))`. -/
def scanRows.fill : Row → List String → List GoValue → Row
  | row, [], _ => row
  | row, col :: cols, vals => scanRows.fill (row.set col (vals.headD .nil)) cols vals.tail

/-- The body of the `for rows.Next()` loop of the query methods: the map built for one
row. -/
def scanRows.row (r : SqlRow) : Except Error Row :=
  match r.Columns with
  | .error err => .error err
  | .ok cols =>
    match r.Scan with
    | .error err => .error err
    | .ok vals => .ok (scanRows.fill [] cols vals)

/-- The `for rows.Next()` loop of the query methods and their `return result, rows.Err()`.
When `rows.Err()` is not nil the Go code returns it together with the rows read so far; the
embedding keeps the error. -/
def scanRows (rows : SqlRows) : Except Error (List Row) :=
  match appendEach scanRows.row rows.rows with
  | .error err => .error err
  | .ok result =>
    match rows.Err with
    | some err => .error err
    | none => .ok result

/-- The method `Client.QueryAggregateAcrossStable` of `client.go`. -/
def Client.QueryAggregateAcrossStable (lib : GoLib) (db : QueryDriver) (stable : String)
    (aggExpr : String) (f : Filter) (groupTags : List String) (interval : Int)
    (fill : String) : Outcome (List Row) :=
  match sanitizeIdent stable with
  | .error err => ⟨[], .error err⟩
  | .ok st =>
    match f.buildWhere lib with
    | .error err => ⟨[], .error err⟩
    | .ok whereSql =>
      match buildGroupByTags groupTags with
      | .error err => ⟨[], .error err⟩
      | .ok group =>
        match f.buildOrderLimit with
        | .error err => ⟨[], .error err⟩
        | .ok post =>
          let intFill := buildIntervalFill lib interval fill
          let sqlStr := "SELECT " ++ aggExpr ++ " FROM " ++ st ++ " " ++ whereSql ++ group ++
            intFill ++ post
          ⟨[sqlStr],
            match db.Query sqlStr with
            | .error err => .error err
            | .ok rows => scanRows rows⟩

/-! ## `client.go`: insert and update -/

/-- The body of the inner loop `for _, c := range sortCols` of `BatchInsert`: the value it
appends for the row `r` and the column `c`, or the error it returns. -/
def BatchInsert.cell (lib : GoLib) (r : Row) (c : String) : Except Error String :=
  if c = "ts" then
    match r.get? "ts" with
    | some v => formatValue lib v
    | none => .ok "NOW()"
  else formatValue lib (r.get c)

/-- The body of the loop `for k, v := range row` of `Insert`: the error it returns, or the
column and value it appends, if any (a key equal to `ts` under case folding is skipped
before it is looked at). -/
def Insert.entry (lib : GoLib) (kv : String × GoValue) :
    Except Error (Option (String × String)) :=
  if strings.EqualFold lib kv.1 "ts" then .ok none
  else
    match sanitizeIdent kv.1 with
    | .error err => .error err
    | .ok col =>
      match formatValue lib kv.2 with
      | .error err => .error err
      | .ok fv => .ok (some (col, fv))

/-- The method `Client.Insert` of `client.go`. The row is visited in the order of its
association list, which stands for the order `range` takes in this call. -/
def Client.Insert (lib : GoLib) (db : Driver) (table : String) (row : Row) : Outcome Unit :=
  match sanitizeIdent table with
  | .error err => ⟨[], .error err⟩
  | .ok tbl =>
    let cols := ["ts"]
    let vals := ["NOW()"]
    let first : Except Error (List String) :=
      match row.get? "ts" with
      | some v =>
        match formatValue lib v with
        | .error err => .error err
        | .ok fv => .ok [fv]
      | none => .ok vals
    match first with
    | .error err => ⟨[], .error err⟩
    | .ok vals =>
      match appendEach (Insert.entry lib) row with
      | .error err => ⟨[], .error err⟩
      | .ok entries =>
        let cols := cols ++ entries.reduceOption.map (fun e => e.1)
        let vals := vals ++ entries.reduceOption.map (fun e => e.2)
        let sqlStr := "INSERT INTO " ++ tbl ++ " (" ++ strings.Join cols ", " ++
          ") VALUES (" ++ strings.Join vals ", " ++ ")"
        ⟨[sqlStr],
          match db.Exec sqlStr with
          | .error err => .error err
          | .ok _ => .ok ()⟩

/-- The body of the loop `for k, v := range set` of `Update`: the pair it appends, or the
error it returns. -/
def Update.pair (lib : GoLib) (kv : String × GoValue) : Except Error String :=
  match sanitizeIdent kv.1 with
  | .error err => .error err
  | .ok col =>
    match formatValue lib kv.2 with
    | .error err => .error err
    | .ok fv => .ok (col ++ "=" ++ fv)

/-- The method `Client.Update` of `client.go`. The assignment map is visited in the order of
its association list. -/
def Client.Update (lib : GoLib) (db : Driver) (table : String) (set : Row) (f : Filter) :
    Outcome Int :=
  match sanitizeIdent table with
  | .error err => ⟨[], .error err⟩
  | .ok tbl =>
    if set.length = 0 then ⟨[], .error .emptySet⟩
    else
      match appendEach (Update.pair lib) set with
      | .error err => ⟨[], .error err⟩
      | .ok pairs =>
        match f.buildWhere lib with
        | .error err => ⟨[], .error err⟩
        | .ok whereSql =>
          let sqlStr := "UPDATE " ++ tbl ++ " SET " ++ strings.Join pairs ", " ++ " " ++
            whereSql
          ⟨[sqlStr],
            match db.Exec sqlStr with
            | .error err => .error err
            | .ok res => res.RowsAffected⟩

/-! ## `stream.go` -/

/-- The struct `StreamDef` of `stream.go`; `Watermark` is a `time.Duration`. -/
structure StreamDef where
  Name : String
  TargetTable : String
  SubQuery : String
  IfNotExists : Bool
  Trigger : String
  Watermark : Int
  OtherOptions : List String

/-- The block `if def.Watermark > 0` of `CreateStream`: the text it writes to the builder,
which is nothing when the watermark is not positive. The operators `%` and `/` are Go's,
which round toward zero. -/
def CreateStream.watermark (w : Int) : String :=
  if w > 0 then
    let ms := time.Duration.Milliseconds w
    if Int.tmod ms 1000 = 0 then "WATERMARK " ++ fmt.verbD (Int.tdiv ms 1000) ++ "s "
    else "WATERMARK " ++ fmt.verbD ms ++ "ms "
  else ""

/-- The loop `for _, opt := range def.OtherOptions` of `CreateStream`, from the builder
`sb` on. -/
def CreateStream.options (sb : String) : List String → String
  | [] => sb
  | opt :: rest => CreateStream.options (sb ++ (opt ++ " ")) rest

/-- The method `Client.CreateStream` of `stream.go`; `sb` is the string builder. -/
def Client.CreateStream (db : Driver) (d : StreamDef) : Outcome Unit :=
  if d.Name = "" then ⟨[], .error .streamNameEmpty⟩
  else if d.SubQuery = "" then ⟨[], .error .subqueryEmpty⟩
  else
    let sb := "CREATE STREAM "
    let sb := if d.IfNotExists then sb ++ "IF NOT EXISTS " else sb
    match sanitizeIdent d.Name with
    | .error err => ⟨[], .error err⟩
    | .ok name =>
      let sb := sb ++ name
      let sb := sb ++ " "
      let sb := if d.Trigger ≠ "" then sb ++ ("TRIGGER " ++ d.Trigger ++ " ") else sb
      let sb := sb ++ CreateStream.watermark d.Watermark
      let sb := CreateStream.options sb d.OtherOptions
      let target : Except Error String :=
        if d.TargetTable ≠ "" then
          match sanitizeIdent d.TargetTable with
          | .error err => .error err
          | .ok target => .ok (sb ++ ("INTO " ++ target ++ " "))
        else .ok sb
      match target with
      | .error err => ⟨[], .error err⟩
      | .ok sb =>
        let sb := sb ++ ("AS " ++ d.SubQuery)
        ⟨[sb],
          match db.Exec sb with
          | .error err => .error err
          | .ok _ => .ok ()⟩

/-! ## The specification's vocabulary -/

/-- The identifier alphabet in the specification's words: an ASCII letter (`A`-`Z`,
`a`-`z`), an ASCII digit (`0`-`9`) or an underscore, by code point. -/
def IsIdentChar (c : Char) : Prop :=
  (65 ≤ c.toNat ∧ c.toNat ≤ 90) ∨ (97 ≤ c.toNat ∧ c.toNat ≤ 122) ∨
    (48 ≤ c.toNat ∧ c.toNat ≤ 57) ∨ c.toNat = 95

instance : DecidablePred IsIdentChar := fun c => by
  unfold IsIdentChar; infer_instance

/-- A valid identifier in the specification's words: non-empty, and every character in the
identifier alphabet. -/
def ValidIdent (s : String) : Prop :=
  s ≠ "" ∧ ∀ c ∈ s.data, IsIdentChar c

instance : DecidablePred ValidIdent := fun s => by
  unfold ValidIdent; infer_instance

/-- The escaping of the specification: every single quote replaced by two single quotes,
every other character copied unchanged, in order. -/
def doubleQuotes (s : String) : String :=
  String.mk (s.data.flatMap
    (fun c => if c = Char.ofNat 39 then [Char.ofNat 39, Char.ofNat 39] else [c]))

/-- The escaping of the specification read over the bytes of a string: every single-quote
byte replaced by two, every other byte copied unchanged, in order. -/
def GoString.doubleQuotes (s : GoString) : GoString :=
  ⟨s.bytes.flatMap (fun b => if b = 39 then [39, 39] else [b])⟩

/-- The value kinds the specification calls supported: the absent value, a string, a signed
or unsigned integer of any width, a floating-point number, a boolean, a timestamp. -/
def GoValue.Supported : GoValue → Prop
  | .nil => True
  | .string _ => True
  | .time _ => True
  | .int _ _ => True
  | .uint _ _ => True
  | .float32 _ => True
  | .float64 _ => True
  | .bool _ => True
  | .slice _ => False
  | .array2 _ _ => False
  | .other _ => False

instance : DecidablePred GoValue.Supported := fun v =>
  match v with
  | .nil => isTrue trivial
  | .string _ => isTrue trivial
  | .time _ => isTrue trivial
  | .int _ _ => isTrue trivial
  | .uint _ _ => isTrue trivial
  | .float32 _ => isTrue trivial
  | .float64 _ => isTrue trivial
  | .bool _ => isTrue trivial
  | .slice _ => isFalse (fun h => h)
  | .array2 _ _ => isFalse (fun h => h)
  | .other _ => isFalse (fun h => h)

/-- The un-escaping of the specification, scanning left to right: a single quote followed at
once by a second one is a doubled pair and stands for one quote; a single quote with no
partner would end the literal, and the scan fails there; every other character stands for
itself. -/
def unescapeQuotes : List Char → Option (List Char)
  | [] => some []
  | [c] => if c = Char.ofNat 39 then none else some [c]
  | c :: c2 :: rest =>
    if c = Char.ofNat 39 then
      if c2 = Char.ofNat 39 then (unescapeQuotes rest).map (fun r => Char.ofNat 39 :: r)
      else none
    else (unescapeQuotes (c2 :: rest)).map (fun r => c :: r)

/-- The number of single-quote characters of a string. -/
def quoteCount (s : String) : Nat :=
  s.data.count (Char.ofNat 39)

/-- The number of single-quote characters of a Go string: a single quote is the byte
`0x27`, and that byte is part of no longer sequence. -/
def GoString.quoteCount (s : GoString) : Nat :=
  s.bytes.count 39

/-- The base-10 digits of a natural number, most significant first and with no leading
zero; the number zero is the single digit `0`. -/
def decimalDigits (n : Nat) : List Char :=
  if n < 10 then [Char.ofNat (48 + n)]
  else decimalDigits (n / 10) ++ [Char.ofNat (48 + n % 10)]
termination_by n
decreasing_by omega

/-- Reading a run of digits as a number in base 10, from the value `acc` read so far; any
other character makes the reading fail. -/
def readDigits (acc : Nat) : List Char → Option Nat
  | [] => some acc
  | c :: cs =>
    if 48 ≤ c.toNat ∧ c.toNat ≤ 57 then readDigits (acc * 10 + (c.toNat - 48)) cs else none

/-- Reading a text as a decimal integer: an optional minus sign, then at least one digit and
nothing else. -/
def readDecimal (s : String) : Option Int :=
  match s.data with
  | [] => none
  | c :: cs =>
    if c = '-' then
      if cs = [] then none else (readDigits 0 cs).map (fun n => - (n : Int))
    else (readDigits 0 (c :: cs)).map (fun n => (n : Int))

/-- The decimal text of `n` zero-padded to the width `w`: its `w` low-order decimal digits,
most significant first (all of its digits when `n < 10 ^ w`). -/
def zeroPadded : Nat → Nat → List Char
  | 0, _ => []
  | w + 1, n => zeroPadded w (n / 10) ++ [Char.ofNat (48 + n % 10)]

/-- The ranges of the calendar and clock fields of a `time.Time`. -/
def Time.WellFormed (t : Time) : Prop :=
  1 ≤ t.month ∧ t.month ≤ 12 ∧ 1 ≤ t.day ∧ t.day ≤ 31 ∧ t.hour ≤ 23 ∧ t.minute ≤ 59 ∧
    t.second ≤ 59 ∧ t.nanosecond ≤ 999999999

instance : DecidablePred Time.WellFormed := fun t => by
  unfold Time.WellFormed; infer_instance

/-- The name `ts` in any letter case. -/
def IsTs (name : String) : Prop :=
  name = "ts" ∨ name = "tS" ∨ name = "Ts" ∨ name = "TS"

instance : DecidablePred IsTs := fun name => by
  unfold IsTs; infer_instance

/-- The literal of a value: the text `formatValue` returns for it, and the empty text for a
value it rejects. -/
def literal (lib : GoLib) (v : GoValue) : String :=
  match formatValue lib v with
  | .ok s => s
  | .error _ => ""

/-- The value of the row `r` in the column `c` of a batch: in the column `ts` the literal of
the row's own `ts` entry, and the text `NOW()` when the row has none; in any other column
the literal of what the map access `r[c]` returns. -/
def cellText (lib : GoLib) (r : Row) (c : String) : String :=
  if c = "ts" then
    match r.get? "ts" with
    | some v => literal lib v
    | none => "NOW()"
  else literal lib (r.get c)

/-! ## Identifier sanitizer -/

theorem char_le_iff_toNat (a b : Char) : a ≤ b ↔ a.toNat ≤ b.toNat := Iff.rfl

theorem char_eq_iff_toNat (a b : Char) : a = b ↔ a.toNat = b.toNat := by
  constructor
  · intro h; rw [h]
  · intro h
    apply Char.ext
    apply UInt32.ext
    simpa [Char.toNat, UInt32.toNat] using h

theorem isIdentRune_iff (r : Char) : isIdentRune r = true ↔ IsIdentChar r := by
  have e0 : ('0' : Char).toNat = 48 := rfl
  have e9 : ('9' : Char).toNat = 57 := rfl
  have eA : ('A' : Char).toNat = 65 := rfl
  have eZ : ('Z' : Char).toNat = 90 := rfl
  have ea : ('a' : Char).toNat = 97 := rfl
  have ez : ('z' : Char).toNat = 122 := rfl
  have eu : ('_' : Char).toNat = 95 := rfl
  simp only [isIdentRune, IsIdentChar, Bool.or_eq_true, Bool.and_eq_true, beq_iff_eq,
    decide_eq_true_eq, char_le_iff_toNat, char_eq_iff_toNat r, e0, e9, eA, eZ, ea, ez, eu]
  omega

theorem scan_eq_none_iff (id : String) (cs : List Char) :
    sanitizeIdent.scan id cs = none ↔ ∀ c ∈ cs, IsIdentChar c := by
  induction cs with
  | nil => simp [sanitizeIdent.scan]
  | cons r rs ih =>
    by_cases hr : isIdentRune r = true
    · simp [sanitizeIdent.scan, hr, ih, ← isIdentRune_iff r]
    · have hr2 : ¬ IsIdentChar r := fun h => hr ((isIdentRune_iff r).mpr h)
      simp [sanitizeIdent.scan, hr, hr2]

theorem scan_eq_some (id : String) (cs : List Char) (e : Error)
    (h : sanitizeIdent.scan id cs = some e) : e = .illegalIdent id := by
  induction cs with
  | nil => simp [sanitizeIdent.scan] at h
  | cons r rs ih =>
    by_cases hr : isIdentRune r = true
    · simp [sanitizeIdent.scan, hr] at h; exact ih h
    · simp [sanitizeIdent.scan, hr] at h; exact h.symm

/-- The sanitizer accepts exactly the valid identifiers, and returns them unchanged. -/
theorem sanitizeIdent_ok_iff (s r : String) :
    sanitizeIdent s = .ok r ↔ ValidIdent s ∧ r = s := by
  unfold sanitizeIdent ValidIdent
  cases hscan : sanitizeIdent.scan s s.data with
  | some e =>
    have hne : ¬ ∀ c ∈ s.data, IsIdentChar c := by
      rw [← scan_eq_none_iff s]; simp [hscan]
    simp [hne]
  | none =>
    have hall := (scan_eq_none_iff s s.data).mp hscan
    by_cases hs : s = ""
    · simp [hs]
    · simp only [hs, if_false, Except.ok.injEq, ne_eq, not_false_eq_true, true_and]
      constructor
      · intro h; exact ⟨hall, h.symm⟩
      · intro h; exact h.2.symm

/-- Whatever the sanitizer rejects, it rejects with one of its two identifier errors. -/
theorem sanitizeIdent_error (s : String) (e : Error) (h : sanitizeIdent s = .error e) :
    e = .illegalIdent s ∨ (e = .emptyIdent ∧ s = "") := by
  unfold sanitizeIdent at h
  cases hscan : sanitizeIdent.scan s s.data with
  | some e2 =>
    rw [hscan] at h
    simp only [Except.error.injEq] at h
    left; rw [← h]; exact scan_eq_some s s.data e2 hscan
  | none =>
    rw [hscan] at h
    by_cases hs : s = ""
    · right; simp [hs] at h; exact ⟨h.symm, hs⟩
    · simp [hs] at h

theorem sanitizeIdent_valid (s : String) (h : ValidIdent s) : sanitizeIdent s = .ok s :=
  (sanitizeIdent_ok_iff s s).mpr ⟨h, rfl⟩

theorem sanitizeIdent_invalid (s : String) (h : ¬ ValidIdent s) :
    ∃ e, sanitizeIdent s = .error e ∧ e.kind = .InvalidIdentifier := by
  cases hr : sanitizeIdent s with
  | ok r => exact absurd ((sanitizeIdent_ok_iff s r).mp hr).1 h
  | error e =>
    refine ⟨e, rfl, ?_⟩
    rcases sanitizeIdent_error s e hr with h1 | ⟨h1, _⟩ <;> rw [h1] <;> rfl

/-- C1. For every string `s`, `sanitizeIdent s` succeeds if and only if `s` is non-empty and
every character of `s` is an ASCII letter, an ASCII digit or an underscore; when it succeeds
it returns `s` unchanged, and in every other case (the empty string, or any other character
anywhere in `s`) it returns an error of kind `InvalidIdentifier`. -/
theorem sanitizeIdent_contract (s : String) :
    ((∃ r, sanitizeIdent s = .ok r) ↔ ValidIdent s) ∧
    (∀ r, sanitizeIdent s = .ok r → r = s) ∧
    (¬ ValidIdent s → ∃ e, sanitizeIdent s = .error e ∧ e.kind = .InvalidIdentifier) := by
  refine ⟨⟨?_, ?_⟩, ?_, sanitizeIdent_invalid s⟩
  · rintro ⟨r, hr⟩; exact ((sanitizeIdent_ok_iff s r).mp hr).1
  · intro h; exact ⟨s, sanitizeIdent_valid s h⟩
  · intro r hr; exact ((sanitizeIdent_ok_iff s r).mp hr).2

/-- The identifier `abc_123` is accepted unchanged; the empty string, `abc-123` and the
non-ASCII letter in `café` are rejected (the cases of `TestSanitizeIdent`). -/
theorem sanitizeIdent_contract_witness :
    sanitizeIdent "abc_123" = .ok "abc_123" ∧
    (∃ e, sanitizeIdent "" = .error e ∧ e.kind = .InvalidIdentifier) ∧
    (∃ e, sanitizeIdent "abc-123" = .error e ∧ e.kind = .InvalidIdentifier) ∧
    (∃ e, sanitizeIdent "café" = .error e ∧ e.kind = .InvalidIdentifier) := by
  refine ⟨?_, (sanitizeIdent_contract "").2.2 (by decide),
    (sanitizeIdent_contract "abc-123").2.2 (by decide),
    (sanitizeIdent_contract "café").2.2 (by decide)⟩
  obtain ⟨r, hr⟩ := (sanitizeIdent_contract "abc_123").1.mpr (by decide)
  rw [hr, (sanitizeIdent_contract "abc_123").2.1 r hr]

/-! ## UTF-8: what `range` reads from a string -/

theorem uint8_toNat_ofNat_lt (n : Nat) (h : n < 256) : (UInt8.ofNat n).toNat = n := by
  simp [UInt8.ofNat, UInt8.toNat, Nat.mod_eq_of_lt h]

theorem char_valid (c : Char) : c.toNat < 0xD800 ∨ (0xDFFF < c.toNat ∧ c.toNat < 0x110000) :=
  c.valid

theorem DecodeRune_AppendRune (c : Char) (rest : List UInt8) :
    utf8.DecodeRuneInString (utf8.AppendRune c ++ rest) = (c, (utf8.AppendRune c).length) := by
  have hv := char_valid c
  have hc := Char.ofNat_toNat c
  unfold utf8.AppendRune
  generalize c.toNat = v at hv hc ⊢
  by_cases h1 : v < 0x80
  · have e0 : (UInt8.ofNat v).toNat = v := uint8_toNat_ofNat_lt v (by omega)
    have f0 : utf8.first v = 1 := by simp [utf8.first, h1]
    simp only [h1, if_true, List.cons_append, List.nil_append, utf8.DecodeRuneInString, e0, f0,
      hc, List.length_singleton]
  · by_cases h2 : v < 0x800
    · have e0 : (UInt8.ofNat (0xC0 + v / 64)).toNat = 0xC0 + v / 64 :=
        uint8_toNat_ofNat_lt _ (by omega)
      have e1 : (UInt8.ofNat (0x80 + v % 64)).toNat = 0x80 + v % 64 :=
        uint8_toNat_ofNat_lt _ (by omega)
      have f0 : utf8.first (0xC0 + v / 64) = 2 := by
        unfold utf8.first; split_ifs <;> omega
      have a0 : utf8.acceptRange (0xC0 + v / 64) = (0x80, 0xBF) := by
        unfold utf8.acceptRange; split_ifs <;> first | rfl | omega
      have hval : (0xC0 + v / 64) % 32 * 64 + (0x80 + v % 64) % 64 = v := by omega
      have g1 : ¬ (0x80 + v % 64 < 0x80 ∨ 0xBF < 0x80 + v % 64) := by omega
      simp [h1, h2, utf8.DecodeRuneInString, e0, e1, f0, a0, hval, hc, g1]
      split_ifs <;> first | omega | exact Prod.ext (hc ▸ congrArg Char.ofNat (by omega)) rfl
    · by_cases h3 : v < 0x10000
      · have e0 : (UInt8.ofNat (0xE0 + v / 4096)).toNat = 0xE0 + v / 4096 :=
          uint8_toNat_ofNat_lt _ (by omega)
        have e1 : (UInt8.ofNat (0x80 + v / 64 % 64)).toNat = 0x80 + v / 64 % 64 :=
          uint8_toNat_ofNat_lt _ (by omega)
        have e2 : (UInt8.ofNat (0x80 + v % 64)).toNat = 0x80 + v % 64 :=
          uint8_toNat_ofNat_lt _ (by omega)
        have f0 : utf8.first (0xE0 + v / 4096) = 3 := by
          unfold utf8.first; split_ifs <;> omega
        have a0 : ¬ (0x80 + v / 64 % 64 < (utf8.acceptRange (0xE0 + v / 4096)).1 ∨
            (utf8.acceptRange (0xE0 + v / 4096)).2 < 0x80 + v / 64 % 64) := by
          unfold utf8.acceptRange; split_ifs <;> simp only <;> omega
        have hval : (0xE0 + v / 4096) % 16 * 4096 + (0x80 + v / 64 % 64) % 64 * 64 +
            (0x80 + v % 64) % 64 = v := by omega
        have g1 : ¬ (0x80 + v % 64 < 0x80 ∨ 0xBF < 0x80 + v % 64) := by omega
        simp [h1, h2, h3, utf8.DecodeRuneInString, e0, e1, e2, f0, a0, hval, hc, g1]
        split_ifs <;> first | omega | exact Prod.ext (hc ▸ congrArg Char.ofNat (by omega)) rfl
      · have e0 : (UInt8.ofNat (0xF0 + v / 262144)).toNat = 0xF0 + v / 262144 :=
          uint8_toNat_ofNat_lt _ (by omega)
        have e1 : (UInt8.ofNat (0x80 + v / 4096 % 64)).toNat = 0x80 + v / 4096 % 64 :=
          uint8_toNat_ofNat_lt _ (by omega)
        have e2 : (UInt8.ofNat (0x80 + v / 64 % 64)).toNat = 0x80 + v / 64 % 64 :=
          uint8_toNat_ofNat_lt _ (by omega)
        have e3 : (UInt8.ofNat (0x80 + v % 64)).toNat = 0x80 + v % 64 :=
          uint8_toNat_ofNat_lt _ (by omega)
        have f0 : utf8.first (0xF0 + v / 262144) = 4 := by
          unfold utf8.first; split_ifs <;> omega
        have a0 : ¬ (0x80 + v / 4096 % 64 < (utf8.acceptRange (0xF0 + v / 262144)).1 ∨
            (utf8.acceptRange (0xF0 + v / 262144)).2 < 0x80 + v / 4096 % 64) := by
          unfold utf8.acceptRange; split_ifs <;> simp only <;> omega
        have hval : (0xF0 + v / 262144) % 8 * 262144 + (0x80 + v / 4096 % 64) % 64 * 4096 +
            (0x80 + v / 64 % 64) % 64 * 64 + (0x80 + v % 64) % 64 = v := by omega
        have g1 : ¬ (0x80 + v % 64 < 0x80 ∨ 0xBF < 0x80 + v % 64) := by omega
        have g2 : ¬ (0x80 + v / 64 % 64 < 0x80 ∨ 0xBF < 0x80 + v / 64 % 64) := by omega
        simp [h1, h2, h3, utf8.DecodeRuneInString, e0, e1, e2, e3, f0, a0, hval, hc, g1, g2]
        split_ifs <;> first | omega | exact Prod.ext (hc ▸ congrArg Char.ofNat (by omega)) rfl


theorem AppendRune_length_pos (c : Char) : 0 < (utf8.AppendRune c).length := by
  unfold utf8.AppendRune
  split_ifs <;> simp

theorem rangeLoop_AppendRune (cs : List Char) :
    ∀ fuel, (cs.flatMap utf8.AppendRune).length ≤ fuel →
      GoString.rangeLoop fuel (cs.flatMap utf8.AppendRune) = cs := by
  induction cs with
  | nil =>
    intro fuel _
    cases fuel <;> rfl
  | cons c cs ih =>
    intro fuel hfuel
    have hpos := AppendRune_length_pos c
    rw [List.flatMap_cons] at hfuel ⊢
    rw [List.length_append] at hfuel
    obtain ⟨f, rfl⟩ : ∃ f, fuel = f + 1 := ⟨fuel - 1, by omega⟩
    have hd := DecodeRune_AppendRune c (cs.flatMap utf8.AppendRune)
    cases hs : utf8.AppendRune c ++ cs.flatMap utf8.AppendRune with
    | nil =>
      have := congrArg List.length hs
      rw [List.length_append, List.length_nil] at this
      omega
    | cons s0 tl =>
      rw [hs] at hd
      simp only [GoString.rangeLoop, hd]
      rw [← hs, List.drop_left, ih f (by omega)]

theorem runes_ofString (s : String) : (GoString.ofString s).runes = s.data :=
  rangeLoop_AppendRune s.data _ (le_refl _)


theorem first_cases (x : Nat) :
    (utf8.first x = 1 ∧ x < 0x80) ∨ (utf8.first x = 0 ∧ 0x80 ≤ x) ∨
    (utf8.first x = 2 ∧ 0xC2 ≤ x ∧ x ≤ 0xDF) ∨ (utf8.first x = 3 ∧ 0xE0 ≤ x ∧ x ≤ 0xEF) ∨
    (utf8.first x = 4 ∧ 0xF0 ≤ x ∧ x ≤ 0xF4) := by
  unfold utf8.first
  split_ifs <;> omega

theorem acceptRange_lo (x : Nat) :
    0x80 ≤ (utf8.acceptRange x).1 ∧ (x = 0xE0 → (utf8.acceptRange x).1 = 0xA0) ∧
    (x = 0xF0 → (utf8.acceptRange x).1 = 0x90) ∧ (utf8.acceptRange x).2 ≤ 0xBF := by
  unfold utf8.acceptRange
  split_ifs <;> simp <;> omega

theorem mem_take_getD (rest : List UInt8) (n : Nat) (b : UInt8) (hn : n ≤ 3)
    (hb : b ∈ rest.take n) :
    (1 ≤ n ∧ b = rest.getD 0 0) ∨ (2 ≤ n ∧ b = rest.getD 1 0) ∨ (3 ≤ n ∧ b = rest.getD 2 0) := by
  rcases n with _ | _ | _ | _ | n
  · simp at hb
  · rcases rest with _ | ⟨s1, tl⟩
    · simp at hb
    · simp at hb; left; simp [hb]
  · rcases rest with _ | ⟨s1, _ | ⟨s2, tl⟩⟩
    · simp at hb
    · simp at hb; left; simp [hb]
    · simp at hb; rcases hb with h | h
      · left; simp [h]
      · right; left; simp [h]
  · rcases rest with _ | ⟨s1, _ | ⟨s2, _ | ⟨s3, tl⟩⟩⟩
    · simp at hb
    · simp at hb; left; simp [hb]
    · simp at hb; rcases hb with h | h
      · left; simp [h]
      · right; left; simp [h]
    · simp at hb; rcases hb with h | h | h
      · left; simp [h]
      · right; left; simp [h]
      · right; right; simp [h]
  · omega

theorem DecodeRune_spec (s0 : UInt8) (rest : List UInt8) (d : Char × Nat)
    (hd : utf8.DecodeRuneInString (s0 :: rest) = d) :
    (d.2 = 1 ∧ s0.toNat < 0x80 ∧ d.1 = Char.ofNat s0.toNat) ∨
    (1 ≤ d.2 ∧ d.2 ≤ rest.length + 1 ∧ 0x80 ≤ s0.toNat ∧
      (∀ b ∈ rest.take (d.2 - 1), 0x80 ≤ b.toNat) ∧ ∃ X, 0x80 ≤ X ∧ d.1 = Char.ofNat X) := by
  have hf := first_cases s0.toNat
  have ha := acceptRange_lo s0.toNat
  have herr : 0x80 ≤ s0.toNat →
      (1 ≤ (utf8.RuneError, 1).2 ∧ (utf8.RuneError, 1).2 ≤ rest.length + 1 ∧ 0x80 ≤ s0.toNat ∧
      (∀ b ∈ rest.take ((utf8.RuneError, 1).2 - 1), 0x80 ≤ b.toNat) ∧
        ∃ X, 0x80 ≤ X ∧ (utf8.RuneError, 1).1 = Char.ofNat X) := by
    intro h
    refine ⟨le_refl _, by simp, h, by simp, 0xFFFD, by norm_num, rfl⟩
  unfold utf8.DecodeRuneInString at hd
  simp only [] at hd
  generalize utf8.first s0.toNat = sz at hf hd
  generalize (utf8.acceptRange s0.toNat).1 = lo at ha hd
  generalize (utf8.acceptRange s0.toNat).2 = hi at ha hd
  have hmem : ∀ n, n ≤ 3 → ∀ b ∈ rest.take n,
      (1 ≤ n ∧ b = rest.getD 0 0) ∨ (2 ≤ n ∧ b = rest.getD 1 0) ∨ (3 ≤ n ∧ b = rest.getD 2 0) :=
    fun n hn b hb => mem_take_getD rest n b hn hb
  split_ifs at hd with c1 c0 clen ca c2 cb c3 cc <;> subst hd
  · left; exact ⟨rfl, by omega, rfl⟩
  · right; exact herr (by omega)
  · right; exact herr (by omega)
  · right; exact herr (by omega)
  · right
    refine ⟨?_, ?_, ?_, ?_, _, ?_, rfl⟩ <;> dsimp only
    · omega
    · omega
    · omega
    · intro b hb
      rcases hmem _ (by omega) b hb with ⟨_, rfl⟩ | ⟨_, rfl⟩ | ⟨_, rfl⟩ <;> omega
    · omega
  · right; exact herr (by omega)
  · right
    refine ⟨?_, ?_, ?_, ?_, _, ?_, rfl⟩ <;> dsimp only
    · omega
    · omega
    · omega
    · intro b hb
      rcases hmem _ (by omega) b hb with ⟨_, rfl⟩ | ⟨_, rfl⟩ | ⟨_, rfl⟩ <;> omega
    · omega
  · right; exact herr (by omega)
  · right
    refine ⟨?_, ?_, ?_, ?_, _, ?_, rfl⟩ <;> dsimp only
    · omega
    · omega
    · omega
    · intro b hb
      rcases hmem _ (by omega) b hb with ⟨_, rfl⟩ | ⟨_, rfl⟩ | ⟨_, rfl⟩ <;> omega
    · omega


theorem DecodeRune_width_pos (s0 : UInt8) (rest : List UInt8) :
    1 ≤ (utf8.DecodeRuneInString (s0 :: rest)).2 := by
  rcases DecodeRune_spec s0 rest _ rfl with ⟨hw, _, _⟩ | ⟨hw, _⟩
  · omega
  · exact hw

/-- The fuel of the `range` loop never cuts it short: any two amounts of fuel that are at
least the number of bytes give the same runes. -/
theorem rangeLoop_fuel :
    ∀ (fuel : Nat) (s : List UInt8), s.length ≤ fuel → ∀ fuel2 : Nat, s.length ≤ fuel2 →
      GoString.rangeLoop fuel s = GoString.rangeLoop fuel2 s := by
  intro fuel
  induction fuel with
  | zero =>
    intro s hs fuel2 _
    have : s = [] := List.length_eq_zero.mp (by omega)
    subst this
    cases fuel2 <;> rfl
  | succ f ih =>
    intro s hs fuel2 hs2
    cases s with
    | nil => cases fuel2 <;> rfl
    | cons s0 rest =>
      obtain ⟨f2, rfl⟩ : ∃ f2, fuel2 = f2 + 1 := ⟨fuel2 - 1, by simp at hs2; omega⟩
      have hw := DecodeRune_width_pos s0 rest
      simp only [GoString.rangeLoop]
      congr 1
      apply ih
      · simp at hs ⊢; omega
      · simp at hs2 ⊢; omega

theorem uint8_eq_iff_toNat (a b : UInt8) : a = b ↔ a.toNat = b.toNat := by
  constructor
  · intro h; rw [h]
  · intro h
    apply UInt8.ext
    simpa [UInt8.toNat] using h

theorem char_toNat_ofNat_valid (X : Nat) (h : X.isValidChar) : (Char.ofNat X).toNat = X := by
  unfold Char.ofNat
  rw [dif_pos h]
  simp only [Char.ofNatAux, Char.toNat, UInt32.toNat]
  have : X < 4294967296 := by
    rcases h with h | ⟨_, h⟩ <;> omega
  simp [Nat.mod_eq_of_lt this]

theorem char_ofNat_eq_quote (X : Nat) : Char.ofNat X = Char.ofNat 39 ↔ X = 39 := by
  constructor
  · intro h
    by_cases hv : X.isValidChar
    · have := congrArg Char.toNat h
      rw [char_toNat_ofNat_valid X hv, char_toNat_ofNat_valid 39 (by decide)] at this
      exact this
    · exfalso
      unfold Char.ofNat at h
      rw [dif_neg hv] at h
      exact absurd h (by decide)
  · intro h; rw [h]

theorem count_zero_of_high (l : List UInt8) (h : ∀ b ∈ l, 0x80 ≤ b.toNat) :
    l.count 39 = 0 := by
  rw [List.count_eq_zero]
  intro hm
  have := h 39 hm
  exact absurd this (by decide)

theorem count_quote_rangeLoop :
    ∀ (fuel : Nat) (s : List UInt8), s.length ≤ fuel →
      (GoString.rangeLoop fuel s).count (Char.ofNat 39) = s.count 39 := by
  intro fuel
  induction fuel with
  | zero =>
    intro s hs
    have : s = [] := List.length_eq_zero.mp (by omega)
    subst this
    rfl
  | succ f ih =>
    intro s hs
    cases s with
    | nil => rfl
    | cons s0 rest =>
      simp only [GoString.rangeLoop]
      rcases DecodeRune_spec s0 rest _ rfl with ⟨hw, hx, hr⟩ | ⟨hw1, hw2, hx, htake, X, hX, hr⟩
      · rw [hw, hr, List.drop_one, List.tail_cons]
        by_cases h39 : s0.toNat = 39
        · have e2 : s0 = 39 := (uint8_eq_iff_toNat s0 39).mpr h39
          rw [h39, e2, List.count_cons_self, List.count_cons_self, ih rest (by simpa using hs)]
        · have e1 : ¬ Char.ofNat s0.toNat = Char.ofNat 39 := by
            rw [char_ofNat_eq_quote]; exact h39
          have e2 : ¬ s0 = 39 := fun h => h39 ((uint8_eq_iff_toNat s0 39).mp h)
          rw [List.count_cons_of_ne (Ne.symm e1), List.count_cons_of_ne (Ne.symm e2),
            ih rest (by simpa using hs)]
      · obtain ⟨w, hw⟩ : ∃ w, (utf8.DecodeRuneInString (s0 :: rest)).2 = w + 1 :=
          ⟨_, (Nat.sub_add_cancel hw1).symm⟩
        rw [hw] at hw2 htake ⊢
        rw [hr, List.drop_succ_cons]
        have hq : ¬ Char.ofNat X = Char.ofNat 39 := by
          rw [char_ofNat_eq_quote]; omega
        have hs0 : ¬ s0 = 39 := by
          rw [uint8_eq_iff_toNat]
          have : (39 : UInt8).toNat = 39 := rfl
          omega
        have hsplit : rest.count 39 = (rest.take w).count 39 + (rest.drop w).count 39 := by
          rw [← List.count_append, List.take_append_drop]
        rw [List.count_cons_of_ne (Ne.symm hq), List.count_cons_of_ne (Ne.symm hs0), hsplit,
          count_zero_of_high _ (by simpa using htake), Nat.zero_add]
        apply ih
        simp at hs ⊢
        omega

theorem count_quote_runes (s : GoString) :
    s.runes.count (Char.ofNat 39) = s.bytes.count 39 :=
  count_quote_rangeLoop _ _ (le_refl _)


theorem AppendRune_no_quote (c : Char) (hc : c ≠ Char.ofNat 39) :
    ∀ b ∈ utf8.AppendRune c, b ≠ 39 := by
  have hv := char_valid c
  have hne : c.toNat ≠ 39 := by
    intro h
    apply hc
    rw [← Char.ofNat_toNat c, h]
  have h39 : (39 : UInt8).toNat = 39 := rfl
  intro b hb hb39
  unfold utf8.AppendRune at hb
  generalize c.toNat = v at hv hne hb
  subst hb39
  split_ifs at hb <;> simp only [List.mem_cons, List.mem_singleton, List.not_mem_nil,
    or_false, uint8_eq_iff_toNat, h39] at hb
  · rw [uint8_toNat_ofNat_lt _ (by omega)] at hb; omega
  · rw [uint8_toNat_ofNat_lt _ (by omega), uint8_toNat_ofNat_lt _ (by omega)] at hb; omega
  · rw [uint8_toNat_ofNat_lt _ (by omega), uint8_toNat_ofNat_lt _ (by omega),
      uint8_toNat_ofNat_lt _ (by omega)] at hb; omega
  · rw [uint8_toNat_ofNat_lt _ (by omega), uint8_toNat_ofNat_lt _ (by omega),
      uint8_toNat_ofNat_lt _ (by omega), uint8_toNat_ofNat_lt _ (by omega)] at hb; omega

theorem flatMap_double_of_no_quote (l : List UInt8) (h : ∀ b ∈ l, b ≠ 39) :
    l.flatMap (fun b : UInt8 => if b = 39 then [39, 39] else [b]) = l := by
  induction l with
  | nil => rfl
  | cons b rest ih =>
    have hb : b ≠ 39 := h b (by simp)
    rw [List.flatMap_cons, if_neg hb, ih (fun x hx => h x (by simp [hx]))]
    rfl

theorem ofString_doubleQuotes (s : String) :
    GoString.ofString (doubleQuotes s) = (GoString.ofString s).doubleQuotes := by
  have key : ∀ cs : List Char,
      (cs.flatMap (fun c : Char =>
        if c = Char.ofNat 39 then [Char.ofNat 39, Char.ofNat 39] else [c])).flatMap
          utf8.AppendRune =
      (cs.flatMap utf8.AppendRune).flatMap
        (fun b : UInt8 => if b = 39 then [39, 39] else [b]) := by
    intro cs
    induction cs with
    | nil => rfl
    | cons c rest ih =>
      rw [List.flatMap_cons, List.flatMap_cons, List.flatMap_append, List.flatMap_append, ih]
      congr 1
      by_cases hc : c = Char.ofNat 39
      · subst hc
        rfl
      · rw [if_neg hc, flatMap_double_of_no_quote _ (AppendRune_no_quote c hc)]
        simp
  unfold GoString.ofString GoString.doubleQuotes doubleQuotes
  rw [key]

theorem quoteCount_ofString (s : String) :
    (GoString.ofString s).quoteCount = quoteCount s := by
  unfold quoteCount
  rw [← runes_ofString s, count_quote_runes]
  rfl

theorem ofString_append (a b : String) :
    (GoString.ofString (a ++ b)).bytes =
      (GoString.ofString a).bytes ++ (GoString.ofString b).bytes := by
  simp [GoString.ofString, List.flatMap_append]

theorem ofString_quoted (x : String) :
    GoString.ofString ("'" ++ x ++ "'") = ⟨39 :: (GoString.ofString x).bytes ++ [39]⟩ := by
  have hq : (GoString.ofString "'").bytes = [39] := rfl
  have h : (GoString.ofString ("'" ++ x ++ "'")).bytes =
      39 :: (GoString.ofString x).bytes ++ [39] := by
    rw [ofString_append, ofString_append, hq]
    rfl
  cases hx : GoString.ofString ("'" ++ x ++ "'") with
  | mk bs =>
    rw [hx] at h
    simp only at h
    rw [h]

/-! ## Literal formatter: strings -/

theorem escape_eq (esc : String) (cs : List Char) :
    formatValue.escape esc cs = esc ++ doubleQuotes (String.mk cs) := by
  induction cs generalizing esc with
  | nil =>
    apply String.ext
    simp [formatValue.escape, doubleQuotes]
  | cons ch rest ih =>
    by_cases hq : ch = Char.ofNat 39
    · rw [formatValue.escape, if_pos hq, ih]
      apply String.ext
      have h2 : ("''" : String).data = [Char.ofNat 39, Char.ofNat 39] := rfl
      simp [doubleQuotes, hq, h2]
    · rw [formatValue.escape, if_neg hq, ih]
      apply String.ext
      simp [doubleQuotes, hq, String.singleton]

theorem formatValue_string_runes (lib : GoLib) (b : GoString) :
    formatValue lib (.string b) = .ok ("'" ++ doubleQuotes (String.mk b.runes) ++ "'") := by
  have h := escape_eq "" b.runes
  simp only [formatValue, h]
  congr 2

theorem formatValue_string_eq (lib : GoLib) (s : String) :
    formatValue lib (.string s) = .ok ("'" ++ doubleQuotes s ++ "'") := by
  rw [formatValue_string_runes, runes_ofString]

theorem doubleQuotes_of_no_quote (s : String) (h : Char.ofNat 39 ∉ s.data) :
    doubleQuotes s = s := by
  have key : ∀ cs : List Char, Char.ofNat 39 ∉ cs →
      cs.flatMap (fun c : Char => if c = Char.ofNat 39 then [Char.ofNat 39, Char.ofNat 39]
        else [c]) = cs := by
    intro cs
    induction cs with
    | nil => intro _; rfl
    | cons c rest ih =>
      intro hcs
      have hc : c ≠ Char.ofNat 39 := fun e => hcs (by simp [e])
      have hr : Char.ofNat 39 ∉ rest := fun e => hcs (by simp [e])
      simp [List.flatMap_cons, hc, ih hr]
  apply String.ext
  exact key s.data h

/-- C3 as stated fails: the four bytes `a`, `0xFF`, `b`, `'` are a Go string that is not
well-formed UTF-8, and `formatValue` returns for it a quote, `a`, U+FFFD, `b` and three
quotes. The byte `0xFF` is not copied unchanged: the output holds the three bytes
`EF BF BD` of U+FFFD in its place, and is not the input with its quote doubled between two
quotes. -/
theorem formatValue_string_invalid_byte_replaced :
    (∀ lib : GoLib,
      formatValue lib (.string ⟨[0x61, 0xFF, 0x62, 0x27]⟩) = .ok "'a\uFFFDb'''") ∧
    (GoString.ofString "'a\uFFFDb'''").bytes =
      [0x27, 0x61, 0xEF, 0xBF, 0xBD, 0x62, 0x27, 0x27, 0x27] ∧
    (0x27 :: (GoString.doubleQuotes ⟨[0x61, 0xFF, 0x62, 0x27]⟩).bytes ++ [0x27] : List UInt8) =
      [0x27, 0x61, 0xFF, 0x62, 0x27, 0x27, 0x27] ∧
    (GoString.ofString "'a\uFFFDb'''").bytes ≠
      0x27 :: (GoString.doubleQuotes ⟨[0x61, 0xFF, 0x62, 0x27]⟩).bytes ++ [0x27] ∧
    (0xFF : UInt8) ∉ (GoString.ofString "'a\uFFFDb'''").bytes :=
  ⟨fun _ => rfl, by decide, by decide, by decide, by decide⟩

/-- C3, amended. For every string, whatever its bytes, `formatValue` succeeds, and what it
quotes are the characters a `range` loop reads from the string. For every string `s` that
is well-formed UTF-8, it returns a single quote, then `s` with every single quote replaced
by two single quotes and every other character (a backslash included) copied unchanged and
in order, then a closing single quote, which is the same in characters and in bytes. A
well-formed string with no single quote comes back wrapped in one pair of quotes, and `a'b`
becomes `'a''b'`. -/
theorem formatValue_string_contract (lib : GoLib) (s : String) :
    (∀ b : GoString,
      formatValue lib (.string b) = .ok ("'" ++ doubleQuotes (String.mk b.runes) ++ "'")) ∧
    formatValue lib (.string s) = .ok ("'" ++ doubleQuotes s ++ "'") ∧
    GoString.ofString ("'" ++ doubleQuotes s ++ "'") =
      ⟨39 :: (GoString.doubleQuotes s).bytes ++ [39]⟩ ∧
    (Char.ofNat 39 ∉ s.data → formatValue lib (.string s) = .ok ("'" ++ s ++ "'")) ∧
    formatValue lib (.string "a'b") = .ok "'a''b'" ∧
    formatValue lib (.string "a\\b") = .ok "'a\\b'" := by
  refine ⟨formatValue_string_runes lib, formatValue_string_eq lib s, ?_, ?_, rfl, rfl⟩
  · rw [ofString_quoted, ofString_doubleQuotes]
  · intro h
    rw [formatValue_string_eq, doubleQuotes_of_no_quote s h]

/-- The string `roomA` has no quote and comes back as `'roomA'`. -/
theorem formatValue_string_contract_witness :
    formatValue GoLib.sample (.string "roomA") = .ok "'roomA'" :=
  (formatValue_string_contract GoLib.sample "roomA").2.2.2.1 (by decide)

/-! ## Batch insert: column names -/

/-- C2. The column names `BatchInsert` writes are not passed to the sanitizer: for the table
`t` and the one-row batch whose only key is `v); DROP TABLE t; --`, a key the sanitizer
rejects, `BatchInsert` returns no `InvalidIdentifier` error; whichever order the column set
is visited in, it hands the driver an `INSERT` statement that carries the key verbatim in
its column list, and returns what the driver answers. -/
theorem BatchInsert_column_not_sanitized (lib : GoLib) (db : Driver) :
    (∃ e, sanitizeIdent "v); DROP TABLE t; --" = .error e ∧ e.kind = .InvalidIdentifier) ∧
    BatchInsert.colSet [[("v); DROP TABLE t; --", .int .int 1)]] =
      ["ts", "v); DROP TABLE t; --"] ∧
    (Client.BatchInsert lib db ["ts", "v); DROP TABLE t; --"] "t"
        [[("v); DROP TABLE t; --", .int .int 1)]]).executed =
      ["INSERT INTO t (ts, v); DROP TABLE t; --) VALUES (NOW(), 1)"] ∧
    (Client.BatchInsert lib db ["v); DROP TABLE t; --", "ts"] "t"
        [[("v); DROP TABLE t; --", .int .int 1)]]).executed =
      ["INSERT INTO t (ts, v); DROP TABLE t; --) VALUES (NOW(), 1)"] ∧
    (Client.BatchInsert lib db ["ts", "v); DROP TABLE t; --"] "t"
        [[("v); DROP TABLE t; --", .int .int 1)]]).result =
      (match db.Exec "INSERT INTO t (ts, v); DROP TABLE t; --) VALUES (NOW(), 1)" with
        | .error err => .error err
        | .ok _ => .ok ()) ∧
    (Client.BatchInsert lib ⟨fun _ => .ok ⟨.ok 1⟩⟩ ["ts", "v); DROP TABLE t; --"] "t"
        [[("v); DROP TABLE t; --", .int .int 1)]]).result = .ok () :=
  ⟨sanitizeIdent_invalid _ (by decide), by decide, rfl, rfl, rfl, rfl⟩

/-! ## Loops that append or stop at the first error -/

theorem appendEach_ok_iff {α β : Type} (f : α → Except Error β) (xs : List α) (ys : List β) :
    appendEach f xs = .ok ys ↔ List.Forall₂ (fun x y => f x = .ok y) xs ys := by
  induction xs generalizing ys with
  | nil =>
    cases ys with
    | nil => simp [appendEach]
    | cons y ys => simp [appendEach]
  | cons x rest ih =>
    cases hx : f x with
    | error e =>
      simp only [appendEach, hx]
      constructor
      · intro h; cases h
      · intro h
        cases h with
        | cons h1 _ => rw [hx] at h1; cases h1
    | ok y =>
      cases hr : appendEach f rest with
      | error e =>
        simp only [appendEach, hx, hr]
        constructor
        · intro h; cases h
        · intro h
          cases h with
          | cons _ h2 => rw [← ih, hr] at h2; cases h2
      | ok ys2 =>
        simp only [appendEach, hx, hr]
        constructor
        · intro h
          cases h
          exact List.Forall₂.cons hx ((ih ys2).mp hr)
        · intro h
          cases h with
          | cons h1 h2 =>
            rw [hx] at h1
            cases h1
            rw [← ih, hr] at h2
            cases h2
            rfl

theorem appendEach_length {α β : Type} (f : α → Except Error β) (xs : List α) (ys : List β)
    (h : appendEach f xs = .ok ys) : ys.length = xs.length :=
  (((appendEach_ok_iff f xs ys).mp h).length_eq).symm

/-- The loop stops at the first element that fails, with that element's error. -/
theorem appendEach_error_at {α β : Type} (f : α → Except Error β) (pre post : List α) (x : α)
    (e : Error) (hpre : ∀ a ∈ pre, ∃ b, f a = .ok b) (hx : f x = .error e) :
    appendEach f (pre ++ x :: post) = .error e := by
  induction pre with
  | nil => simp [appendEach, hx]
  | cons a pre ih =>
    obtain ⟨b, hb⟩ := hpre a (by simp)
    have hrest := ih (fun a2 h2 => hpre a2 (by simp [h2]))
    simp [appendEach, hb, hrest]

/-- A failing loop failed at some element, every element before which succeeded. -/
theorem appendEach_error_iff {α β : Type} (f : α → Except Error β) (xs : List α) (e : Error) :
    appendEach f xs = .error e ↔
      ∃ pre x post, xs = pre ++ x :: post ∧ (∀ a ∈ pre, ∃ b, f a = .ok b) ∧
        f x = .error e := by
  constructor
  · induction xs with
    | nil => intro h; simp [appendEach] at h
    | cons x rest ih =>
      intro h
      cases hx : f x with
      | error e2 =>
        simp only [appendEach, hx, Except.error.injEq] at h
        exact ⟨[], x, rest, rfl, by simp, by rw [hx, h]⟩
      | ok y =>
        cases hr : appendEach f rest with
        | error e2 =>
          simp only [appendEach, hx, hr, Except.error.injEq] at h
          obtain ⟨pre, x2, post, h1, h2, h3⟩ := ih (by rw [hr, h])
          refine ⟨x :: pre, x2, post, by simp [h1], ?_, h3⟩
          intro a ha
          rcases List.mem_cons.mp ha with rfl | ha
          · exact ⟨y, hx⟩
          · exact h2 a ha
        | ok ys => simp [appendEach, hx, hr] at h
  · rintro ⟨pre, x, post, rfl, h2, h3⟩
    exact appendEach_error_at f pre post x e h2 h3

theorem appendEach_total {α β : Type} (f : α → Except Error β) (xs : List α)
    (h : ∀ a ∈ xs, ∃ b, f a = .ok b) : ∃ ys, appendEach f xs = .ok ys := by
  cases hr : appendEach f xs with
  | ok ys => exact ⟨ys, rfl⟩
  | error e =>
    obtain ⟨pre, x, post, h1, _, h3⟩ := (appendEach_error_iff f xs e).mp hr
    obtain ⟨b, hb⟩ := h x (by simp [h1])
    rw [hb] at h3
    cases h3

theorem forall₂_mem_left {α β : Type} {R : α → β → Prop} {xs : List α} {ys : List β}
    (h : List.Forall₂ R xs ys) {x : α} (hx : x ∈ xs) : ∃ y, y ∈ ys ∧ R x y := by
  induction h with
  | nil => cases hx
  | cons h1 _ ih =>
    rcases List.mem_cons.mp hx with rfl | hm
    · exact ⟨_, by simp, h1⟩
    · obtain ⟨y, hy1, hy2⟩ := ih hm
      exact ⟨y, by simp [hy1], hy2⟩

/-! ## Library facts -/

theorem TrimSpace_ne_empty (c : Char) (cs : List Char) (hc : unicode.IsSpace c = false) :
    strings.TrimSpace (String.mk (c :: cs)) ≠ "" := by
  intro h
  have hd : (strings.TrimSpace (String.mk (c :: cs))).data = [] := by rw [h]
  simp only [strings.TrimSpace, List.dropWhile_cons, hc] at hd
  have := (List.rdropWhile_eq_nil_iff).mp hd c (by simp)
  rw [hc] at this
  cases this

theorem TrimSpace_WHERE (s : String) : strings.TrimSpace ("WHERE " ++ s) ≠ "" := by
  have h : "WHERE " ++ s = String.mk ('W' :: ("HERE " ++ s).data) := by
    apply String.ext
    simp
  rw [h]
  exact TrimSpace_ne_empty 'W' _ (by decide)

theorem Join_eq_intersperse (parts : List String) (sep : String) :
    strings.Join parts sep = (parts.intersperse sep).foldr (fun a b => a ++ b) "" := by
  induction parts with
  | nil => rfl
  | cons a rest ih =>
    cases rest with
    | nil =>
      apply String.ext
      simp [strings.Join]
    | cons b rest =>
      rw [strings.Join, ih]
      apply String.ext
      simp [List.intersperse]

theorem length_intersperse_eq (parts : List String) (sep : String) :
    (parts.intersperse sep).length = 2 * parts.length - 1 := by
  induction parts with
  | nil => rfl
  | cons a rest ih =>
    cases rest with
    | nil => rfl
    | cons b rest =>
      simp only [List.intersperse, List.length_cons] at ih ⊢
      omega

/-! ## Filter compiler: the WHERE clause -/

theorem buildWhere_nil (lib : GoLib) (f : Filter) (h : f.Conditions = []) :
    f.buildWhere lib = .ok "" := by
  simp [Filter.buildWhere, h]

/-- With at least one condition, `buildWhere` is the loop over the conditions followed by
the join, the conjunction being `OR` exactly when the normalised `Conj` is `OR`. -/
theorem buildWhere_cons (lib : GoLib) (f : Filter) (h : f.Conditions ≠ []) :
    f.buildWhere lib =
      match buildWhere.parts lib f.Conditions with
      | .error err => .error err
      | .ok parts =>
        .ok ("WHERE " ++ strings.Join parts
          (" " ++ (if strings.ToUpper lib (strings.TrimSpace f.Conj) = "OR" then "OR"
            else "AND") ++ " ")) := by
  have hlen : f.Conditions.length ≠ 0 := by
    intro h0; exact h (List.length_eq_zero.mp h0)
  have hconj : (if strings.ToUpper lib (strings.TrimSpace f.Conj) ≠ "AND" ∧
        strings.ToUpper lib (strings.TrimSpace f.Conj) ≠ "OR" then "AND"
      else strings.ToUpper lib (strings.TrimSpace f.Conj)) =
      (if strings.ToUpper lib (strings.TrimSpace f.Conj) = "OR" then "OR" else "AND") := by
    by_cases h1 : strings.ToUpper lib (strings.TrimSpace f.Conj) = "OR"
    · simp [h1]
    · by_cases h2 : strings.ToUpper lib (strings.TrimSpace f.Conj) = "AND"
      · simp [h2]
      · simp [h1, h2]
  simp only [Filter.buildWhere, hlen, if_false, hconj]

theorem buildWhere_ok_of_parts (lib : GoLib) (f : Filter) (parts : List String)
    (h : f.Conditions ≠ []) (hp : buildWhere.parts lib f.Conditions = .ok parts) :
    f.buildWhere lib = .ok ("WHERE " ++ strings.Join parts
      (" " ++ (if strings.ToUpper lib (strings.TrimSpace f.Conj) = "OR" then "OR"
        else "AND") ++ " ")) := by
  rw [buildWhere_cons lib f h, hp]

/-- A condition that does not compile makes `buildWhere` fail: with the condition's own
error when every condition before it compiles, and with some error in any case. -/
theorem buildWhere_error_at (lib : GoLib) (f : Filter) (pre post : List Condition)
    (c : Condition) (e : Error) (hf : f.Conditions = pre ++ c :: post)
    (hpre : ∀ a ∈ pre, ∃ p, buildWhere.part lib a = .ok p)
    (hc : buildWhere.part lib c = .error e) : f.buildWhere lib = .error e := by
  have hne : f.Conditions ≠ [] := by rw [hf]; simp
  have hp : buildWhere.parts lib f.Conditions = .error e := by
    rw [hf]; exact appendEach_error_at _ pre post c e hpre hc
  rw [buildWhere_cons lib f hne, hp]

theorem buildWhere_error_of_mem (lib : GoLib) (f : Filter) (c : Condition) (e : Error)
    (hmem : c ∈ f.Conditions) (hc : buildWhere.part lib c = .error e) :
    ∃ e2, f.buildWhere lib = .error e2 := by
  have hne : f.Conditions ≠ [] := List.ne_nil_of_mem hmem
  cases hp : buildWhere.parts lib f.Conditions with
  | error e2 => exact ⟨e2, by rw [buildWhere_cons lib f hne, hp]⟩
  | ok parts =>
    exfalso
    obtain ⟨p, _, hcp⟩ := forall₂_mem_left ((appendEach_ok_iff _ _ _).mp hp) hmem
    rw [hc] at hcp
    cases hcp

/-- C5. For every filter, `buildWhere` returns the empty string with no error when the
condition list is empty; otherwise, when every condition compiles, it returns `WHERE `
followed by the per-condition fragments in the caller's order joined by ` AND ` or ` OR `,
the conjunction being `OR` exactly when `Conj`, trimmed and upper-cased, is `OR`, and `AND`
for every other `Conj`. So `n ≥ 1` conditions give `n` fragments and `n - 1` separators,
and a successful result is empty if and only if there is no condition. -/
theorem buildWhere_contract (lib : GoLib) (f : Filter) :
    (f.Conditions = [] → f.buildWhere lib = .ok "") ∧
    (∀ parts : List String, f.Conditions ≠ [] →
      List.Forall₂ (fun c p => buildWhere.part lib c = .ok p) f.Conditions parts →
      f.buildWhere lib = .ok ("WHERE " ++ strings.Join parts
        (" " ++ (if strings.ToUpper lib (strings.TrimSpace f.Conj) = "OR" then "OR"
          else "AND") ++ " ")) ∧
      parts.length = f.Conditions.length ∧
      (∀ sep : String,
        strings.Join parts sep = (parts.intersperse sep).foldr (fun a b => a ++ b) "" ∧
        (parts.intersperse sep).length = f.Conditions.length + (f.Conditions.length - 1))) ∧
    (∀ s, f.buildWhere lib = .ok s → (s = "" ↔ f.Conditions = [])) := by
  refine ⟨buildWhere_nil lib f, ?_, ?_⟩
  · intro parts hne hall
    have hp : buildWhere.parts lib f.Conditions = .ok parts :=
      (appendEach_ok_iff _ _ _).mpr hall
    have hlen : parts.length = f.Conditions.length := hall.length_eq.symm
    refine ⟨buildWhere_ok_of_parts lib f parts hne hp, hlen, ?_⟩
    intro sep
    refine ⟨Join_eq_intersperse parts sep, ?_⟩
    rw [length_intersperse_eq, hlen]
    omega
  · intro s hs
    by_cases hc : f.Conditions = []
    · rw [buildWhere_nil lib f hc] at hs
      cases hs
      simp [hc]
    · simp only [hc, iff_false]
      rw [buildWhere_cons lib f hc] at hs
      cases hp : buildWhere.parts lib f.Conditions with
      | error e => rw [hp] at hs; cases hs
      | ok parts =>
        rw [hp] at hs
        simp only [Except.ok.injEq] at hs
        intro h0
        have hd : s.data = [] := by rw [h0]
        rw [← hs] at hd
        simp at hd

/-- The filter of `ExampleFilter`: `voltage >= 200` and `location IN (roomA, roomB)` under
`AND`; and the conjunction for `Conj` equal to ` or `, to the empty string and to `xor`. -/
theorem buildWhere_contract_witness :
    Filter.buildWhere GoLib.sample
      ⟨[⟨"voltage", ">=", .int .int 200⟩,
        ⟨"location", "IN", .slice [.string "roomA", .string "roomB"]⟩], "AND", "ts", false, 5⟩
      = .ok "WHERE voltage >= 200 AND location IN ('roomA', 'roomB')" ∧
    Filter.buildWhere GoLib.sample
      ⟨[⟨"a", "=", .int .int 1⟩, ⟨"b", "=", .int .int 2⟩], " or ", "", false, 0⟩
      = .ok "WHERE a = 1 OR b = 2" ∧
    Filter.buildWhere GoLib.sample
      ⟨[⟨"a", "=", .int .int 1⟩, ⟨"b", "=", .int .int 2⟩], "", "", false, 0⟩
      = .ok "WHERE a = 1 AND b = 2" ∧
    Filter.buildWhere GoLib.sample
      ⟨[⟨"a", "=", .int .int 1⟩, ⟨"b", "=", .int .int 2⟩], "xor", "", false, 0⟩
      = .ok "WHERE a = 1 AND b = 2" ∧
    Filter.buildWhere GoLib.sample ⟨[], "AND", "ts", true, 3⟩ = .ok "" :=
  ⟨((buildWhere_contract GoLib.sample _).2.1
      ["voltage >= 200", "location IN ('roomA', 'roomB')"] (by simp)
      (by refine List.Forall₂.cons ?_ (List.Forall₂.cons ?_ List.Forall₂.nil) <;> rfl)).1,
   rfl, rfl, rfl, (buildWhere_contract GoLib.sample _).1 rfl⟩

/-! ## Delete -/

/-- C4. `Delete` refuses to run without a filter: for every table name and every filter
whose condition list is empty, `Delete` returns an error and hands no statement to the
driver, and when the table name is a valid identifier that error is the missing-WHERE
error. Conversely every statement `Delete` executes is `DELETE FROM <table> WHERE` followed
by at least one condition fragment. -/
theorem Delete_requires_where (lib : GoLib) (db : Driver) (table : String) (f : Filter) :
    (f.Conditions = [] →
      (Client.Delete lib db table f).executed = [] ∧
      (∃ e, (Client.Delete lib db table f).result = .error e) ∧
      (ValidIdent table →
        (Client.Delete lib db table f).result = .error .deleteWithoutWhere)) ∧
    Error.kind .deleteWithoutWhere = .MissingWhereClause ∧
    (∀ sql ∈ (Client.Delete lib db table f).executed,
      ∃ parts : List String, parts ≠ [] ∧
        List.Forall₂ (fun c p => buildWhere.part lib c = .ok p) f.Conditions parts ∧
        sql = "DELETE FROM " ++ table ++ " WHERE " ++ strings.Join parts
          (" " ++ (if strings.ToUpper lib (strings.TrimSpace f.Conj) = "OR" then "OR"
            else "AND") ++ " ")) := by
  refine ⟨?_, rfl, ?_⟩
  · intro hc
    have hw := buildWhere_nil lib f hc
    have ht : strings.TrimSpace "" = "" := by decide
    cases hs : sanitizeIdent table with
    | error e =>
      refine ⟨by simp [Client.Delete, hs], ⟨e, by simp [Client.Delete, hs]⟩, ?_⟩
      intro hv
      rw [sanitizeIdent_valid table hv] at hs
      cases hs
    | ok tbl =>
      refine ⟨by simp [Client.Delete, hs, hw, ht], ⟨.deleteWithoutWhere, ?_⟩, fun _ => ?_⟩ <;>
        simp [Client.Delete, hs, hw, ht]
  · intro sql hsql
    cases hs : sanitizeIdent table with
    | error e => simp [Client.Delete, hs] at hsql
    | ok tbl =>
      have htbl : tbl = table := ((sanitizeIdent_ok_iff table tbl).mp hs).2
      cases hw : f.buildWhere lib with
      | error e => simp [Client.Delete, hs, hw] at hsql
      | ok w =>
        by_cases ht : strings.TrimSpace w = ""
        · simp [Client.Delete, hs, hw, ht] at hsql
        · simp only [Client.Delete, hs, hw, ht, if_false, List.mem_singleton] at hsql
          have hne : f.Conditions ≠ [] := by
            intro h0
            rw [buildWhere_nil lib f h0] at hw
            cases hw
            exact ht (by decide)
          rw [buildWhere_cons lib f hne] at hw
          cases hp : buildWhere.parts lib f.Conditions with
          | error e => rw [hp] at hw; cases hw
          | ok parts =>
            rw [hp] at hw
            simp only [Except.ok.injEq] at hw
            have hall := (appendEach_ok_iff _ _ _).mp hp
            refine ⟨parts, ?_, hall, ?_⟩
            · intro h0
              rw [h0] at hall
              exact hne (List.forall₂_nil_right_iff.mp hall)
            · rw [hsql, ← hw, htbl]
              apply String.ext
              simp

/-- The table `meters` with a filter that has an order and a limit but no condition: no
statement, the missing-WHERE error. With one condition the statement is executed. -/
theorem Delete_requires_where_witness :
    (Client.Delete GoLib.sample ⟨fun _ => .ok ⟨.ok 1⟩⟩ "meters"
        ⟨[], "OR", "ts", true, 10⟩).executed = [] ∧
    (Client.Delete GoLib.sample ⟨fun _ => .ok ⟨.ok 1⟩⟩ "meters"
        ⟨[], "OR", "ts", true, 10⟩).result = .error .deleteWithoutWhere ∧
    (Client.Delete GoLib.sample ⟨fun _ => .ok ⟨.ok 1⟩⟩ "meters"
        ⟨[⟨"voltage", "<", .int .int 5⟩], "", "", false, 0⟩).executed =
      ["DELETE FROM meters WHERE voltage < 5"] :=
  ⟨((Delete_requires_where GoLib.sample ⟨fun _ => .ok ⟨.ok 1⟩⟩ "meters"
      ⟨[], "OR", "ts", true, 10⟩).1 rfl).1,
   ((Delete_requires_where GoLib.sample ⟨fun _ => .ok ⟨.ok 1⟩⟩ "meters"
      ⟨[], "OR", "ts", true, 10⟩).1 rfl).2.2 (by decide),
   rfl⟩

/-! ## Literal formatter: totality -/

theorem formatValue_supported (lib : GoLib) (v : GoValue) (h : v.Supported) :
    ∃ s, formatValue lib v = .ok s := by
  cases v with
  | bool b => cases b <;> simp [formatValue]
  | slice xs => cases h
  | array2 lo hi => cases h
  | other n => cases h
  | _ => simp [formatValue]

theorem formatValue_unsupported (lib : GoLib) (v : GoValue) (h : ¬ v.Supported) :
    formatValue lib v = .error (.unsupportedValue v.typeName) := by
  cases v with
  | slice xs => rfl
  | array2 lo hi => rfl
  | other n => rfl
  | _ => exact absurd trivial h

theorem formatValue_error (lib : GoLib) (v : GoValue) (e : Error)
    (h : formatValue lib v = .error e) :
    ¬ v.Supported ∧ e = .unsupportedValue v.typeName := by
  by_cases hs : v.Supported
  · obtain ⟨s, hs2⟩ := formatValue_supported lib v hs
    rw [hs2] at h
    cases h
  · rw [formatValue_unsupported lib v hs] at h
    cases h
    exact ⟨hs, rfl⟩

theorem formatValue_error_kind (lib : GoLib) (v : GoValue) (e : Error)
    (h : formatValue lib v = .error e) : e.kind = .UnsupportedValueType := by
  rw [(formatValue_error lib v e h).2]
  rfl

/-- C10. The formatter is total over the supported value kinds and fails on everything
else: it returns a literal for every absent value, string, signed or unsigned integer,
floating-point number, boolean and timestamp, and it returns an `UnsupportedValueType`
error, which carries the type name and no literal, if and only if the value is of any other
shape, such as an empty struct, a list or a map. -/
theorem formatValue_total (lib : GoLib) (v : GoValue) :
    (v.Supported → ∃ s, formatValue lib v = .ok s) ∧
    ((∃ e, formatValue lib v = .error e ∧ e.kind = .UnsupportedValueType) ↔
      ¬ v.Supported) ∧
    (¬ v.Supported → formatValue lib v = .error (.unsupportedValue v.typeName)) := by
  refine ⟨formatValue_supported lib v, ⟨?_, ?_⟩, formatValue_unsupported lib v⟩
  · rintro ⟨e, he, _⟩
    exact (formatValue_error lib v e he).1
  · intro h
    exact ⟨_, formatValue_unsupported lib v h, rfl⟩

/-- An empty struct, a list and a map are rejected with their type names; the absent value,
an integer and a boolean are formatted. -/
theorem formatValue_total_witness :
    formatValue GoLib.sample (.other "struct \x7b\x7d") =
      .error (.unsupportedValue "struct \x7b\x7d") ∧
    formatValue GoLib.sample (.slice [.int .int 1]) =
      .error (.unsupportedValue "[]interface \x7b\x7d") ∧
    formatValue GoLib.sample (.other "map[string]int") =
      .error (.unsupportedValue "map[string]int") ∧
    (∃ s, formatValue GoLib.sample .nil = .ok s) ∧
    (∃ s, formatValue GoLib.sample (.uint .uint64 18446744073709551615) = .ok s) ∧
    (∃ s, formatValue GoLib.sample (.bool true) = .ok s) :=
  ⟨(formatValue_total GoLib.sample _).2.2 (fun h => h),
   (formatValue_total GoLib.sample _).2.2 (fun h => h),
   (formatValue_total GoLib.sample _).2.2 (fun h => h),
   (formatValue_total GoLib.sample _).1 trivial,
   (formatValue_total GoLib.sample _).1 trivial,
   (formatValue_total GoLib.sample _).1 trivial⟩

/-! ## Filter compiler: one condition -/

theorem Join_singleton (p sep : String) : strings.Join [p] sep = p := rfl

/-- A filter with the single condition `c` compiles to `WHERE ` and the fragment of `c`. -/
theorem buildWhere_single (lib : GoLib) (f : Filter) (c : Condition) (p : String)
    (hf : f.Conditions = [c]) (hp : buildWhere.part lib c = .ok p) :
    f.buildWhere lib = .ok ("WHERE " ++ p) := by
  have hne : f.Conditions ≠ [] := by rw [hf]; simp
  have hps : buildWhere.parts lib f.Conditions = .ok [p] := by
    rw [hf]; simp [buildWhere.parts, appendEach, hp]
  rw [buildWhere_ok_of_parts lib f [p] hne hps, Join_singleton]

theorem part_in_slice (lib : GoLib) (c : Condition) (xs : List GoValue)
    (hop : strings.ToUpper lib (strings.TrimSpace c.Op) = "IN") (hcol : ValidIdent c.Column)
    (hv : c.Value = .slice xs) :
    buildWhere.part lib c =
      match buildWhere.inVals lib xs with
      | .error err => .error err
      | .ok vals => .ok (c.Column ++ " IN (" ++ strings.Join vals ", " ++ ")") := by
  simp only [buildWhere.part, sanitizeIdent_valid c.Column hcol, hop, if_true, hv]

theorem part_in_not_slice (lib : GoLib) (c : Condition)
    (hop : strings.ToUpper lib (strings.TrimSpace c.Op) = "IN") (hcol : ValidIdent c.Column)
    (hv : ∀ xs, c.Value ≠ .slice xs) : buildWhere.part lib c = .error .inNeedsSlice := by
  simp only [buildWhere.part, sanitizeIdent_valid c.Column hcol, hop, if_true]

/-- C6. For a condition whose operator, trimmed and upper-cased, is `IN` and whose column
is a valid identifier: when the value is an ordered sequence whose elements all format, the
fragment is `<col> IN (<v1>, <v2>, ...)`, the elements formatted by `formatValue` in the
caller's order and joined by comma-space (`<col> IN ()` for the empty sequence); when the
value is not a sequence the condition fails with `InvalidConditionShape`; when an element
does not format it fails with the error of the first such element, an
`UnsupportedValueType` error. A failing condition makes `buildWhere` return an error and no
text. -/
theorem buildWhere_in (lib : GoLib) (c : Condition)
    (hop : strings.ToUpper lib (strings.TrimSpace c.Op) = "IN")
    (hcol : ValidIdent c.Column) :
    (∀ xs vs, c.Value = .slice xs →
      List.Forall₂ (fun x v => formatValue lib x = .ok v) xs vs →
      buildWhere.part lib c = .ok (c.Column ++ " IN (" ++ strings.Join vs ", " ++ ")")) ∧
    (c.Value = .slice [] → buildWhere.part lib c = .ok (c.Column ++ " IN ()")) ∧
    ((∀ xs, c.Value ≠ .slice xs) →
      buildWhere.part lib c = .error .inNeedsSlice ∧
      Error.kind .inNeedsSlice = .InvalidConditionShape) ∧
    (∀ pre x post e, c.Value = .slice (pre ++ x :: post) →
      (∀ a ∈ pre, ∃ v, formatValue lib a = .ok v) → formatValue lib x = .error e →
      buildWhere.part lib c = .error e ∧ e.kind = .UnsupportedValueType) ∧
    (∀ xs, c.Value = .slice xs → (∃ x ∈ xs, ¬ x.Supported) →
      ∃ x ∈ xs, ∃ e, formatValue lib x = .error e ∧ buildWhere.part lib c = .error e) ∧
    (∀ (f : Filter) (p : String), f.Conditions = [c] → buildWhere.part lib c = .ok p →
      f.buildWhere lib = .ok ("WHERE " ++ p)) ∧
    (∀ (f : Filter) (pre post : List Condition) (e : Error),
      f.Conditions = pre ++ c :: post →
      (∀ a ∈ pre, ∃ p, buildWhere.part lib a = .ok p) → buildWhere.part lib c = .error e →
      f.buildWhere lib = .error e) ∧
    (∀ (f : Filter) (e : Error), c ∈ f.Conditions → buildWhere.part lib c = .error e →
      ∃ e2, f.buildWhere lib = .error e2) := by
  refine ⟨?_, ?_, ?_, ?_, ?_, ?_, ?_, ?_⟩
  · intro xs vs hv hall
    have hin : buildWhere.inVals lib xs = .ok vs := (appendEach_ok_iff _ _ _).mpr hall
    rw [part_in_slice lib c xs hop hcol hv, hin]
  · intro hv
    have h0 : buildWhere.inVals lib [] = .ok [] := rfl
    rw [part_in_slice lib c [] hop hcol hv, h0]
    simp only [strings.Join]
    congr 1
    apply String.ext
    simp
  · intro hv
    exact ⟨part_in_not_slice lib c hop hcol hv, rfl⟩
  · intro pre x post e hv hpre hx
    have hin : buildWhere.inVals lib (pre ++ x :: post) = .error e :=
      appendEach_error_at _ pre post x e hpre hx
    rw [part_in_slice lib c _ hop hcol hv, hin]
    exact ⟨rfl, formatValue_error_kind lib x e hx⟩
  · rintro xs hv ⟨x, hx, hns⟩
    cases hin : buildWhere.inVals lib xs with
    | ok vs =>
      exfalso
      obtain ⟨v, _, hxv⟩ := forall₂_mem_left ((appendEach_ok_iff _ _ _).mp hin) hx
      rw [formatValue_unsupported lib x hns] at hxv
      cases hxv
    | error e =>
      obtain ⟨pre, y, post, h1, _, h3⟩ := (appendEach_error_iff _ xs e).mp hin
      refine ⟨y, by simp [h1], e, h3, ?_⟩
      rw [part_in_slice lib c xs hop hcol hv, hin]
  · intro f p hf hp
    exact buildWhere_single lib f c p hf hp
  · intro f pre post e hf hpre hc
    exact buildWhere_error_at lib f pre post c e hf hpre hc
  · intro f e hmem hc
    exact buildWhere_error_of_mem lib f c e hmem hc

/-- The condition `voltage IN [218, 219]` of the test compiles to
`WHERE voltage IN (218, 219)`. -/
theorem buildWhere_in_witness :
    Filter.buildWhere GoLib.sample
      ⟨[⟨"voltage", "IN", .slice [.int .int 218, .int .int 219]⟩], "AND", "", false, 0⟩ =
      .ok "WHERE voltage IN (218, 219)" :=
  (buildWhere_in GoLib.sample ⟨"voltage", "IN", .slice [.int .int 218, .int .int 219]⟩
      rfl (by decide)).2.2.2.2.2.1 _ "voltage IN (218, 219)" rfl
    ((buildWhere_in GoLib.sample ⟨"voltage", "IN", .slice [.int .int 218, .int .int 219]⟩
      rfl (by decide)).1 _ ["218", "219"] rfl
      (by refine List.Forall₂.cons ?_ (List.Forall₂.cons ?_ List.Forall₂.nil) <;> rfl))

theorem part_between_pair (lib : GoLib) (c : Condition) (lo hi : GoValue)
    (hop : strings.ToUpper lib (strings.TrimSpace c.Op) = "BETWEEN")
    (hcol : ValidIdent c.Column) (hv : c.Value = .array2 lo hi) :
    buildWhere.part lib c =
      match formatValue lib lo with
      | .error err => .error err
      | .ok l =>
        match formatValue lib hi with
        | .error err => .error err
        | .ok r => .ok (c.Column ++ " BETWEEN " ++ l ++ " AND " ++ r) := by
  have hne : ("BETWEEN" : String) ≠ "IN" := by decide
  simp only [buildWhere.part, sanitizeIdent_valid c.Column hcol, hop, hne, if_true, if_false,
    hv]

theorem part_between_not_pair (lib : GoLib) (c : Condition)
    (hop : strings.ToUpper lib (strings.TrimSpace c.Op) = "BETWEEN")
    (hcol : ValidIdent c.Column) (hv : ∀ lo hi, c.Value ≠ .array2 lo hi) :
    buildWhere.part lib c = .error .betweenNeedsPair := by
  have hne : ("BETWEEN" : String) ≠ "IN" := by decide
  simp only [buildWhere.part, sanitizeIdent_valid c.Column hcol, hop, hne, if_true, if_false]

/-- C7. For a condition whose operator, trimmed and upper-cased, is `BETWEEN` and whose
column is a valid identifier: when the value is an ordered pair of values that format, the
fragment is `<col> BETWEEN <lo> AND <hi>`, the lower bound first; when the value is
anything other than an ordered pair (a scalar, or a sequence of whatever length) the
condition fails with `InvalidConditionShape`, and `buildWhere` returns that error and no
text. -/
theorem buildWhere_between (lib : GoLib) (c : Condition)
    (hop : strings.ToUpper lib (strings.TrimSpace c.Op) = "BETWEEN")
    (hcol : ValidIdent c.Column) :
    (∀ lo hi l r, c.Value = .array2 lo hi → formatValue lib lo = .ok l →
      formatValue lib hi = .ok r →
      buildWhere.part lib c = .ok (c.Column ++ " BETWEEN " ++ l ++ " AND " ++ r)) ∧
    ((∀ lo hi, c.Value ≠ .array2 lo hi) →
      buildWhere.part lib c = .error .betweenNeedsPair ∧
      Error.kind .betweenNeedsPair = .InvalidConditionShape) ∧
    (∀ xs, c.Value = .slice xs → buildWhere.part lib c = .error .betweenNeedsPair) ∧
    (∀ (f : Filter) (p : String), f.Conditions = [c] → buildWhere.part lib c = .ok p →
      f.buildWhere lib = .ok ("WHERE " ++ p)) ∧
    (∀ (f : Filter) (pre post : List Condition) (e : Error),
      f.Conditions = pre ++ c :: post →
      (∀ a ∈ pre, ∃ p, buildWhere.part lib a = .ok p) → buildWhere.part lib c = .error e →
      f.buildWhere lib = .error e) ∧
    (∀ (f : Filter) (e : Error), c ∈ f.Conditions → buildWhere.part lib c = .error e →
      ∃ e2, f.buildWhere lib = .error e2) := by
  refine ⟨?_, ?_, ?_, ?_, ?_, ?_⟩
  · intro lo hi l r hv hl hr
    rw [part_between_pair lib c lo hi hop hcol hv, hl, hr]
  · intro hv
    exact ⟨part_between_not_pair lib c hop hcol hv, rfl⟩
  · intro xs hv
    apply part_between_not_pair lib c hop hcol
    intro lo hi h
    rw [hv] at h
    cases h
  · intro f p hf hp
    exact buildWhere_single lib f c p hf hp
  · intro f pre post e hf hpre hc
    exact buildWhere_error_at lib f pre post c e hf hpre hc
  · intro f e hmem hc
    exact buildWhere_error_of_mem lib f c e hmem hc

/-- The condition `ts BETWEEN 2024-10-01T00:00:00Z, 2024-10-02T00:00:00Z` of the test. -/
theorem buildWhere_between_witness :
    Filter.buildWhere GoLib.sample
      ⟨[⟨"ts", "BETWEEN", .array2 (.time ⟨2024, 10, 1, 0, 0, 0, 0⟩)
        (.time ⟨2024, 10, 2, 0, 0, 0, 0⟩)⟩], "", "", false, 0⟩ =
      .ok "WHERE ts BETWEEN '2024-10-01 00:00:00.000' AND '2024-10-02 00:00:00.000'" :=
  (buildWhere_between GoLib.sample
      ⟨"ts", "BETWEEN", .array2 (.time ⟨2024, 10, 1, 0, 0, 0, 0⟩)
        (.time ⟨2024, 10, 2, 0, 0, 0, 0⟩)⟩ rfl (by decide)).2.2.2.1 _
    "ts BETWEEN '2024-10-01 00:00:00.000' AND '2024-10-02 00:00:00.000'" rfl
    ((buildWhere_between GoLib.sample
      ⟨"ts", "BETWEEN", .array2 (.time ⟨2024, 10, 1, 0, 0, 0, 0⟩)
        (.time ⟨2024, 10, 2, 0, 0, 0, 0⟩)⟩ rfl (by decide)).1 _ _
      "'2024-10-01 00:00:00.000'" "'2024-10-02 00:00:00.000'" rfl rfl rfl)

/-- C8 as stated fails: the operator `like`, which is neither `IN` nor `BETWEEN`, on the
valid column `name` with the value `x`, is not copied into the fragment as the caller wrote
it; whatever the Unicode tables hold, the fragment is `name LIKE 'x'` and not
`name like 'x'`. -/
theorem buildWhere_op_not_verbatim :
    strings.ToUpper GoLib.sample (strings.TrimSpace "like") ≠ "IN" ∧
    strings.ToUpper GoLib.sample (strings.TrimSpace "like") ≠ "BETWEEN" ∧
    ValidIdent "name" ∧
    formatValue GoLib.sample (.string "x") = .ok "'x'" ∧
    (∀ lib : GoLib,
      buildWhere.part lib ⟨"name", "like", .string "x"⟩ = .ok "name LIKE 'x'") ∧
    buildWhere.part GoLib.sample ⟨"name", "like", .string "x"⟩ ≠
      .ok ("name" ++ " " ++ "like" ++ " " ++ "'x'") := by
  refine ⟨by decide, by decide, by decide, rfl, fun _ => rfl, ?_⟩
  have h : buildWhere.part GoLib.sample ⟨"name", "like", .string "x"⟩ = .ok "name LIKE 'x'" :=
    rfl
  rw [h]
  intro h2
  injection h2 with h3
  revert h3
  decide

/-- C8, amended. For every condition whose operator is neither `IN` nor `BETWEEN` (compared
after trimming and upper-casing), with a valid column and a value that formats, the
fragment is `<col> <op> <value>` in which `<op>` is the operator trimmed of surrounding
white space and upper-cased, with no check against a fixed operator set, and `<value>` is
`formatValue` of the condition's value; an operator that is already trimmed and upper-case
is therefore copied as the caller wrote it. -/
theorem buildWhere_other_op (lib : GoLib) (c : Condition) (fv : String)
    (hin : strings.ToUpper lib (strings.TrimSpace c.Op) ≠ "IN")
    (hbt : strings.ToUpper lib (strings.TrimSpace c.Op) ≠ "BETWEEN")
    (hcol : ValidIdent c.Column) (hv : formatValue lib c.Value = .ok fv) :
    buildWhere.part lib c =
      .ok (c.Column ++ " " ++ strings.ToUpper lib (strings.TrimSpace c.Op) ++ " " ++ fv) ∧
    (strings.ToUpper lib (strings.TrimSpace c.Op) = c.Op →
      buildWhere.part lib c = .ok (c.Column ++ " " ++ c.Op ++ " " ++ fv)) := by
  have h : buildWhere.part lib c =
      .ok (c.Column ++ " " ++ strings.ToUpper lib (strings.TrimSpace c.Op) ++ " " ++ fv) := by
    simp only [buildWhere.part, sanitizeIdent_valid c.Column hcol, hin, hbt, if_false, hv]
  refine ⟨h, ?_⟩
  intro hop
  rw [h, hop]

/-- The condition `voltage >= 200` of `ExampleFilter` gives `voltage >= 200`, and the
operator ` like ` gives `LIKE`. -/
theorem buildWhere_other_op_witness :
    buildWhere.part GoLib.sample ⟨"voltage", ">=", .int .int 200⟩ = .ok "voltage >= 200" ∧
    buildWhere.part GoLib.sample ⟨"name", " like ", .string "x"⟩ = .ok "name LIKE 'x'" :=
  ⟨(buildWhere_other_op GoLib.sample ⟨"voltage", ">=", .int .int 200⟩ "200"
      (by decide) (by decide) (by decide) rfl).2 (by decide),
   (buildWhere_other_op GoLib.sample ⟨"name", " like ", .string "x"⟩ "'x'"
      (by decide) (by decide) (by decide) rfl).1⟩

/-! ## Filter compiler: ORDER BY and LIMIT -/

theorem sanitizeIdent_nonempty_error (s : String) (hs : s ≠ "") (e : Error)
    (h : sanitizeIdent s = .error e) : e = .illegalIdent s := by
  rcases sanitizeIdent_error s e h with h1 | ⟨_, h2⟩
  · exact h1
  · exact absurd h2 hs

/-- C9. For every filter, `buildOrderLimit` returns the concatenation of two optional
fragments: ` ORDER BY <col>` when `OrderBy` is non-empty, followed by ` DESC` if and only if
`Desc` is set; then ` LIMIT <n>`, with `n` the decimal text of `Limit`, if and only if
`Limit > 0`. A limit of zero or below is omitted without error, `Desc` with an empty
`OrderBy` adds nothing, and the result is empty when `OrderBy` is empty and `Limit ≤ 0`. It
fails, with `InvalidIdentifier`, if and only if `OrderBy` is non-empty and not a valid
identifier. -/
theorem buildOrderLimit_contract (f : Filter) :
    (f.OrderBy = "" → f.buildOrderLimit =
      .ok (if f.Limit > 0 then " LIMIT " ++ Nat.repr f.Limit.toNat else "")) ∧
    (f.OrderBy ≠ "" → ValidIdent f.OrderBy → f.buildOrderLimit =
      .ok (" ORDER BY " ++ f.OrderBy ++ (if f.Desc then " DESC" else "") ++
        (if f.Limit > 0 then " LIMIT " ++ Nat.repr f.Limit.toNat else ""))) ∧
    (f.OrderBy = "" → f.Limit ≤ 0 → f.buildOrderLimit = .ok "") ∧
    ((∃ e, f.buildOrderLimit = .error e) ↔ (f.OrderBy ≠ "" ∧ ¬ ValidIdent f.OrderBy)) ∧
    (∀ e, f.buildOrderLimit = .error e → e.kind = .InvalidIdentifier) := by
  have hd : ∀ n : Int, n > 0 → fmt.verbD n = Nat.repr n.toNat := by
    intro n hn
    have : ¬ n < 0 := by omega
    simp [fmt.verbD, this]
  have hempty : f.OrderBy = "" → f.buildOrderLimit =
      .ok (if f.Limit > 0 then " LIMIT " ++ Nat.repr f.Limit.toNat else "") := by
    intro h
    by_cases hl : f.Limit > 0
    · simp only [Filter.buildOrderLimit, h, ne_eq, not_true_eq_false, if_false, hl, if_true,
        hd f.Limit hl]
      congr 1
    · simp only [Filter.buildOrderLimit, h, ne_eq, not_true_eq_false, if_false, hl]
  have hvalid : f.OrderBy ≠ "" → ValidIdent f.OrderBy → f.buildOrderLimit =
      .ok (" ORDER BY " ++ f.OrderBy ++ (if f.Desc then " DESC" else "") ++
        (if f.Limit > 0 then " LIMIT " ++ Nat.repr f.Limit.toNat else "")) := by
    intro h hv
    have e1 : ∀ a b : String, "" ++ a ++ b = a ++ b := by
      intro a b; apply String.ext; simp
    have e2 : ∀ a : String, a ++ "" = a := by
      intro a; apply String.ext; simp
    by_cases hl : f.Limit > 0 <;> cases hdesc : f.Desc <;>
      simp [Filter.buildOrderLimit, h, sanitizeIdent_valid f.OrderBy hv, hl, hdesc, e1, e2,
        hd f.Limit] <;> (apply String.ext; simp)
  have hinvalid : f.OrderBy ≠ "" → ¬ ValidIdent f.OrderBy →
      f.buildOrderLimit = .error (.illegalIdent f.OrderBy) := by
    intro h hv
    obtain ⟨e, he, _⟩ := sanitizeIdent_invalid f.OrderBy hv
    have he2 := sanitizeIdent_nonempty_error f.OrderBy h e he
    simp only [Filter.buildOrderLimit, ne_eq, h, not_false_eq_true, if_true, he, he2]
  refine ⟨hempty, hvalid, ?_, ⟨?_, ?_⟩, ?_⟩
  · intro h hl
    have : ¬ f.Limit > 0 := by omega
    rw [hempty h, if_neg this]
  · rintro ⟨e, he⟩
    by_cases h : f.OrderBy = ""
    · rw [hempty h] at he; cases he
    · refine ⟨h, fun hv => ?_⟩
      rw [hvalid h hv] at he; cases he
  · rintro ⟨h, hv⟩
    exact ⟨_, hinvalid h hv⟩
  · intro e he
    by_cases h : f.OrderBy = ""
    · rw [hempty h] at he; cases he
    · by_cases hv : ValidIdent f.OrderBy
      · rw [hvalid h hv] at he; cases he
      · rw [hinvalid h hv] at he
        cases he
        rfl

/-- The filter of the test, `OrderBy` `ts`, `Desc` set, `Limit` 10; a filter with `Desc`
set and nothing else; an order column with a space in it. -/
theorem buildOrderLimit_contract_witness :
    Filter.buildOrderLimit ⟨[], "", "ts", true, 10⟩ = .ok " ORDER BY ts DESC LIMIT 10" ∧
    Filter.buildOrderLimit ⟨[], "", "", true, -3⟩ = .ok "" ∧
    (∃ e, Filter.buildOrderLimit ⟨[], "", "ts desc", false, 0⟩ = .error e) :=
  ⟨(buildOrderLimit_contract ⟨[], "", "ts", true, 10⟩).2.1 (by decide) (by decide),
   (buildOrderLimit_contract ⟨[], "", "", true, -3⟩).2.2.1 rfl (by decide),
   (buildOrderLimit_contract ⟨[], "", "ts desc", false, 0⟩).2.2.2.1.mpr
     ⟨by decide, by decide⟩⟩

/-! ## Literal formatter: the quoted literal read back -/

theorem unescapeQuotes_cons_of_ne (c : Char) (l : List Char) (hc : c ≠ Char.ofNat 39) :
    unescapeQuotes (c :: l) = (unescapeQuotes l).map (fun r => c :: r) := by
  cases l with
  | nil => simp [unescapeQuotes, hc]
  | cons c2 rest => simp [unescapeQuotes, hc]

theorem unescapeQuotes_pair (l : List Char) :
    unescapeQuotes (Char.ofNat 39 :: Char.ofNat 39 :: l) =
      (unescapeQuotes l).map (fun r => Char.ofNat 39 :: r) := by
  simp [unescapeQuotes]

theorem unescapeQuotes_doubleQuotes (s : String) :
    unescapeQuotes (doubleQuotes s).data = some s.data := by
  have key : ∀ cs : List Char,
      unescapeQuotes (cs.flatMap (fun c : Char =>
        if c = Char.ofNat 39 then [Char.ofNat 39, Char.ofNat 39] else [c])) = some cs := by
    intro cs
    induction cs with
    | nil => rfl
    | cons c rest ih =>
      by_cases hc : c = Char.ofNat 39
      · subst hc
        simp only [List.flatMap_cons, if_true, List.cons_append, List.nil_append,
          unescapeQuotes_pair, ih, Option.map_some']
      · simp only [List.flatMap_cons, hc, if_false, List.cons_append, List.nil_append,
          unescapeQuotes_cons_of_ne _ _ hc, ih, Option.map_some']
  exact key s.data

theorem formatValue_string_runes_data (lib : GoLib) (b : GoString) :
    formatValue lib (.string b) =
      .ok (String.mk (Char.ofNat 39 :: (doubleQuotes (String.mk b.runes)).data ++
        [Char.ofNat 39])) := by
  rw [formatValue_string_runes]
  congr 1

theorem formatValue_string_data (lib : GoLib) (s : String) :
    formatValue lib (.string s) =
      .ok (String.mk (Char.ofNat 39 :: (doubleQuotes s).data ++ [Char.ofNat 39])) := by
  rw [formatValue_string_eq]
  congr 1

theorem doubleQuotes_injective (s t : String) (h : doubleQuotes s = doubleQuotes t) :
    s = t := by
  have hs := unescapeQuotes_doubleQuotes s
  rw [h, unescapeQuotes_doubleQuotes t] at hs
  exact String.ext (Option.some.inj hs).symm

/-- C11 as stated fails: the one-byte strings `0xFF` and `0xFE` differ, neither is
well-formed UTF-8, and `formatValue` returns the same literal for both, the character U+FFFD
between two quotes, which is also the literal of the well-formed string U+FFFD. So
`formatValue` is not injective on strings, and replacing the doubled pairs of the interior
gives back the three bytes `EF BF BD`, not the string `0xFF`. -/
theorem formatValue_string_not_injective :
    (⟨[0xFF]⟩ : GoString) ≠ ⟨[0xFE]⟩ ∧
    (∀ lib : GoLib, formatValue lib (.string ⟨[0xFF]⟩) = .ok "'\uFFFD'") ∧
    (∀ lib : GoLib, formatValue lib (.string ⟨[0xFE]⟩) = .ok "'\uFFFD'") ∧
    (∀ lib : GoLib, formatValue lib (.string "\uFFFD") = .ok "'\uFFFD'") ∧
    unescapeQuotes "\uFFFD".data = some "\uFFFD".data ∧
    GoString.ofString "\uFFFD" = ⟨[0xEF, 0xBF, 0xBD]⟩ ∧
    GoString.ofString "\uFFFD" ≠ ⟨[0xFF]⟩ :=
  ⟨by decide, fun _ => rfl, fun _ => rfl, fun _ => rfl, by decide, by decide, by decide⟩

/-- C11, amended. For every string, whatever its bytes, the output of `formatValue` begins
and ends with a single quote and, scanned left to right, every single quote of the interior
belongs to an adjacent doubled pair, so none ends the literal early; replacing each doubled
pair by one quote gives back the characters a `range` loop reads from the string. For every
string `s` that is well-formed UTF-8 these are the characters of `s`: un-escaping gives
back `s`. Consequently `formatValue` is injective on the well-formed UTF-8 strings. -/
theorem formatValue_string_roundtrip (lib : GoLib) (s : String) :
    (∀ b : GoString, ∃ interior : List Char,
      formatValue lib (.string b) =
        .ok (String.mk (Char.ofNat 39 :: interior ++ [Char.ofNat 39])) ∧
      unescapeQuotes interior = some b.runes) ∧
    (∃ interior : List Char,
      formatValue lib (.string s) =
        .ok (String.mk (Char.ofNat 39 :: interior ++ [Char.ofNat 39])) ∧
      unescapeQuotes interior = some s.data ∧
      (unescapeQuotes interior).map (fun cs => GoString.ofString (String.mk cs)) =
        some (GoString.ofString s)) ∧
    (∀ t : String, formatValue lib (.string s) = formatValue lib (.string t) → s = t) := by
  refine ⟨fun b => ⟨(doubleQuotes (String.mk b.runes)).data,
      formatValue_string_runes_data lib b, unescapeQuotes_doubleQuotes (String.mk b.runes)⟩,
    ⟨(doubleQuotes s).data, formatValue_string_data lib s, unescapeQuotes_doubleQuotes s, ?_⟩,
    ?_⟩
  · rw [unescapeQuotes_doubleQuotes s]
    rfl
  · intro t h
    rw [formatValue_string_data, formatValue_string_data] at h
    have h2 := congrArg String.data (Except.ok.inj h)
    simp only [List.cons_append, List.cons.injEq, true_and] at h2
    exact doubleQuotes_injective s t (String.ext (List.append_cancel_right h2))

/-- The literal of `it's` is `'it''s'`, whose interior `it''s` reads back as `it's`; a
well-formed string with the same literal as `a'b` is `a'b`. -/
theorem formatValue_string_roundtrip_witness :
    formatValue GoLib.sample (.string "it's") = .ok "'it''s'" ∧
    unescapeQuotes "it''s".data = some "it's".data ∧
    unescapeQuotes "it'".data = none ∧
    (∀ t : String,
      formatValue GoLib.sample (.string "a'b") = formatValue GoLib.sample (.string t) →
      "a'b" = t) :=
  ⟨rfl, by decide, by decide, (formatValue_string_roundtrip GoLib.sample "a'b").2.2⟩

/-! ## Literal formatter: counting quotes -/

theorem quoteCount_doubleQuotes (s : String) :
    quoteCount (doubleQuotes s) = 2 * quoteCount s := by
  have key : ∀ cs : List Char,
      (cs.flatMap (fun c : Char =>
        if c = Char.ofNat 39 then [Char.ofNat 39, Char.ofNat 39] else [c])).count
          (Char.ofNat 39) = 2 * cs.count (Char.ofNat 39) := by
    intro cs
    induction cs with
    | nil => rfl
    | cons c rest ih =>
      by_cases hc : c = Char.ofNat 39
      · subst hc
        simp only [List.flatMap_cons, if_true, List.count_append, ih, List.count_cons_self,
          List.count_nil]
        omega
      · have hc2 : (c == Char.ofNat 39) = false := by simpa using hc
        simp only [List.flatMap_cons, hc, if_false, List.count_append, ih, List.count_cons,
          List.count_nil, hc2]
        simp
  exact key s.data

theorem quoteCount_literal (s : String) :
    quoteCount (String.mk (Char.ofNat 39 :: (doubleQuotes s).data ++ [Char.ofNat 39])) =
      2 * quoteCount s + 2 := by
  have h := quoteCount_doubleQuotes s
  unfold quoteCount at h ⊢
  simp only [List.cons_append, List.count_cons_self, List.count_append, h, List.count_nil]

/-- C12 as stated fails: the string `a'b` contains one single quote, and the output of
`formatValue`, which is `'a''b'`, contains four quote characters, not two; the empty string
contains none and its output, two. -/
theorem formatValue_quote_count_off_by_delimiters :
    quoteCount "a'b" = 1 ∧
    GoString.quoteCount "a'b" = 1 ∧
    formatValue GoLib.sample (.string "a'b") = .ok "'a''b'" ∧
    quoteCount "'a''b'" = 4 ∧
    quoteCount "'a''b'" ≠ 2 * 1 ∧
    quoteCount "" = 0 ∧
    GoString.quoteCount "" = 0 ∧
    formatValue GoLib.sample (.string "") = .ok "''" ∧
    quoteCount "''" = 2 :=
  ⟨by decide, by decide, rfl, by decide, by decide, by decide, by decide, rfl, by decide⟩

/-- C12, amended. For every string `s`, whatever its bytes, that contains exactly `N`
single-quote characters, the output of `formatValue s` contains `2N` quote characters
between its two delimiting quotes, and so `2N + 2` quote characters in all. -/
theorem formatValue_quote_count (lib : GoLib) (s : GoString) (N : Nat)
    (hN : s.quoteCount = N) :
    ∃ interior : String,
      formatValue lib (.string s) = .ok ("'" ++ interior ++ "'") ∧
      quoteCount interior = 2 * N ∧
      quoteCount ("'" ++ interior ++ "'") = 2 * N + 2 := by
  have hc : quoteCount (String.mk s.runes) = N := by
    rw [← hN]
    exact count_quote_runes s
  refine ⟨doubleQuotes (String.mk s.runes), formatValue_string_runes lib s, ?_, ?_⟩
  · rw [quoteCount_doubleQuotes, hc]
  · have h : "'" ++ doubleQuotes (String.mk s.runes) ++ "'" =
        String.mk (Char.ofNat 39 :: (doubleQuotes (String.mk s.runes)).data ++
          [Char.ofNat 39]) := by
      apply String.ext
      simp
    rw [h, quoteCount_literal, hc]

/-- The string `it's` has one quote; its literal has two in the interior, four in all. -/
theorem formatValue_quote_count_witness :
    ∃ interior : String,
      formatValue GoLib.sample (.string "it's") = .ok ("'" ++ interior ++ "'") ∧
      quoteCount interior = 2 * 1 ∧
      quoteCount ("'" ++ interior ++ "'") = 2 * 1 + 2 :=
  formatValue_quote_count GoLib.sample "it's" 1 (by decide)

/-! ## Literal formatter: null, booleans and integers -/

/-- C14. The literal of the absent value is the text `NULL`, of `true` the text `1` and of
`false` the text `0`; none of the three contains a quote and none fails. -/
theorem formatValue_null_bool (lib : GoLib) :
    formatValue lib .nil = .ok "NULL" ∧
    formatValue lib (.bool true) = .ok "1" ∧
    formatValue lib (.bool false) = .ok "0" ∧
    quoteCount "NULL" = 0 ∧ quoteCount "1" = 0 ∧ quoteCount "0" = 0 :=
  ⟨rfl, rfl, rfl, by decide, by decide, by decide⟩

theorem digitChar_eq (d : Nat) (h : d < 10) : Nat.digitChar d = Char.ofNat (48 + d) := by
  interval_cases d <;> rfl

theorem toNat_digit (d : Nat) (h : d < 10) : (Char.ofNat (48 + d)).toNat = 48 + d := by
  interval_cases d <;> rfl

/-- The digit loop of `Nat.repr`, given enough fuel, produces the decimal digits. -/
theorem toDigitsCore_eq (n : Nat) : ∀ (f : Nat) (ds : List Char), n < f →
    Nat.toDigitsCore 10 f n ds = decimalDigits n ++ ds := by
  induction n using Nat.strong_induction_on with
  | _ n ih =>
    intro f ds hf
    cases f with
    | zero => omega
    | succ f =>
      rw [Nat.toDigitsCore, decimalDigits]
      by_cases h0 : n / 10 = 0
      · have hlt : n < 10 := by omega
        have hm : n % 10 = n := by omega
        simp [h0, hlt, hm, digitChar_eq n hlt]
      · have hge : ¬ n < 10 := by omega
        have hlt : n / 10 < n := by omega
        simp only [h0, if_false, hge]
        rw [ih (n / 10) hlt f _ (by omega), digitChar_eq _ (by omega)]
        simp

theorem repr_eq (n : Nat) : Nat.repr n = String.mk (decimalDigits n) := by
  simp [Nat.repr, Nat.toDigits, toDigitsCore_eq n (n + 1) [] (by omega), List.asString]

theorem decimalDigits_ne_nil (n : Nat) : decimalDigits n ≠ [] := by
  rw [decimalDigits]
  by_cases h : n < 10 <;> simp [h]

theorem decimalDigits_isDigit (n : Nat) :
    ∀ c ∈ decimalDigits n, 48 ≤ c.toNat ∧ c.toNat ≤ 57 := by
  induction n using Nat.strong_induction_on with
  | _ n ih =>
    intro c hc
    rw [decimalDigits] at hc
    by_cases h : n < 10
    · simp only [h, if_true, List.mem_singleton] at hc
      rw [hc, toNat_digit n h]
      omega
    · simp only [h, if_false, List.mem_append, List.mem_singleton] at hc
      rcases hc with hc | hc
      · exact ih (n / 10) (by omega) c hc
      · rw [hc, toNat_digit _ (by omega)]
        omega

theorem decimalDigits_no_leading_zero (n : Nat) :
    ∀ rest, decimalDigits n = Char.ofNat 48 :: rest → n = 0 ∧ rest = [] := by
  induction n using Nat.strong_induction_on with
  | _ n ih =>
    intro rest hd
    rw [decimalDigits] at hd
    by_cases h : n < 10
    · simp only [h, if_true, List.cons.injEq] at hd
      refine ⟨?_, hd.2.symm⟩
      have h2 := congrArg Char.toNat hd.1
      rw [toNat_digit n h] at h2
      have h3 : (Char.ofNat 48).toNat = 48 := rfl
      omega
    · simp only [h, if_false] at hd
      exfalso
      cases hq : decimalDigits (n / 10) with
      | nil => exact decimalDigits_ne_nil _ hq
      | cons c cs =>
        rw [hq] at hd
        simp only [List.cons_append, List.cons.injEq] at hd
        rw [hd.1] at hq
        have := (ih (n / 10) (by omega) cs hq).1
        omega

theorem readDigits_append (l1 l2 : List Char) :
    ∀ acc, readDigits acc (l1 ++ l2) = (readDigits acc l1).bind (fun a => readDigits a l2) := by
  induction l1 with
  | nil => intro acc; rfl
  | cons c cs ih =>
    intro acc
    by_cases hc : 48 ≤ c.toNat ∧ c.toNat ≤ 57
    · simp only [List.cons_append, readDigits, hc, and_self, if_true]
      exact ih _
    · simp only [List.cons_append, readDigits, hc, if_false, Option.bind]

theorem readDigits_decimalDigits (n : Nat) : readDigits 0 (decimalDigits n) = some n := by
  induction n using Nat.strong_induction_on with
  | _ n ih =>
    rw [decimalDigits]
    by_cases h : n < 10
    · simp only [h, if_true, readDigits, toNat_digit n h]
      simp
      omega
    · simp only [h, if_false, readDigits_append, ih (n / 10) (by omega), Option.bind,
        readDigits, toNat_digit (n % 10) (by omega)]
      have h1 : 48 ≤ 48 + n % 10 ∧ 48 + n % 10 ≤ 57 := by omega
      simp only [h1, and_self, if_true, Option.some.injEq]
      omega

theorem readDecimal_digits (n : Nat) :
    readDecimal (String.mk (decimalDigits n)) = some (n : Int) := by
  unfold readDecimal
  cases hq : decimalDigits n with
  | nil => exact absurd hq (decimalDigits_ne_nil n)
  | cons c cs =>
    have hdig := decimalDigits_isDigit n c (by rw [hq]; simp)
    have hne : c ≠ '-' := by
      intro h
      rw [h] at hdig
      have : ('-' : Char).toNat = 45 := rfl
      omega
    simp only [hne, if_false]
    rw [← hq, readDigits_decimalDigits]
    rfl

theorem readDecimal_minus_digits (n : Nat) :
    readDecimal (String.mk ('-' :: decimalDigits n)) = some (-(n : Int)) := by
  unfold readDecimal
  simp only [if_true, decimalDigits_ne_nil, if_false, readDigits_decimalDigits]
  rfl

theorem verbD_eq (n : Int) :
    fmt.verbD n = String.mk ((if n < 0 then ['-'] else []) ++ decimalDigits n.natAbs) := by
  unfold fmt.verbD
  by_cases h : n < 0
  · simp only [h, if_true, repr_eq]
    apply String.ext
    simp
  · have h2 : n.toNat = n.natAbs := by omega
    simp only [h, if_false, repr_eq, h2, List.nil_append]

/-- C13. For every integer `n` of a signed type (`int`, `int8` to `int64`) and every
integer `m` of an unsigned type (`uint`, `uint8` to `uint64`), `formatValue` succeeds and
returns the base-10 text of the value: a minus sign exactly when the value is negative, then
its decimal digits, which are digits only (no quote, no suffix) and have no leading zero; so
that reading the text back as a decimal integer gives the value. This holds at every value,
the extreme values of each width included. -/
theorem formatValue_integer (lib : GoLib) (k : IntKind) (u : UintKind) (n : Int) (m : Nat) :
    formatValue lib (.int k n) =
      .ok (String.mk ((if n < 0 then ['-'] else []) ++ decimalDigits n.natAbs)) ∧
    formatValue lib (.uint u m) = .ok (String.mk (decimalDigits m)) ∧
    readDecimal (String.mk ((if n < 0 then ['-'] else []) ++ decimalDigits n.natAbs)) =
      some n ∧
    readDecimal (String.mk (decimalDigits m)) = some (m : Int) ∧
    (∀ c ∈ decimalDigits m, 48 ≤ c.toNat ∧ c.toNat ≤ 57) ∧
    (∀ rest, decimalDigits m = Char.ofNat 48 :: rest → m = 0 ∧ rest = []) := by
  refine ⟨?_, ?_, ?_, readDecimal_digits m, decimalDigits_isDigit m,
    decimalDigits_no_leading_zero m⟩
  · simp only [formatValue, verbD_eq]
  · have h : ¬ ((m : Int) < 0) := by omega
    simp only [formatValue, verbD_eq, h, if_false, List.nil_append, Int.natAbs_ofNat]
  · by_cases h : n < 0
    · simp only [h, if_true, List.singleton_append, readDecimal_minus_digits]
      congr 1
      omega
    · simp only [h, if_false, List.nil_append, readDecimal_digits]
      congr 1
      omega

/-- The integer 42 of the test gives `42`; zero gives `0`; the least `int8`, the least
`int64` and the largest `uint64` give their decimal texts, which read back as the values. -/
theorem formatValue_integer_witness :
    formatValue GoLib.sample (.int .int 42) = .ok "42" ∧
    formatValue GoLib.sample (.int .int 0) = .ok "0" ∧
    formatValue GoLib.sample (.int .int8 (-128)) = .ok "-128" ∧
    formatValue GoLib.sample (.int .int64 (-9223372036854775808)) =
      .ok "-9223372036854775808" ∧
    formatValue GoLib.sample (.uint .uint64 18446744073709551615) =
      .ok "18446744073709551615" ∧
    readDecimal "-9223372036854775808" = some (-9223372036854775808) ∧
    readDecimal "18446744073709551615" = some 18446744073709551615 ∧
    readDecimal (String.mk (decimalDigits 18446744073709551615)) =
      some ((18446744073709551615 : Nat) : Int) :=
  ⟨rfl, rfl, rfl, rfl, rfl, by decide, by decide,
    (formatValue_integer GoLib.sample .int .uint64 0 18446744073709551615).2.2.2.1⟩

/-! ## Literal formatter: timestamps -/

theorem zeroPadded_length (w n : Nat) : (zeroPadded w n).length = w := by
  induction w generalizing n with
  | zero => rfl
  | succ w ih => simp [zeroPadded, ih]

theorem zeroPadded_zero (w : Nat) : zeroPadded w 0 = List.replicate w (Char.ofNat 48) := by
  induction w with
  | zero => rfl
  | succ w ih =>
    simp only [zeroPadded, Nat.zero_div, ih, Nat.zero_mod, Nat.add_zero]
    exact (List.replicate_succ' ..).symm

theorem decimalDigits_length_pos (n : Nat) : 0 < (decimalDigits n).length :=
  List.length_pos.mpr (decimalDigits_ne_nil n)

/-- Left-padding the decimal digits with zeros to a width they fit in gives the zero-padded
text. -/
theorem replicate_append_decimalDigits (w : Nat) : ∀ n, n < 10 ^ (w + 1) →
    List.replicate (w + 1 - (decimalDigits n).length) (Char.ofNat 48) ++ decimalDigits n =
      zeroPadded (w + 1) n := by
  induction w with
  | zero =>
    intro n hn
    have h10 : n < 10 := by simpa using hn
    have hm : n % 10 = n := by omega
    rw [decimalDigits]
    simp [h10, zeroPadded, hm]
  | succ w ih =>
    intro n hn
    by_cases h10 : n < 10
    · have hm : n % 10 = n := by omega
      have hd : n / 10 = 0 := by omega
      rw [decimalDigits]
      simp only [h10, if_true, List.length_singleton]
      rw [zeroPadded, hd, zeroPadded_zero, hm]
      congr 2
    · have hlt : n / 10 < 10 ^ (w + 1) := by
        rw [Nat.div_lt_iff_lt_mul (by decide)]
        calc n < 10 ^ (w + 1 + 1) := hn
          _ = 10 ^ (w + 1) * 10 := by rw [Nat.pow_succ]
      have hih := ih (n / 10) hlt
      rw [decimalDigits]
      simp only [h10, if_false, List.length_append, List.length_singleton]
      rw [zeroPadded, ← hih]
      have he : w + 1 + 1 - ((decimalDigits (n / 10)).length + 1) =
          w + 1 - (decimalDigits (n / 10)).length := by omega
      rw [he, List.append_assoc]

theorem appendInt_nat (w n : Nat) (hn : n < 10 ^ (w + 1)) :
    time.appendInt (n : Int) (w + 1) = String.mk (zeroPadded (w + 1) n) := by
  have h0 : ¬ ((n : Int) < 0) := by omega
  have h48 : ('0' : Char) = Char.ofNat 48 := rfl
  unfold time.appendInt
  simp only [h0, if_false, Int.natAbs_ofNat, repr_eq, String.length, h48]
  apply String.ext
  simp only [String.data_append, List.nil_append]
  exact replicate_append_decimalDigits w n hn

theorem zeroPadded_split (a b : Nat) : ∀ n,
    zeroPadded (a + b) n = zeroPadded a (n / 10 ^ b) ++ zeroPadded b n := by
  induction b with
  | zero => intro n; simp [zeroPadded]
  | succ b ih =>
    intro n
    have h : a + (b + 1) = (a + b) + 1 := by omega
    rw [h, zeroPadded, zeroPadded, ih (n / 10), Nat.div_div_eq_div_mul, List.append_assoc]
    congr 3
    rw [Nat.pow_succ, Nat.mul_comm]

theorem appendNano_eq (n : Nat) (hn : n ≤ 999999999) :
    time.appendNano n = String.mk ('.' :: zeroPadded 3 (n / 1000000)) := by
  have h9 : time.appendInt (n : Int) 9 = String.mk (zeroPadded 9 n) :=
    appendInt_nat 8 n (by norm_num; omega)
  have hs : zeroPadded 9 n = zeroPadded 3 (n / 10 ^ 6) ++ zeroPadded 6 n :=
    zeroPadded_split 3 6 n
  unfold time.appendNano
  simp only [h9, zeroPadded_length]
  rw [hs]
  apply String.ext
  have hl : (zeroPadded 3 (n / 10 ^ 6)).length = 3 := zeroPadded_length 3 _
  have ht : List.take (9 - 9 + 3) (zeroPadded 3 (n / 10 ^ 6) ++ zeroPadded 6 n) =
      zeroPadded 3 (n / 10 ^ 6) := by
    have h3 : 9 - 9 + 3 = (zeroPadded 3 (n / 10 ^ 6)).length := by rw [hl]
    rw [h3, List.take_left']
    rfl
  simp only [String.data_append, ht]
  rfl

theorem Format_eq (t : Time) (hwf : t.WellFormed) (hy0 : 0 ≤ t.year) (hy : t.year ≤ 9999) :
    t.Format = String.mk (zeroPadded 4 t.year.toNat ++ '-' :: zeroPadded 2 t.month ++
      '-' :: zeroPadded 2 t.day ++ ' ' :: zeroPadded 2 t.hour ++ ':' :: zeroPadded 2 t.minute ++
      ':' :: zeroPadded 2 t.second ++ '.' :: zeroPadded 3 (t.nanosecond / 1000000)) := by
  obtain ⟨_, hmo, _, hd, hh, hmi, hs, hns⟩ := hwf
  have hyear : t.year = ((t.year.toNat : Nat) : Int) := by omega
  have e1 : time.appendInt t.year 4 = String.mk (zeroPadded 4 t.year.toNat) := by
    rw [hyear]
    exact appendInt_nat 3 _ (by norm_num; omega)
  have e2 : time.appendInt (t.month : Int) 2 = String.mk (zeroPadded 2 t.month) :=
    appendInt_nat 1 _ (by norm_num; omega)
  have e3 : time.appendInt (t.day : Int) 2 = String.mk (zeroPadded 2 t.day) :=
    appendInt_nat 1 _ (by norm_num; omega)
  have e4 : time.appendInt (t.hour : Int) 2 = String.mk (zeroPadded 2 t.hour) :=
    appendInt_nat 1 _ (by norm_num; omega)
  have e5 : time.appendInt (t.minute : Int) 2 = String.mk (zeroPadded 2 t.minute) :=
    appendInt_nat 1 _ (by norm_num; omega)
  have e6 : time.appendInt (t.second : Int) 2 = String.mk (zeroPadded 2 t.second) :=
    appendInt_nat 1 _ (by norm_num; omega)
  unfold Time.Format
  rw [e1, e2, e3, e4, e5, e6, appendNano_eq t.nanosecond hns]
  apply String.ext
  have hdash : ("-" : String).data = ['-'] := rfl
  have hsp : (" " : String).data = [' '] := rfl
  have hcol : (":" : String).data = [':'] := rfl
  simp only [String.data_append, hdash, hsp, hcol, List.append_assoc, List.singleton_append]

/-- C15. For every timestamp `t` with a year from 0000 to 9999, `formatValue t` is a single
quote, the 23 characters `YYYY-MM-DD HH:MM:SS.mmm` built from the calendar and clock fields
of `t` itself, each zero-padded to its width, with `mmm` the whole milliseconds of the
sub-second part (the nanoseconds divided by a million, rounded down), and a closing single
quote: 25 characters in all, with nothing after the milliseconds. -/
theorem formatValue_time (lib : GoLib) (t : Time) (hwf : t.WellFormed) (hy0 : 0 ≤ t.year)
    (hy : t.year ≤ 9999) :
    formatValue lib (.time t) =
      .ok (String.mk (Char.ofNat 39 :: (zeroPadded 4 t.year.toNat ++
        '-' :: zeroPadded 2 t.month ++ '-' :: zeroPadded 2 t.day ++
        ' ' :: zeroPadded 2 t.hour ++ ':' :: zeroPadded 2 t.minute ++
        ':' :: zeroPadded 2 t.second ++ '.' :: zeroPadded 3 (t.nanosecond / 1000000)) ++
        [Char.ofNat 39])) ∧
    (∀ s, formatValue lib (.time t) = .ok s → s.length = 25) := by
  have h : formatValue lib (.time t) =
      .ok (String.mk (Char.ofNat 39 :: (zeroPadded 4 t.year.toNat ++
        '-' :: zeroPadded 2 t.month ++ '-' :: zeroPadded 2 t.day ++
        ' ' :: zeroPadded 2 t.hour ++ ':' :: zeroPadded 2 t.minute ++
        ':' :: zeroPadded 2 t.second ++ '.' :: zeroPadded 3 (t.nanosecond / 1000000)) ++
        [Char.ofNat 39])) := by
    simp only [formatValue, Format_eq t hwf hy0 hy]
    congr 1
  refine ⟨h, ?_⟩
  intro s hs
  rw [h] at hs
  rw [← Except.ok.inj hs]
  simp [String.length, zeroPadded_length]

/-- The timestamp 2024-10-01T12:30:00Z of the test; and a timestamp one nanosecond before
the year 10000, whose 999999999 nanoseconds are cut to 999 milliseconds. -/
theorem formatValue_time_witness :
    formatValue GoLib.sample (.time ⟨2024, 10, 1, 12, 30, 0, 0⟩) =
      .ok "'2024-10-01 12:30:00.000'" ∧
    formatValue GoLib.sample (.time ⟨9999, 12, 31, 23, 59, 59, 999999999⟩) =
      .ok "'9999-12-31 23:59:59.999'" ∧
    formatValue GoLib.sample (.time ⟨7, 3, 9, 4, 5, 6, 1999999⟩) =
      .ok "'0007-03-09 04:05:06.001'" ∧
    (∀ s, formatValue GoLib.sample (.time ⟨2024, 10, 1, 12, 30, 0, 0⟩) = .ok s →
      s.length = 25) :=
  ⟨(formatValue_time GoLib.sample ⟨2024, 10, 1, 12, 30, 0, 0⟩ (by decide) (by decide)
      (by decide)).1,
   (formatValue_time GoLib.sample ⟨9999, 12, 31, 23, 59, 59, 999999999⟩ (by decide)
      (by decide) (by decide)).1,
   (formatValue_time GoLib.sample ⟨7, 3, 9, 4, 5, 6, 1999999⟩ (by decide) (by decide)
      (by decide)).1,
   (formatValue_time GoLib.sample ⟨2024, 10, 1, 12, 30, 0, 0⟩ (by decide) (by decide)
      (by decide)).2⟩

/-! ## Aggregation clauses: INTERVAL and FILL -/

theorem tdiv_second (d : Int) (h : d > 0) :
    Int.tdiv d time.Second = ((d.toNat / 1000000000 : Nat) : Int) := by
  unfold time.Second
  rw [Int.tdiv_eq_ediv (by omega) (by omega)]
  omega

theorem verbD_natCast (n : Nat) : fmt.verbD (n : Int) = String.mk (decimalDigits n) := by
  have h : ¬ ((n : Int) < 0) := by omega
  simp only [verbD_eq, h, if_false, List.nil_append, Int.natAbs_ofNat]

/-- C16. For every interval `d` and fill string `f`, `buildIntervalFill d f` is built from
two optional fragments: `INTERVAL(<N>s)` if and only if `d > 0`, with `N` the decimal text
of the whole seconds of `d`, rounded toward zero; and `FILL(<p>)` if and only if `p`, which
is `f` lower-cased and trimmed of surrounding white space, is non-empty. The result is empty
when neither is present, and otherwise one space followed by the present fragments joined by
one space, the interval first. An interval below one second gives `INTERVAL(0s)`. -/
theorem buildIntervalFill_contract (lib : GoLib) (d : Int) (f : String) :
    (d > 0 → strings.TrimSpace (strings.ToLower lib f) ≠ "" →
      buildIntervalFill lib d f =
        " " ++ ("INTERVAL(" ++ String.mk (decimalDigits (d.toNat / 1000000000)) ++ "s)") ++
          " " ++ ("FILL(" ++ strings.TrimSpace (strings.ToLower lib f) ++ ")")) ∧
    (d > 0 → strings.TrimSpace (strings.ToLower lib f) = "" →
      buildIntervalFill lib d f =
        " " ++ ("INTERVAL(" ++ String.mk (decimalDigits (d.toNat / 1000000000)) ++ "s)")) ∧
    (d ≤ 0 → strings.TrimSpace (strings.ToLower lib f) ≠ "" →
      buildIntervalFill lib d f =
        " " ++ ("FILL(" ++ strings.TrimSpace (strings.ToLower lib f) ++ ")")) ∧
    (d ≤ 0 → strings.TrimSpace (strings.ToLower lib f) = "" →
      buildIntervalFill lib d f = "") ∧
    (0 < d → d < 1000000000 → decimalDigits (d.toNat / 1000000000) = ['0']) := by
  refine ⟨?_, ?_, ?_, ?_, ?_⟩
  · intro hd hp
    have e : ∀ a b : String, a ++ " " ++ strings.Join [b] " " = a ++ " " ++ b := by
      intro a b; rfl
    simp only [buildIntervalFill, hd, if_true, hp, ne_eq, not_false_eq_true,
      List.nil_append, List.singleton_append, List.length_cons, List.length_nil,
      tdiv_second d hd, verbD_natCast, strings.Join]
    simp only [Nat.add_one_ne_zero, if_false]
    apply String.ext
    simp
  · intro hd hp
    simp only [buildIntervalFill, hd, if_true, hp, ne_eq, not_true_eq_false, if_false,
      List.nil_append, List.length_cons, List.length_nil, tdiv_second d hd, verbD_natCast,
      strings.Join]
    simp only [Nat.add_one_ne_zero, if_false]
  · intro hd hp
    have hd2 : ¬ d > 0 := by omega
    simp only [buildIntervalFill, hd2, if_false, hp, ne_eq, not_false_eq_true, if_true,
      List.nil_append, List.length_cons, List.length_nil, strings.Join]
    simp only [Nat.add_one_ne_zero, if_false]
  · intro hd hp
    have hd2 : ¬ d > 0 := by omega
    simp only [buildIntervalFill, hd2, if_false, hp, ne_eq, not_true_eq_false,
      List.length_nil, if_true]
  · intro h0 h1
    have hz : d.toNat / 1000000000 = 0 := by omega
    rw [hz, decimalDigits]
    rfl

/-- An interval of 90.9 seconds with the fill ` Linear `; half a second with no fill; no
interval with the fill `PREV`; and neither. -/
theorem buildIntervalFill_contract_witness :
    buildIntervalFill GoLib.sample 90900000000 " Linear " = " INTERVAL(90s) FILL(linear)" ∧
    buildIntervalFill GoLib.sample 500000000 "  " = " INTERVAL(0s)" ∧
    buildIntervalFill GoLib.sample 0 "PREV" = " FILL(prev)" ∧
    buildIntervalFill GoLib.sample (-5000000000) "" = "" := by
  refine ⟨?_, ?_, ?_, (buildIntervalFill_contract GoLib.sample (-5000000000) "").2.2.2.1
    (by decide) (by decide)⟩
  · rw [(buildIntervalFill_contract GoLib.sample 90900000000 " Linear ").1 (by decide)
      (by decide)]
    simp [decimalDigits]
    decide
  · rw [(buildIntervalFill_contract GoLib.sample 500000000 "  ").2.1 (by decide)
      (by decide)]
    simp [decimalDigits]
  · rw [(buildIntervalFill_contract GoLib.sample 0 "PREV").2.2.1 (by decide) (by decide)]
    decide

/-! ## Aggregation clauses: GROUP BY -/

theorem appendEach_sanitizeIdent_valid (tags : List String) (h : ∀ t ∈ tags, ValidIdent t) :
    appendEach sanitizeIdent tags = .ok tags := by
  rw [appendEach_ok_iff]
  induction tags with
  | nil => exact List.Forall₂.nil
  | cons t rest ih =>
    exact List.Forall₂.cons (sanitizeIdent_valid t (h t (by simp)))
      (ih (fun t2 h2 => h t2 (by simp [h2])))

theorem appendEach_sanitizeIdent_error (tags : List String) (e : Error)
    (h : appendEach sanitizeIdent tags = .error e) :
    (∃ t ∈ tags, ¬ ValidIdent t) ∧ e.kind = .InvalidIdentifier := by
  obtain ⟨pre, t, post, h1, _, h3⟩ := (appendEach_error_iff _ _ _).mp h
  constructor
  · refine ⟨t, by simp [h1], fun hv => ?_⟩
    rw [sanitizeIdent_valid t hv] at h3
    cases h3
  · rcases sanitizeIdent_error t e h3 with h4 | ⟨h4, _⟩ <;> rw [h4] <;> rfl

theorem appendEach_sanitizeIdent_invalid (tags : List String)
    (h : ∃ t ∈ tags, ¬ ValidIdent t) : ∃ e, appendEach sanitizeIdent tags = .error e := by
  cases hr : appendEach sanitizeIdent tags with
  | error e => exact ⟨e, rfl⟩
  | ok parts =>
    exfalso
    obtain ⟨t, ht, hnv⟩ := h
    obtain ⟨y, _, hy⟩ := forall₂_mem_left ((appendEach_ok_iff _ _ _).mp hr) ht
    exact hnv ((sanitizeIdent_ok_iff t y).mp hy).1

theorem buildGroupByTags_cons (tags : List String) (h : tags ≠ []) :
    buildGroupByTags tags =
      match appendEach sanitizeIdent tags with
      | .error err => .error err
      | .ok parts => .ok (" GROUP BY " ++ strings.Join parts ", ") := by
  have hlen : tags.length ≠ 0 := fun h0 => h (List.length_eq_zero.mp h0)
  simp only [buildGroupByTags, hlen, if_false]

/-- C17. For every list of tag names, `buildGroupByTags` returns the empty string when the
list is empty; when the list is non-empty and every tag is a valid identifier it returns
` GROUP BY `, with one leading space, followed by the tags unchanged, in the caller's order,
joined by comma-space; and it fails, with `InvalidIdentifier` and no text, if and only if
the list contains a tag that is not a valid identifier. -/
theorem buildGroupByTags_contract (tags : List String) :
    (tags = [] → buildGroupByTags tags = .ok "") ∧
    (tags ≠ [] → (∀ t ∈ tags, ValidIdent t) →
      buildGroupByTags tags = .ok (" GROUP BY " ++ strings.Join tags ", ")) ∧
    ((∃ e, buildGroupByTags tags = .error e) ↔ ∃ t ∈ tags, ¬ ValidIdent t) ∧
    (∀ e, buildGroupByTags tags = .error e → e.kind = .InvalidIdentifier) := by
  have hnil : tags = [] → buildGroupByTags tags = .ok "" := by
    intro h; simp [buildGroupByTags, h]
  refine ⟨hnil, ?_, ⟨?_, ?_⟩, ?_⟩
  · intro hne hv
    rw [buildGroupByTags_cons tags hne, appendEach_sanitizeIdent_valid tags hv]
  · rintro ⟨e, he⟩
    by_cases hne : tags = []
    · rw [hnil hne] at he; cases he
    · rw [buildGroupByTags_cons tags hne] at he
      cases hr : appendEach sanitizeIdent tags with
      | error e2 => exact (appendEach_sanitizeIdent_error tags e2 hr).1
      | ok parts => rw [hr] at he; cases he
  · intro h
    have hne : tags ≠ [] := by
      obtain ⟨t, ht, _⟩ := h
      exact List.ne_nil_of_mem ht
    obtain ⟨e, he⟩ := appendEach_sanitizeIdent_invalid tags h
    exact ⟨e, by rw [buildGroupByTags_cons tags hne, he]⟩
  · intro e he
    by_cases hne : tags = []
    · rw [hnil hne] at he; cases he
    · rw [buildGroupByTags_cons tags hne] at he
      cases hr : appendEach sanitizeIdent tags with
      | error e2 =>
        rw [hr] at he
        cases he
        exact (appendEach_sanitizeIdent_error tags e hr).2
      | ok parts => rw [hr] at he; cases he

/-- The tags `location`, `groupId` give ` GROUP BY location, groupId`; no tag gives the
empty string; a tag with a space in it makes the builder fail. -/
theorem buildGroupByTags_contract_witness :
    buildGroupByTags ["location", "groupId"] = .ok " GROUP BY location, groupId" ∧
    buildGroupByTags [] = .ok "" ∧
    (∃ e, buildGroupByTags ["location", "group id"] = .error e) :=
  ⟨(buildGroupByTags_contract ["location", "groupId"]).2.1 (by simp) (by decide),
   (buildGroupByTags_contract []).1 rfl,
   (buildGroupByTags_contract ["location", "group id"]).2.2.1.mpr
     ⟨"group id", by simp, by decide⟩⟩

/-! ## Aggregate query -/

/-- C18. The clause order of an aggregate query is fixed: for every valid table name and
every aggregate expression, filter, tag list, interval and fill for which the clause
builders succeed, the statement `QueryAggregateAcrossStable` hands to the driver is
`SELECT <aggExpr> FROM <table> ` followed by the `buildWhere` fragment, then the
`buildGroupByTags` fragment, then the `buildIntervalFill` fragment, then the
`buildOrderLimit` fragment, in that order, with `aggExpr` copied unchanged. If the table
name or a clause builder fails, no statement is executed and an error is returned. -/
theorem QueryAggregate_clause_order (lib : GoLib) (db : QueryDriver) (stable aggExpr : String)
    (f : Filter) (groupTags : List String) (interval : Int) (fill : String) :
    (∀ w g p : String, ValidIdent stable → f.buildWhere lib = .ok w →
      buildGroupByTags groupTags = .ok g → f.buildOrderLimit = .ok p →
      (Client.QueryAggregateAcrossStable lib db stable aggExpr f groupTags interval
        fill).executed =
        ["SELECT " ++ aggExpr ++ " FROM " ++ stable ++ " " ++ w ++ g ++
          buildIntervalFill lib interval fill ++ p]) ∧
    ((¬ ValidIdent stable ∨ (∃ e, f.buildWhere lib = .error e) ∨
        (∃ e, buildGroupByTags groupTags = .error e) ∨
        (∃ e, f.buildOrderLimit = .error e)) →
      (Client.QueryAggregateAcrossStable lib db stable aggExpr f groupTags interval
        fill).executed = [] ∧
      ∃ e, (Client.QueryAggregateAcrossStable lib db stable aggExpr f groupTags interval
        fill).result = .error e) := by
  constructor
  · intro w g p hv hw hg hp
    simp only [Client.QueryAggregateAcrossStable, sanitizeIdent_valid stable hv, hw, hg, hp]
  · intro h
    cases hs : sanitizeIdent stable with
    | error e => simp [Client.QueryAggregateAcrossStable, hs]
    | ok st =>
      have hv : ValidIdent stable := ((sanitizeIdent_ok_iff stable st).mp hs).1
      cases hw : f.buildWhere lib with
      | error e => simp [Client.QueryAggregateAcrossStable, hs, hw]
      | ok w =>
        cases hg : buildGroupByTags groupTags with
        | error e => simp [Client.QueryAggregateAcrossStable, hs, hw, hg]
        | ok g =>
          cases hp : f.buildOrderLimit with
          | error e => simp [Client.QueryAggregateAcrossStable, hs, hw, hg, hp]
          | ok p =>
            exfalso
            rcases h with h | ⟨e, h⟩ | ⟨e, h⟩ | ⟨e, h⟩
            · exact h hv
            · rw [hw] at h; cases h
            · rw [hg] at h; cases h
            · rw [hp] at h; cases h

/-- An aggregate over `meters` with every clause present; and the same query with a tag
that is not an identifier, which executes nothing. -/
theorem QueryAggregate_clause_order_witness :
    (Client.QueryAggregateAcrossStable GoLib.sample ⟨fun _ => .ok ⟨[], none⟩⟩ "meters"
        "avg(current)" ⟨[⟨"voltage", ">", .int .int 200⟩], "", "ts", true, 5⟩ ["location"]
        60000000000 "prev").executed =
      ["SELECT avg(current) FROM meters WHERE voltage > 200 GROUP BY location" ++
        " INTERVAL(60s) FILL(prev) ORDER BY ts DESC LIMIT 5"] ∧
    (Client.QueryAggregateAcrossStable GoLib.sample ⟨fun _ => .ok ⟨[], none⟩⟩ "meters"
        "avg(current)" ⟨[⟨"voltage", ">", .int .int 200⟩], "", "ts", true, 5⟩ ["loc ation"]
        60000000000 "prev").executed = [] :=
  ⟨(QueryAggregate_clause_order GoLib.sample ⟨fun _ => .ok ⟨[], none⟩⟩ "meters"
      "avg(current)" ⟨[⟨"voltage", ">", .int .int 200⟩], "", "ts", true, 5⟩ ["location"]
      60000000000 "prev").1 "WHERE voltage > 200" " GROUP BY location"
      " ORDER BY ts DESC LIMIT 5" (by decide) rfl rfl rfl,
   ((QueryAggregate_clause_order GoLib.sample ⟨fun _ => .ok ⟨[], none⟩⟩ "meters"
      "avg(current)" ⟨[⟨"voltage", ">", .int .int 200⟩], "", "ts", true, 5⟩ ["loc ation"]
      60000000000 "prev").2 (Or.inr (Or.inr (Or.inl ⟨.illegalIdent "loc ation", rfl⟩)))).1⟩

/-! ## Case folding of ASCII names -/

theorem char_lt_iff_toNat (a b : Char) : a < b ↔ a.toNat < b.toNat := Iff.rfl

/-- An ASCII character folds to a lower-case ASCII letter exactly when it is that letter or
its upper-case form, whatever the Unicode tables hold. -/
theorem EqualFold_rune_lower (lib : GoLib) (c l : Char) (hc : c.toNat < 128)
    (hl : 97 ≤ l.toNat ∧ l.toNat ≤ 122) :
    EqualFold.rune lib c l = true ↔ c = l ∨ c.toNat + 32 = l.toNat := by
  unfold EqualFold.rune
  by_cases h1 : l = c
  · simp [h1]
  · have h1n : l.toNat ≠ c.toNat := fun h => h1 ((char_eq_iff_toNat l c).mpr h)
    have h1c : ¬ c = l := fun h => h1 h.symm
    simp only [h1, if_false]
    by_cases hlt : l < c
    · have hlt2 := (char_lt_iff_toNat l c).mp hlt
      simp only [hlt, if_true, hc, decide_eq_true_eq, h1c, false_or]
      omega
    · have hlt2 : ¬ l.toNat < c.toNat := fun h => hlt ((char_lt_iff_toNat l c).mpr h)
      have hl2 : l.toNat < 128 := by omega
      simp only [hlt, if_false, hl2, if_true, decide_eq_true_eq, h1c, false_or]
      omega

theorem identChar_ascii (c : Char) (h : IsIdentChar c) : c.toNat < 128 := by
  unfold IsIdentChar at h
  omega

theorem EqualFold_ts_iff (lib : GoLib) (name : String) (hv : ValidIdent name) :
    strings.EqualFold lib name "ts" = true ↔ IsTs name := by
  have hdata : ("ts" : String).data = ['t', 's'] := rfl
  have ht : 97 ≤ ('t' : Char).toNat ∧ ('t' : Char).toNat ≤ 122 := by decide
  have hs : 97 ≤ ('s' : Char).toNat ∧ ('s' : Char).toNat ≤ 122 := by decide
  have hT : ∀ c : Char, c.toNat + 32 = ('t' : Char).toNat ↔ c = 'T' := by
    intro c
    rw [char_eq_iff_toNat c 'T']
    have h1 : ('t' : Char).toNat = 116 := rfl
    have h2 : ('T' : Char).toNat = 84 := rfl
    omega
  have hS : ∀ c : Char, c.toNat + 32 = ('s' : Char).toNat ↔ c = 'S' := by
    intro c
    rw [char_eq_iff_toNat c 'S']
    have h1 : ('s' : Char).toNat = 115 := rfl
    have h2 : ('S' : Char).toNat = 83 := rfl
    omega
  unfold strings.EqualFold IsTs
  rw [hdata]
  obtain ⟨cs⟩ := name
  have hall : ∀ c ∈ cs, c.toNat < 128 := fun c hc => identChar_ascii c (hv.2 c hc)
  have hmk : ∀ a b : List Char, (String.mk a = String.mk b) ↔ a = b := by
    intro a b
    constructor
    · intro h; exact congrArg String.data h
    · intro h; rw [h]
  have e1 : ("ts" : String) = String.mk ['t', 's'] := rfl
  have e2 : ("tS" : String) = String.mk ['t', 'S'] := rfl
  have e3 : ("Ts" : String) = String.mk ['T', 's'] := rfl
  have e4 : ("TS" : String) = String.mk ['T', 'S'] := rfl
  rw [e1, e2, e3, e4]
  simp only [hmk]
  match cs, hall with
  | [], _ => simp [EqualFold.scan]
  | [c1], _ => simp [EqualFold.scan]
  | [c1, c2], hall =>
    have r1 := EqualFold_rune_lower lib c1 't' (hall c1 (by simp)) ht
    have r2 := EqualFold_rune_lower lib c2 's' (hall c2 (by simp)) hs
    simp only [EqualFold.scan, Bool.and_true, Bool.and_eq_true, r1, r2, hT, hS,
      List.cons.injEq, and_true]
    constructor
    · rintro ⟨h1 | h1, h2 | h2⟩
      · exact Or.inl ⟨h1, h2⟩
      · exact Or.inr (Or.inl ⟨h1, h2⟩)
      · exact Or.inr (Or.inr (Or.inl ⟨h1, h2⟩))
      · exact Or.inr (Or.inr (Or.inr ⟨h1, h2⟩))
    · rintro (⟨h1, h2⟩ | ⟨h1, h2⟩ | ⟨h1, h2⟩ | ⟨h1, h2⟩)
      · exact ⟨Or.inl h1, Or.inl h2⟩
      · exact ⟨Or.inl h1, Or.inr h2⟩
      · exact ⟨Or.inr h1, Or.inl h2⟩
      · exact ⟨Or.inr h1, Or.inr h2⟩
  | c1 :: c2 :: c3 :: rest, _ =>
    simp only [EqualFold.scan, Bool.and_false, Bool.false_eq_true, false_iff]
    rintro (h | h | h | h) <;>
      (have hlen := congrArg List.length h; simp at hlen)

/-! ## Supertable creation -/

/-- C19. The empty-column guard of `CreateStable` tests the length of the column list
before the loop that drops the columns named `ts`, so it misses a list in which every
column is named `ts`, in whatever letter case. For the columns `ts` and `TS` the call does
not fail with the empty-column error: whatever the Unicode tables and the driver, the
statement `CREATE STABLE IF NOT EXISTS meters (ts TIMESTAMP)` is handed to the driver, and
a driver that accepts it makes the call succeed. For the empty list the same guard does
fire: nothing is executed and the empty-column error comes back. -/
theorem CreateStable_only_ts_columns_executes :
    IsTs "ts" ∧ IsTs "TS" ∧
    (∀ (lib : GoLib) (db : Driver),
      (Client.CreateStable lib db "meters" [⟨"ts", "TIMESTAMP"⟩, ⟨"TS", "TIMESTAMP"⟩]
        []).executed = ["CREATE STABLE IF NOT EXISTS meters (ts TIMESTAMP)"]) ∧
    (Client.CreateStable GoLib.sample ⟨fun _ => .ok ⟨.ok 0⟩⟩ "meters"
      [⟨"ts", "TIMESTAMP"⟩, ⟨"TS", "TIMESTAMP"⟩] []).result = .ok () ∧
    (Client.CreateStable GoLib.sample ⟨fun _ => .ok ⟨.ok 0⟩⟩ "meters"
      [⟨"ts", "TIMESTAMP"⟩, ⟨"TS", "TIMESTAMP"⟩] []).result ≠ .error .emptyColumns ∧
    (∀ (lib : GoLib) (db : Driver),
      (Client.CreateStable lib db "meters" [] []).executed = [] ∧
      (Client.CreateStable lib db "meters" [] []).result = .error .emptyColumns) ∧
    Error.kind .emptyColumns = .EmptyColumnSet := by
  refine ⟨by decide, by decide, fun _ _ => rfl, rfl, ?_, fun _ _ => ⟨rfl, rfl⟩, rfl⟩
  have h : (Client.CreateStable GoLib.sample ⟨fun _ => .ok ⟨.ok 0⟩⟩ "meters"
      [⟨"ts", "TIMESTAMP"⟩, ⟨"TS", "TIMESTAMP"⟩] []).result = .ok () := rfl
  rw [h]
  intro h2
  cases h2

/-- The guard of `CreateStable` at an empty column list. For every valid supertable name,
`CreateStable` fails with the empty-column error, of kind `EmptyColumnSet`, when the column
list is empty, and no statement is executed; with a name that is not a valid identifier it
fails with `InvalidIdentifier` and executes nothing either. -/
theorem CreateStable_empty_columns (lib : GoLib) (db : Driver) (stable : String)
    (tagColumns : List ColumnDef) :
    (ValidIdent stable →
      (Client.CreateStable lib db stable [] tagColumns).executed = [] ∧
      (Client.CreateStable lib db stable [] tagColumns).result = .error .emptyColumns) ∧
    Error.kind .emptyColumns = .EmptyColumnSet ∧
    (¬ ValidIdent stable →
      (Client.CreateStable lib db stable [] tagColumns).executed = [] ∧
      ∃ e, (Client.CreateStable lib db stable [] tagColumns).result = .error e ∧
        e.kind = .InvalidIdentifier) := by
  refine ⟨?_, rfl, ?_⟩
  · intro hv
    simp [Client.CreateStable, sanitizeIdent_valid stable hv]
  · intro hv
    obtain ⟨e, he, hk⟩ := sanitizeIdent_invalid stable hv
    simp [Client.CreateStable, he, hk]

/-- The supertable `meters` with no column: no statement, the empty-column error. -/
theorem CreateStable_empty_columns_witness :
    (Client.CreateStable GoLib.sample ⟨fun _ => .ok ⟨.ok 0⟩⟩ "meters" []
      [⟨"location", "NCHAR(64)"⟩]).executed = [] ∧
    (Client.CreateStable GoLib.sample ⟨fun _ => .ok ⟨.ok 0⟩⟩ "meters" []
      [⟨"location", "NCHAR(64)"⟩]).result = .error .emptyColumns :=
  (CreateStable_empty_columns GoLib.sample ⟨fun _ => .ok ⟨.ok 0⟩⟩ "meters"
    [⟨"location", "NCHAR(64)"⟩]).1 (by decide)

theorem field_valid (lib : GoLib) (c : ColumnDef) (hv : ValidIdent c.Name) :
    CreateStable.field lib c =
      .ok (if IsTs c.Name then none else some (c.Name ++ " " ++ c.Type_)) := by
  unfold CreateStable.field
  rw [sanitizeIdent_valid c.Name hv]
  by_cases h : IsTs c.Name
  · have h2 := (EqualFold_ts_iff lib c.Name hv).mpr h
    simp only [h2, if_true, h]
  · have h2 : strings.EqualFold lib c.Name "ts" = false := by
      cases h3 : strings.EqualFold lib c.Name "ts" with
      | false => rfl
      | true => exact absurd ((EqualFold_ts_iff lib c.Name hv).mp h3) h
    simp [h2, h]

theorem fields_valid (lib : GoLib) (columns : List ColumnDef)
    (hv : ∀ c ∈ columns, ValidIdent c.Name) :
    appendEach (CreateStable.field lib) columns =
      .ok (columns.map (fun c =>
        if IsTs c.Name then none else some (c.Name ++ " " ++ c.Type_))) := by
  rw [appendEach_ok_iff]
  induction columns with
  | nil => exact List.Forall₂.nil
  | cons c rest ih =>
    exact List.Forall₂.cons (field_valid lib c (hv c (by simp)))
      (ih (fun c2 h2 => hv c2 (by simp [h2])))

theorem reduceOption_fields (columns : List ColumnDef) :
    (columns.map (fun c =>
      if IsTs c.Name then none else some (c.Name ++ " " ++ c.Type_))).reduceOption =
      (columns.filter (fun c => ¬ IsTs c.Name)).map (fun c => c.Name ++ " " ++ c.Type_) := by
  induction columns with
  | nil => rfl
  | cons c rest ih =>
    by_cases h : IsTs c.Name
    · simp only [List.map_cons, h, if_true, List.reduceOption_cons_of_none, ih,
        not_true_eq_false, decide_False, Bool.false_eq_true, not_false_eq_true,
        List.filter_cons_of_neg]
    · simp only [List.map_cons, h, if_false, List.reduceOption_cons_of_some, ih,
        not_false_eq_true, decide_True, List.filter_cons_of_pos]

theorem tags_valid (tags : List ColumnDef) (hv : ∀ t ∈ tags, ValidIdent t.Name) :
    appendEach CreateStable.tag tags =
      .ok (tags.map (fun t => t.Name ++ " " ++ t.Type_)) := by
  rw [appendEach_ok_iff]
  induction tags with
  | nil => exact List.Forall₂.nil
  | cons t rest ih =>
    refine List.Forall₂.cons ?_ (ih (fun t2 h2 => hv t2 (by simp [h2])))
    simp only [CreateStable.tag, sanitizeIdent_valid t.Name (hv t (by simp))]

theorem tags_invalid (tags : List ColumnDef) (h : ∃ t ∈ tags, ¬ ValidIdent t.Name) :
    ∃ e, appendEach CreateStable.tag tags = .error e := by
  cases hr : appendEach CreateStable.tag tags with
  | error e => exact ⟨e, rfl⟩
  | ok parts =>
    exfalso
    obtain ⟨t, ht, hnv⟩ := h
    obtain ⟨y, _, hy⟩ := forall₂_mem_left ((appendEach_ok_iff _ _ _).mp hr) ht
    unfold CreateStable.tag at hy
    cases hs : sanitizeIdent t.Name with
    | error e => rw [hs] at hy; cases hy
    | ok name => exact hnv ((sanitizeIdent_ok_iff t.Name name).mp hs).1

/-- C20. For every valid supertable name and every non-empty column list with valid names,
the field list of the statement `CreateStable` executes is `ts TIMESTAMP` first, followed by
`<name> <type>` for each caller column whose name is not `ts` in any letter case, in the
caller's order; so exactly one field named `ts` appears, however the caller spelled and
repeated it. The statement ends with ` TAGS (<name> <type>, ...)` if and only if the tag
column list is non-empty; with a tag name that is not a valid identifier nothing is
executed. -/
theorem CreateStable_field_list (lib : GoLib) (db : Driver) (stable : String)
    (columns tagColumns : List ColumnDef) (hst : ValidIdent stable) (hne : columns ≠ [])
    (hcols : ∀ c ∈ columns, ValidIdent c.Name) :
    (tagColumns = [] →
      (Client.CreateStable lib db stable columns tagColumns).executed =
        ["CREATE STABLE IF NOT EXISTS " ++ stable ++ " (" ++
          strings.Join ("ts TIMESTAMP" :: (columns.filter (fun c => ¬ IsTs c.Name)).map
            (fun c => c.Name ++ " " ++ c.Type_)) ", " ++ ")"]) ∧
    (tagColumns ≠ [] → (∀ t ∈ tagColumns, ValidIdent t.Name) →
      (Client.CreateStable lib db stable columns tagColumns).executed =
        ["CREATE STABLE IF NOT EXISTS " ++ stable ++ " (" ++
          strings.Join ("ts TIMESTAMP" :: (columns.filter (fun c => ¬ IsTs c.Name)).map
            (fun c => c.Name ++ " " ++ c.Type_)) ", " ++ ")" ++
          " TAGS (" ++ strings.Join (tagColumns.map (fun t => t.Name ++ " " ++ t.Type_)) ", "
          ++ ")"]) ∧
    ((∃ t ∈ tagColumns, ¬ ValidIdent t.Name) →
      (Client.CreateStable lib db stable columns tagColumns).executed = []) ∧
    ("ts" :: (columns.filter (fun c => ¬ IsTs c.Name)).map (fun c => c.Name)).countP
      (fun name => decide (IsTs name)) = 1 := by
  have hlen : columns.length ≠ 0 := fun h0 => hne (List.length_eq_zero.mp h0)
  refine ⟨?_, ?_, ?_, ?_⟩
  · intro ht
    subst ht
    simp [Client.CreateStable, sanitizeIdent_valid stable hst, hlen,
      fields_valid lib columns hcols, reduceOption_fields, appendEach]
  · intro ht htags
    have hpos : 0 < tagColumns.length := List.length_pos.mpr ht
    simp [Client.CreateStable, sanitizeIdent_valid stable hst, hlen,
      fields_valid lib columns hcols, reduceOption_fields, tags_valid tagColumns htags, ht,
      hpos]
  · intro htags
    obtain ⟨e, he⟩ := tags_invalid tagColumns htags
    simp [Client.CreateStable, sanitizeIdent_valid stable hst, hlen,
      fields_valid lib columns hcols, he]
  · have h0 : ((columns.filter (fun c => ¬ IsTs c.Name)).map (fun c => c.Name)).countP
        (fun name => decide (IsTs name)) = 0 := by
      rw [List.countP_eq_zero]
      intro name hname
      simp only [List.mem_map, List.mem_filter, decide_eq_true_eq] at hname
      obtain ⟨c, ⟨_, hc⟩, rfl⟩ := hname
      simpa using hc
    have hts : decide (IsTs "ts") = true := by decide
    rw [List.countP_cons, h0]
    simp [hts]

/-- The supertable `meters` with the caller columns `TS`, `voltage`, `ts`, `current` and one
tag; and the same columns with no tag. -/
theorem CreateStable_field_list_witness :
    (Client.CreateStable GoLib.sample ⟨fun _ => .ok ⟨.ok 0⟩⟩ "meters"
      [⟨"TS", "TIMESTAMP"⟩, ⟨"voltage", "INT"⟩, ⟨"ts", "TIMESTAMP"⟩, ⟨"current", "FLOAT"⟩]
      [⟨"location", "NCHAR(64)"⟩]).executed =
      ["CREATE STABLE IF NOT EXISTS meters (ts TIMESTAMP, voltage INT, current FLOAT)" ++
        " TAGS (location NCHAR(64))"] ∧
    (Client.CreateStable GoLib.sample ⟨fun _ => .ok ⟨.ok 0⟩⟩ "meters"
      [⟨"TS", "TIMESTAMP"⟩, ⟨"voltage", "INT"⟩, ⟨"ts", "TIMESTAMP"⟩, ⟨"current", "FLOAT"⟩]
      []).executed =
      ["CREATE STABLE IF NOT EXISTS meters (ts TIMESTAMP, voltage INT, current FLOAT)"] := by
  constructor
  · rw [(CreateStable_field_list GoLib.sample ⟨fun _ => .ok ⟨.ok 0⟩⟩ "meters"
      [⟨"TS", "TIMESTAMP"⟩, ⟨"voltage", "INT"⟩, ⟨"ts", "TIMESTAMP"⟩, ⟨"current", "FLOAT"⟩]
      [⟨"location", "NCHAR(64)"⟩] (by decide) (by simp) (by decide)).2.1 (by simp)
      (by decide)]
    decide
  · rw [(CreateStable_field_list GoLib.sample ⟨fun _ => .ok ⟨.ok 0⟩⟩ "meters"
      [⟨"TS", "TIMESTAMP"⟩, ⟨"voltage", "INT"⟩, ⟨"ts", "TIMESTAMP"⟩, ⟨"current", "FLOAT"⟩]
      [] (by decide) (by simp) (by decide)).1 rfl]
    decide

/-! ## Stream creation: the watermark -/

theorem Milliseconds_pos (w : Int) (h : w > 0) :
    time.Duration.Milliseconds w = ((w.toNat / 1000000 : Nat) : Int) := by
  unfold time.Duration.Milliseconds
  rw [Int.tdiv_eq_ediv (by omega) (by omega)]
  omega

theorem tmod_thousand (n : Nat) : Int.tmod (n : Int) 1000 = ((n % 1000 : Nat) : Int) := by
  rw [Int.tmod_eq_emod (by omega) (by omega)]
  omega

theorem tdiv_thousand (n : Nat) : Int.tdiv (n : Int) 1000 = ((n / 1000 : Nat) : Int) := by
  rw [Int.tdiv_eq_ediv (by omega) (by omega)]
  omega

/-- C25. For every watermark `w`, the watermark block of `CreateStream` writes nothing when
`w ≤ 0`; when `w > 0`, with `ms` the whole milliseconds of `w` (rounded toward zero), it
writes `WATERMARK <ms/1000>s ` if `ms` is divisible by 1000 and `WATERMARK <ms>ms `
otherwise, each with one trailing space; the number written with `s` is `ms / 1000` with
`ms / 1000 * 1000 = ms`, so number and unit denote exactly `ms` milliseconds. -/
theorem watermark_contract (w : Int) :
    (w ≤ 0 → CreateStream.watermark w = "") ∧
    (0 < w → (w.toNat / 1000000) % 1000 = 0 →
      CreateStream.watermark w =
        "WATERMARK " ++ String.mk (decimalDigits (w.toNat / 1000000 / 1000)) ++ "s " ∧
      w.toNat / 1000000 / 1000 * 1000 = w.toNat / 1000000) ∧
    (0 < w → (w.toNat / 1000000) % 1000 ≠ 0 →
      CreateStream.watermark w =
        "WATERMARK " ++ String.mk (decimalDigits (w.toNat / 1000000)) ++ "ms ") := by
  refine ⟨?_, ?_, ?_⟩
  · intro h
    have h2 : ¬ w > 0 := by omega
    simp only [CreateStream.watermark, h2, if_false]
  · intro h hm
    have h0 : (((w.toNat / 1000000 % 1000 : Nat) : Int) = 0) := by rw [hm]; rfl
    refine ⟨?_, by omega⟩
    simp only [CreateStream.watermark, h, if_true, Milliseconds_pos w h, tmod_thousand, h0,
      tdiv_thousand, verbD_natCast]
  · intro h hm
    have h0 : ¬ (((w.toNat / 1000000 % 1000 : Nat) : Int) = 0) := by omega
    simp only [CreateStream.watermark, h, if_true, Milliseconds_pos w h, tmod_thousand, h0,
      if_false, verbD_natCast]

/-- A watermark of 10 seconds, of 1500 milliseconds, of half a millisecond, and of zero. -/
theorem watermark_contract_witness :
    CreateStream.watermark 10000000000 = "WATERMARK 10s " ∧
    CreateStream.watermark 1500000000 = "WATERMARK 1500ms " ∧
    CreateStream.watermark 500000 = "WATERMARK 0s " ∧
    CreateStream.watermark 0 = "" := by
  refine ⟨?_, ?_, ?_, (watermark_contract 0).1 (by decide)⟩
  · rw [((watermark_contract 10000000000).2.1 (by decide) (by decide)).1]
    simp [decimalDigits]
  · rw [(watermark_contract 1500000000).2.2 (by decide) (by decide)]
    simp [decimalDigits]
  · rw [((watermark_contract 500000).2.1 (by decide) (by decide)).1]
    simp [decimalDigits]

/-! ## Stream creation: the statement -/

theorem options_eq (opts : List String) : ∀ sb : String,
    CreateStream.options sb opts =
      sb ++ (opts.map (fun o => o ++ " ")).foldr (fun a b => a ++ b) "" := by
  induction opts with
  | nil =>
    intro sb
    apply String.ext
    simp [CreateStream.options]
  | cons o rest ih =>
    intro sb
    rw [CreateStream.options, ih]
    apply String.ext
    simp

theorem watermark_nonpos (w : Int) (h : w ≤ 0) : CreateStream.watermark w = "" := by
  have h2 : ¬ w > 0 := by omega
  simp only [CreateStream.watermark, h2, if_false]

theorem watermark_pos_ne (w : Int) (h : w > 0) : CreateStream.watermark w ≠ "" := by
  intro h0
  have hd : (CreateStream.watermark w).data = [] := by rw [h0]
  simp only [CreateStream.watermark, h, if_true] at hd
  split at hd <;> simp at hd

theorem ne_empty_of_valid (s : String) (h : ValidIdent s) : s ≠ "" := h.1

/-- The statement of `CreateStream` once its checks have passed. -/
theorem CreateStream_ok (db : Driver) (d : StreamDef) (hn : ValidIdent d.Name)
    (hq : d.SubQuery ≠ "") (ht : d.TargetTable = "" ∨ ValidIdent d.TargetTable) :
    (Client.CreateStream db d).executed =
      ["CREATE STREAM " ++ (if d.IfNotExists then "IF NOT EXISTS " else "") ++ d.Name ++ " " ++
        (if d.Trigger ≠ "" then "TRIGGER " ++ d.Trigger ++ " " else "") ++
        CreateStream.watermark d.Watermark ++
        (d.OtherOptions.map (fun o => o ++ " ")).foldr (fun a b => a ++ b) "" ++
        (if d.TargetTable ≠ "" then "INTO " ++ d.TargetTable ++ " " else "") ++
        "AS " ++ d.SubQuery] := by
  have hne := ne_empty_of_valid d.Name hn
  by_cases htt : d.TargetTable = ""
  · simp only [Client.CreateStream, hne, if_false, hq, sanitizeIdent_valid d.Name hn, htt,
      ne_eq, not_true_eq_false, options_eq, List.cons.injEq, and_true]
    apply String.ext
    cases d.IfNotExists <;> by_cases htr : d.Trigger = "" <;> simp [htr]
  · have htv : ValidIdent d.TargetTable := by
      rcases ht with h | h
      · exact absurd h htt
      · exact h
    simp only [Client.CreateStream, hne, if_false, hq, sanitizeIdent_valid d.Name hn, htt,
      ne_eq, not_false_eq_true, if_true, sanitizeIdent_valid d.TargetTable htv, options_eq,
      List.cons.injEq, and_true]
    apply String.ext
    cases d.IfNotExists <;> by_cases htr : d.Trigger = "" <;> simp [htr]

theorem CreateStream_fails (db : Driver) (d : StreamDef)
    (h : d.Name = "" ∨ d.SubQuery = "" ∨ ¬ ValidIdent d.Name ∨
      (d.TargetTable ≠ "" ∧ ¬ ValidIdent d.TargetTable)) :
    (Client.CreateStream db d).executed = [] ∧
    ∃ e, (Client.CreateStream db d).result = .error e := by
  by_cases hn0 : d.Name = ""
  · simp [Client.CreateStream, hn0]
  · by_cases hq : d.SubQuery = ""
    · simp [Client.CreateStream, hn0, hq]
    · cases hs : sanitizeIdent d.Name with
      | error e => simp [Client.CreateStream, hn0, hq, hs]
      | ok name =>
        have hv : ValidIdent d.Name := ((sanitizeIdent_ok_iff d.Name name).mp hs).1
        rcases h with h | h | h | ⟨h1, h2⟩
        · exact absurd h hn0
        · exact absurd h hq
        · exact absurd hv h
        · obtain ⟨e, he, _⟩ := sanitizeIdent_invalid d.TargetTable h2
          simp [Client.CreateStream, hn0, hq, hs, h1, he]

/-- C26. For every stream definition whose name is a valid identifier, whose subquery is
non-empty and whose target table is empty or a valid identifier, the statement
`CreateStream` executes is the concatenation, in this order, of `CREATE STREAM `;
`IF NOT EXISTS ` if and only if the flag is set; the name and one space;
`TRIGGER <trigger> ` if and only if the trigger is non-empty; the watermark fragment, which
is non-empty if and only if the watermark is positive; each additional option followed by
one space, in the caller's order; `INTO <target> ` if and only if the target table is
non-empty; and `AS <subquery>`; trigger, options and subquery are copied as they are.
`CreateStream` fails and executes nothing if the name or the subquery is empty, or the name
or a non-empty target table is not a valid identifier. -/
theorem CreateStream_statement (db : Driver) (d : StreamDef) :
    (ValidIdent d.Name → d.SubQuery ≠ "" → (d.TargetTable = "" ∨ ValidIdent d.TargetTable) →
      (Client.CreateStream db d).executed =
        ["CREATE STREAM " ++ (if d.IfNotExists then "IF NOT EXISTS " else "") ++ d.Name ++
          " " ++ (if d.Trigger ≠ "" then "TRIGGER " ++ d.Trigger ++ " " else "") ++
          CreateStream.watermark d.Watermark ++
          (d.OtherOptions.map (fun o => o ++ " ")).foldr (fun a b => a ++ b) "" ++
          (if d.TargetTable ≠ "" then "INTO " ++ d.TargetTable ++ " " else "") ++
          "AS " ++ d.SubQuery]) ∧
    (CreateStream.watermark d.Watermark ≠ "" ↔ d.Watermark > 0) ∧
    ((d.Name = "" ∨ d.SubQuery = "" ∨ ¬ ValidIdent d.Name ∨
        (d.TargetTable ≠ "" ∧ ¬ ValidIdent d.TargetTable)) →
      (Client.CreateStream db d).executed = [] ∧
      ∃ e, (Client.CreateStream db d).result = .error e) := by
  refine ⟨CreateStream_ok db d, ⟨?_, watermark_pos_ne d.Watermark⟩, CreateStream_fails db d⟩
  intro h
  by_contra hw
  exact h (watermark_nonpos d.Watermark (by omega))

/-- The stream definition of the test; and a definition with no subquery. -/
theorem CreateStream_statement_witness :
    (Client.CreateStream ⟨fun _ => .ok ⟨.ok 0⟩⟩
      ⟨"avg_current_1m", "meters_avg_1m",
        "SELECT avg(current) FROM meters PARTITION BY location INTERVAL(1m)", true, "AT_ONCE",
        10000000000, ["IGNORE DISORDER"]⟩).executed =
      ["CREATE STREAM IF NOT EXISTS avg_current_1m TRIGGER AT_ONCE WATERMARK 10s " ++
        "IGNORE DISORDER INTO meters_avg_1m AS " ++
        "SELECT avg(current) FROM meters PARTITION BY location INTERVAL(1m)"] ∧
    (Client.CreateStream ⟨fun _ => .ok ⟨.ok 0⟩⟩
      ⟨"s1", "", "", false, "", 0, []⟩).executed = [] := by
  constructor
  · rw [(CreateStream_statement ⟨fun _ => .ok ⟨.ok 0⟩⟩
      ⟨"avg_current_1m", "meters_avg_1m",
        "SELECT avg(current) FROM meters PARTITION BY location INTERVAL(1m)", true, "AT_ONCE",
        10000000000, ["IGNORE DISORDER"]⟩).1 (by decide) (by decide) (Or.inr (by decide))]
    rfl
  · exact ((CreateStream_statement ⟨fun _ => .ok ⟨.ok 0⟩⟩
      ⟨"s1", "", "", false, "", 0, []⟩).2.2 (Or.inr (Or.inl rfl))).1

/-! ## Update -/

theorem formatValue_literal (lib : GoLib) (v : GoValue) (h : v.Supported) :
    formatValue lib v = .ok (literal lib v) := by
  obtain ⟨s, hs⟩ := formatValue_supported lib v h
  simp only [literal, hs]

theorem pair_valid (lib : GoLib) (kv : String × GoValue) (hk : ValidIdent kv.1)
    (hv : kv.2.Supported) :
    Update.pair lib kv = .ok (kv.1 ++ "=" ++ literal lib kv.2) := by
  simp only [Update.pair, sanitizeIdent_valid kv.1 hk, formatValue_literal lib kv.2 hv]

theorem pairs_valid (lib : GoLib) (set : Row) (hk : ∀ kv ∈ set, ValidIdent kv.1)
    (hv : ∀ kv ∈ set, kv.2.Supported) :
    appendEach (Update.pair lib) set =
      .ok (set.map (fun kv => kv.1 ++ "=" ++ literal lib kv.2)) := by
  rw [appendEach_ok_iff]
  induction set with
  | nil => exact List.Forall₂.nil
  | cons kv rest ih =>
    exact List.Forall₂.cons (pair_valid lib kv (hk kv (by simp)) (hv kv (by simp)))
      (ih (fun kv2 h2 => hk kv2 (by simp [h2])) (fun kv2 h2 => hv kv2 (by simp [h2])))

/-- The statement of `Update` once table, keys and values have passed. -/
theorem Update_eq (lib : GoLib) (db : Driver) (table : String) (set : Row) (f : Filter)
    (ht : ValidIdent table) (hne : set ≠ []) (hk : ∀ kv ∈ set, ValidIdent kv.1)
    (hv : ∀ kv ∈ set, kv.2.Supported) :
    Client.Update lib db table set f =
      match f.buildWhere lib with
      | .error err => ⟨[], .error err⟩
      | .ok whereSql =>
        ⟨["UPDATE " ++ table ++ " SET " ++
            strings.Join (set.map (fun kv => kv.1 ++ "=" ++ literal lib kv.2)) ", " ++ " " ++
            whereSql],
          match db.Exec ("UPDATE " ++ table ++ " SET " ++
            strings.Join (set.map (fun kv => kv.1 ++ "=" ++ literal lib kv.2)) ", " ++ " " ++
            whereSql) with
          | .error err => .error err
          | .ok res => res.RowsAffected⟩ := by
  have hlen : set.length ≠ 0 := fun h0 => hne (List.length_eq_zero.mp h0)
  simp only [Client.Update, sanitizeIdent_valid table ht, hlen, if_false,
    pairs_valid lib set hk hv]

/-- C24. For every valid table name, `Update` fails with the empty-set error, of kind
`EmptySetClause`, and executes no statement when the assignment map is empty; when the map
is non-empty with valid identifier keys and values that format, the statement it executes
is `UPDATE <table> SET <pairs> ` followed by the `buildWhere` fragment, where the pairs are
one `<col>=<value>` for every entry of the map, the key unchanged and the value formatted by
`formatValue`, with no space around the equals sign, joined by comma-space; when `buildWhere`
fails nothing is executed. -/
theorem Update_contract (lib : GoLib) (db : Driver) (table : String) (set : Row) (f : Filter)
    (ht : ValidIdent table) :
    (set = [] →
      (Client.Update lib db table set f).executed = [] ∧
      (Client.Update lib db table set f).result = .error .emptySet) ∧
    Error.kind .emptySet = .EmptySetClause ∧
    (set ≠ [] → (∀ kv ∈ set, ValidIdent kv.1) → (∀ kv ∈ set, kv.2.Supported) →
      (∀ w, f.buildWhere lib = .ok w →
        (Client.Update lib db table set f).executed =
          ["UPDATE " ++ table ++ " SET " ++
            strings.Join (set.map (fun kv => kv.1 ++ "=" ++ literal lib kv.2)) ", " ++ " " ++
            w]) ∧
      (set.map (fun kv => kv.1 ++ "=" ++ literal lib kv.2)).length = set.length ∧
      (∀ kv ∈ set, formatValue lib kv.2 = .ok (literal lib kv.2)) ∧
      ((∃ e, f.buildWhere lib = .error e) →
        (Client.Update lib db table set f).executed = [])) := by
  refine ⟨?_, rfl, ?_⟩
  · intro h
    subst h
    simp [Client.Update, sanitizeIdent_valid table ht]
  · intro hne hk hv
    refine ⟨?_, List.length_map _ _, fun kv hkv => formatValue_literal lib kv.2 (hv kv hkv),
      ?_⟩
    · intro w hw
      rw [Update_eq lib db table set f ht hne hk hv, hw]
    · rintro ⟨e, he⟩
      rw [Update_eq lib db table set f ht hne hk hv, he]

/-- An update of two columns of `meters` under one condition; and an update with an empty
assignment map. -/
theorem Update_contract_witness :
    (Client.Update GoLib.sample ⟨fun _ => .ok ⟨.ok 1⟩⟩ "meters"
      [("voltage", .int .int 220), ("location", .string "roomA")]
      ⟨[⟨"groupId", "=", .int .int 2⟩], "", "", false, 0⟩).executed =
      ["UPDATE meters SET voltage=220, location='roomA' WHERE groupId = 2"] ∧
    (Client.Update GoLib.sample ⟨fun _ => .ok ⟨.ok 1⟩⟩ "meters" []
      ⟨[⟨"groupId", "=", .int .int 2⟩], "", "", false, 0⟩).result = .error .emptySet := by
  constructor
  · rw [((Update_contract GoLib.sample ⟨fun _ => .ok ⟨.ok 1⟩⟩ "meters"
      [("voltage", .int .int 220), ("location", .string "roomA")]
      ⟨[⟨"groupId", "=", .int .int 2⟩], "", "", false, 0⟩ (by decide)).2.2 (by simp)
      (by decide) (by simp [GoValue.Supported])).1 "WHERE groupId = 2" rfl]
    rfl
  · exact ((Update_contract GoLib.sample ⟨fun _ => .ok ⟨.ok 1⟩⟩ "meters" []
      ⟨[⟨"groupId", "=", .int .int 2⟩], "", "", false, 0⟩ (by decide)).1 rfl).2

/-- C28. `Update` has no missing-WHERE guard, unlike `Delete`: for every valid table name,
every non-empty assignment map with valid keys and values that format, and every filter
whose condition list is empty, `Update` reports no error of its own, hands the driver the
statement `UPDATE <table> SET <pairs> ` with nothing after the pairs but one space, and
returns what the driver answers; `Delete` with the same table and filter executes nothing
and returns the missing-WHERE error. -/
theorem Update_without_where (lib : GoLib) (db : Driver) (table : String) (set : Row)
    (f : Filter) (ht : ValidIdent table) (hne : set ≠ [])
    (hk : ∀ kv ∈ set, ValidIdent kv.1) (hv : ∀ kv ∈ set, kv.2.Supported)
    (hc : f.Conditions = []) :
    (Client.Update lib db table set f).executed =
      ["UPDATE " ++ table ++ " SET " ++
        strings.Join (set.map (fun kv => kv.1 ++ "=" ++ literal lib kv.2)) ", " ++ " "] ∧
    (Client.Update lib db table set f).result =
      (match db.Exec ("UPDATE " ++ table ++ " SET " ++
          strings.Join (set.map (fun kv => kv.1 ++ "=" ++ literal lib kv.2)) ", " ++ " ") with
        | .error err => .error err
        | .ok res => res.RowsAffected) ∧
    (Client.Delete lib db table f).executed = [] ∧
    (Client.Delete lib db table f).result = .error .deleteWithoutWhere := by
  have e : ∀ a : String, a ++ "" = a := by
    intro a; apply String.ext; simp
  have hts : strings.TrimSpace "" = "" := by decide
  rw [Update_eq lib db table set f ht hne hk hv, buildWhere_nil lib f hc]
  simp only [e, true_and]
  simp [Client.Delete, sanitizeIdent_valid table ht, buildWhere_nil lib f hc, hts]

/-- An update of `meters` with a filter that has no condition is executed as it stands, and
the affected-row count of the driver is returned. -/
theorem Update_without_where_witness :
    (Client.Update GoLib.sample ⟨fun _ => .ok ⟨.ok 7⟩⟩ "meters"
      [("voltage", .int .int 0)] ⟨[], "AND", "ts", true, 1⟩).executed =
      ["UPDATE meters SET voltage=0 "] ∧
    (Client.Update GoLib.sample ⟨fun _ => .ok ⟨.ok 7⟩⟩ "meters"
      [("voltage", .int .int 0)] ⟨[], "AND", "ts", true, 1⟩).result = .ok 7 := by
  have h := Update_without_where GoLib.sample ⟨fun _ => .ok ⟨.ok 7⟩⟩ "meters"
    [("voltage", .int .int 0)] ⟨[], "AND", "ts", true, 1⟩ (by decide) (by simp)
    (by decide) (by simp [GoValue.Supported]) rfl
  exact ⟨h.1.trans rfl, h.2.1.trans rfl⟩

/-! ## Insert -/

theorem EqualFold_false_of_not_IsTs (lib : GoLib) (k : String) (hv : ValidIdent k)
    (h : ¬ IsTs k) : strings.EqualFold lib k "ts" = false := by
  cases h3 : strings.EqualFold lib k "ts" with
  | false => rfl
  | true => exact absurd ((EqualFold_ts_iff lib k hv).mp h3) h

theorem entry_valid (lib : GoLib) (kv : String × GoValue) (hk : ValidIdent kv.1)
    (hv : kv.2.Supported) :
    Insert.entry lib kv = .ok (if IsTs kv.1 then none else some (kv.1, literal lib kv.2)) := by
  unfold Insert.entry
  by_cases h : IsTs kv.1
  · simp only [(EqualFold_ts_iff lib kv.1 hk).mpr h, if_true, h]
  · simp only [EqualFold_false_of_not_IsTs lib kv.1 hk h, Bool.false_eq_true, if_false,
      sanitizeIdent_valid kv.1 hk, formatValue_literal lib kv.2 hv, h]

theorem entries_valid (lib : GoLib) (row : Row) (hk : ∀ kv ∈ row, ValidIdent kv.1)
    (hv : ∀ kv ∈ row, kv.2.Supported) :
    appendEach (Insert.entry lib) row =
      .ok (row.map (fun kv =>
        if IsTs kv.1 then none else some (kv.1, literal lib kv.2))) := by
  rw [appendEach_ok_iff]
  induction row with
  | nil => exact List.Forall₂.nil
  | cons kv rest ih =>
    exact List.Forall₂.cons (entry_valid lib kv (hk kv (by simp)) (hv kv (by simp)))
      (ih (fun kv2 h2 => hk kv2 (by simp [h2])) (fun kv2 h2 => hv kv2 (by simp [h2])))

theorem reduceOption_entries (lib : GoLib) (row : Row) :
    (row.map (fun kv =>
      if IsTs kv.1 then none else some (kv.1, literal lib kv.2))).reduceOption =
      (row.filter (fun kv => ¬ IsTs kv.1)).map (fun kv => (kv.1, literal lib kv.2)) := by
  induction row with
  | nil => rfl
  | cons kv rest ih =>
    by_cases h : IsTs kv.1
    · simp only [List.map_cons, h, if_true, List.reduceOption_cons_of_none, ih,
        not_true_eq_false, decide_False, Bool.false_eq_true, not_false_eq_true,
        List.filter_cons_of_neg]
    · simp only [List.map_cons, h, if_false, List.reduceOption_cons_of_some, ih,
        not_false_eq_true, decide_True, List.filter_cons_of_pos]

theorem get?_mem (r : Row) (k : String) (v : GoValue) (h : r.get? k = some v) :
    (k, v) ∈ r := by
  unfold Row.get? at h
  cases hf : r.find? (fun kv => kv.1 == k) with
  | none => rw [hf] at h; cases h
  | some kv =>
    rw [hf] at h
    simp only [Option.map_some', Option.some.injEq] at h
    have hm := List.mem_of_find?_eq_some hf
    have hp := List.find?_some hf
    simp only [beq_iff_eq] at hp
    rw [← hp, ← h]
    exact hm

/-- The statement of `Insert` on a row whose keys are valid and whose values format. -/
theorem Insert_eq (lib : GoLib) (db : Driver) (table : String) (row : Row)
    (ht : ValidIdent table) (hk : ∀ kv ∈ row, ValidIdent kv.1)
    (hv : ∀ kv ∈ row, kv.2.Supported) :
    (Client.Insert lib db table row).executed =
      ["INSERT INTO " ++ table ++ " (" ++
        strings.Join ("ts" :: (row.filter (fun kv => ¬ IsTs kv.1)).map (fun kv => kv.1)) ", "
        ++ ") VALUES (" ++
        strings.Join ((match row.get? "ts" with
            | some v => literal lib v
            | none => "NOW()") ::
          (row.filter (fun kv => ¬ IsTs kv.1)).map (fun kv => literal lib kv.2)) ", " ++
        ")"] := by
  cases hg : row.get? "ts" with
  | none =>
    simp [Client.Insert, sanitizeIdent_valid table ht, hg, entries_valid lib row hk hv,
      reduceOption_entries, List.map_map, Function.comp_def]
  | some v =>
    have hsup : v.Supported := hv ("ts", v) (get?_mem row "ts" v hg)
    simp [Client.Insert, sanitizeIdent_valid table ht, hg, entries_valid lib row hk hv,
      reduceOption_entries, List.map_map, Function.comp_def, formatValue_literal lib v hsup]

theorem entry_fails (lib : GoLib) (kv : String × GoValue)
    (hf : strings.EqualFold lib kv.1 "ts" = false)
    (h : ¬ ValidIdent kv.1 ∨ ¬ kv.2.Supported) : ∃ e, Insert.entry lib kv = .error e := by
  unfold Insert.entry
  simp only [hf, Bool.false_eq_true, if_false]
  cases hs : sanitizeIdent kv.1 with
  | error e => exact ⟨e, rfl⟩
  | ok col =>
    have hv : ValidIdent kv.1 := ((sanitizeIdent_ok_iff kv.1 col).mp hs).1
    rcases h with h | h
    · exact absurd hv h
    · simp only [formatValue_unsupported lib kv.2 h]
      exact ⟨_, rfl⟩

theorem Insert_fails (lib : GoLib) (db : Driver) (table : String) (row : Row)
    (h : ¬ ValidIdent table ∨ (∃ v, row.get? "ts" = some v ∧ ¬ v.Supported) ∨
      (∃ kv ∈ row, strings.EqualFold lib kv.1 "ts" = false ∧
        (¬ ValidIdent kv.1 ∨ ¬ kv.2.Supported))) :
    (Client.Insert lib db table row).executed = [] ∧
    ∃ e, (Client.Insert lib db table row).result = .error e := by
  cases hs : sanitizeIdent table with
  | error e => simp [Client.Insert, hs]
  | ok tbl =>
    have hvt : ValidIdent table := ((sanitizeIdent_ok_iff table tbl).mp hs).1
    cases hg : row.get? "ts" with
    | some v =>
      cases hfv : formatValue lib v with
      | error e => simp [Client.Insert, hs, hg, hfv]
      | ok fv =>
        cases he : appendEach (Insert.entry lib) row with
        | error e => simp [Client.Insert, hs, hg, hfv, he]
        | ok entries =>
          exfalso
          rcases h with h | ⟨v2, h1, h2⟩ | ⟨kv, hkv, hf, h2⟩
          · exact h hvt
          · rw [hg] at h1
            cases h1
            rw [formatValue_unsupported lib v h2] at hfv
            cases hfv
          · obtain ⟨y, _, hy⟩ := forall₂_mem_left ((appendEach_ok_iff _ _ _).mp he) hkv
            obtain ⟨e, hee⟩ := entry_fails lib kv hf h2
            rw [hee] at hy
            cases hy
    | none =>
      cases he : appendEach (Insert.entry lib) row with
      | error e => simp [Client.Insert, hs, hg, he]
      | ok entries =>
        exfalso
        rcases h with h | ⟨v2, h1, _⟩ | ⟨kv, hkv, hf, h2⟩
        · exact h hvt
        · rw [hg] at h1
          cases h1
        · obtain ⟨y, _, hy⟩ := forall₂_mem_left ((appendEach_ok_iff _ _ _).mp he) hkv
          obtain ⟨e, hee⟩ := entry_fails lib kv hf h2
          rw [hee] at hy
          cases hy

/-- C21 as stated fails: the row whose only key is `TS`, a valid identifier other than `ts`,
with the value 5, which formats, is inserted into the valid table `t` by a statement whose
column list is `ts` alone and whose value list is `NOW()` alone, so the key `TS` is in no
column and its value in no position; and with an empty struct under `TS`, a value of an
unsupported type, `Insert` does not fail but executes the same statement. -/
theorem Insert_drops_folded_key :
    ValidIdent "t" ∧ ValidIdent "TS" ∧ "TS" ≠ "ts" ∧ (GoValue.int .int 5).Supported ∧
    (∀ (lib : GoLib) (db : Driver),
      (Client.Insert lib db "t" [("TS", .int .int 5)]).executed =
        ["INSERT INTO t (ts) VALUES (NOW())"]) ∧
    ¬ (GoValue.other "struct \x7b\x7d").Supported ∧
    (∀ (lib : GoLib) (db : Driver),
      (Client.Insert lib db "t" [("TS", .other "struct \x7b\x7d")]).executed =
        ["INSERT INTO t (ts) VALUES (NOW())"]) :=
  ⟨by decide, by decide, by decide, trivial, fun _ _ => rfl, fun h => h, fun _ _ => rfl⟩

/-- C21, amended. For every valid table name and every row whose keys are valid identifiers
and whose values format, the statement `Insert` executes is
`INSERT INTO <table> (<cols>) VALUES (<vals>)` in which the column list and the value list
have the same length, the first column is `ts`, the first value is `formatValue` of the
row's entry under the key spelled `ts` when the row has one and the text `NOW()` otherwise,
and every key of the row that is not `ts` in any letter case appears, exactly once when the
keys are distinct, in the column list, with `formatValue` of its own value at the same
position of the value list. `Insert` fails without executing if the table is not a valid
identifier, if the value under the key `ts` is of an unsupported type, or if a key that
`strings.EqualFold` does not equate with `ts` is not a valid identifier or has a value of an
unsupported type. -/
theorem Insert_statement (lib : GoLib) (db : Driver) (table : String) (row : Row) :
    (ValidIdent table → (∀ kv ∈ row, ValidIdent kv.1) → (∀ kv ∈ row, kv.2.Supported) →
      (Client.Insert lib db table row).executed =
        ["INSERT INTO " ++ table ++ " (" ++
          strings.Join ("ts" :: (row.filter (fun kv => ¬ IsTs kv.1)).map (fun kv => kv.1))
            ", " ++ ") VALUES (" ++
          strings.Join ((match row.get? "ts" with
              | some v => literal lib v
              | none => "NOW()") ::
            (row.filter (fun kv => ¬ IsTs kv.1)).map (fun kv => literal lib kv.2)) ", " ++
          ")"] ∧
      ("ts" :: (row.filter (fun kv => ¬ IsTs kv.1)).map (fun kv => kv.1)).length =
        ((match row.get? "ts" with
            | some v => literal lib v
            | none => "NOW()") ::
          (row.filter (fun kv => ¬ IsTs kv.1)).map (fun kv => literal lib kv.2)).length ∧
      (∀ kv ∈ row, formatValue lib kv.2 = .ok (literal lib kv.2)) ∧
      ((row.map (fun kv => kv.1)).Nodup → ∀ kv ∈ row, ¬ IsTs kv.1 →
        ("ts" :: (row.filter (fun kv => ¬ IsTs kv.1)).map (fun kv => kv.1)).count kv.1 = 1)) ∧
    ((¬ ValidIdent table ∨ (∃ v, row.get? "ts" = some v ∧ ¬ v.Supported) ∨
        (∃ kv ∈ row, strings.EqualFold lib kv.1 "ts" = false ∧
          (¬ ValidIdent kv.1 ∨ ¬ kv.2.Supported))) →
      (Client.Insert lib db table row).executed = [] ∧
      ∃ e, (Client.Insert lib db table row).result = .error e) := by
  refine ⟨?_, Insert_fails lib db table row⟩
  intro ht hk hv
  refine ⟨Insert_eq lib db table row ht hk hv, by simp,
    fun kv hkv => formatValue_literal lib kv.2 (hv kv hkv), ?_⟩
  intro hnd kv hkv hnts
  have hne : "ts" ≠ kv.1 := by
    intro h
    apply hnts
    rw [← h]
    decide
  have hsub : ((row.filter (fun kv => ¬ IsTs kv.1)).map (fun kv => kv.1)).Sublist
      (row.map (fun kv => kv.1)) := List.Sublist.map _ (List.filter_sublist _)
  have hmem : kv.1 ∈ (row.filter (fun kv => ¬ IsTs kv.1)).map (fun kv => kv.1) := by
    simp only [List.mem_map, List.mem_filter, decide_eq_true_eq]
    exact ⟨kv, ⟨hkv, hnts⟩, rfl⟩
  rw [List.count_cons_of_ne (Ne.symm hne)]
  exact List.count_eq_one_of_mem (hnd.sublist hsub) hmem

/-- The row of the test, `current`, `voltage` and `phase`, inserted into `d1001` with no
timestamp; a row with the timestamp under `ts`; and a row with a hyphen in a key. -/
theorem Insert_statement_witness :
    (Client.Insert GoLib.sample ⟨fun _ => .ok ⟨.ok 1⟩⟩ "d1001"
      [("current", .int .int 10), ("voltage", .int .int 219), ("phase", .int .int 0)]).executed
      = ["INSERT INTO d1001 (ts, current, voltage, phase) VALUES (NOW(), 10, 219, 0)"] ∧
    (Client.Insert GoLib.sample ⟨fun _ => .ok ⟨.ok 1⟩⟩ "d1001"
      [("voltage", .int .int 219), ("ts", .string "2024-10-01 00:00:00.000")]).executed
      = ["INSERT INTO d1001 (ts, voltage) VALUES ('2024-10-01 00:00:00.000', 219)"] ∧
    (Client.Insert GoLib.sample ⟨fun _ => .ok ⟨.ok 1⟩⟩ "d1001"
      [("vol-tage", .int .int 219)]).executed = [] := by
  refine ⟨?_, ?_, ?_⟩
  · rw [((Insert_statement GoLib.sample ⟨fun _ => .ok ⟨.ok 1⟩⟩ "d1001"
      [("current", .int .int 10), ("voltage", .int .int 219), ("phase", .int .int 0)]).1
      (by decide) (by decide) (by simp [GoValue.Supported])).1]
    rfl
  · rw [((Insert_statement GoLib.sample ⟨fun _ => .ok ⟨.ok 1⟩⟩ "d1001"
      [("voltage", .int .int 219), ("ts", .string "2024-10-01 00:00:00.000")]).1
      (by decide) (by decide) (by simp [GoValue.Supported])).1]
    rfl
  · exact ((Insert_statement GoLib.sample ⟨fun _ => .ok ⟨.ok 1⟩⟩ "d1001"
      [("vol-tage", .int .int 219)]).2
      (Or.inr (Or.inr ⟨("vol-tage", .int .int 219), by simp, rfl, Or.inl (by decide)⟩))).1

/-! ## Insert: keys that fold to `ts` -/

theorem appendEach_append {α β : Type} (f : α → Except Error β) (a b : List α) :
    appendEach f (a ++ b) =
      match appendEach f a with
      | .error err => .error err
      | .ok ya =>
        match appendEach f b with
        | .error err => .error err
        | .ok yb => .ok (ya ++ yb) := by
  induction a with
  | nil =>
    cases hb : appendEach f b <;> simp [appendEach, hb]
  | cons x rest ih =>
    cases hx : f x with
    | error e => simp [appendEach, hx]
    | ok y =>
      cases hr : appendEach f rest with
      | error e => simp [appendEach, hx, ih, hr]
      | ok ys =>
        cases hb : appendEach f b <;> simp [appendEach, hx, ih, hr, hb]

theorem forall₂_mem_right {α β : Type} {R : α → β → Prop} {xs : List α} {ys : List β}
    (h : List.Forall₂ R xs ys) {y : β} (hy : y ∈ ys) : ∃ x, x ∈ xs ∧ R x y := by
  induction h with
  | nil => cases hy
  | cons h1 _ ih =>
    rcases List.mem_cons.mp hy with rfl | hm
    · exact ⟨_, by simp, h1⟩
    · obtain ⟨x, hx1, hx2⟩ := ih hm
      exact ⟨x, by simp [hx1], hx2⟩

theorem get?_skip (pre post : Row) (k : String) (v : GoValue) (hk : k ≠ "ts") :
    Row.get? (pre ++ (k, v) :: post) "ts" = Row.get? (pre ++ post) "ts" := by
  have hb : ((k, v).1 == "ts") = false := by simpa using hk
  unfold Row.get?
  rw [List.find?_append, List.find?_append, List.find?_cons_of_neg]
  simp [hb]

theorem get?_none_of_no_key (r : Row) (k : String) (h : ∀ kv ∈ r, kv.1 ≠ k) :
    r.get? k = none := by
  unfold Row.get?
  rw [Option.map_eq_none', List.find?_eq_none]
  intro kv hkv
  simpa using h kv hkv

theorem entry_folded (lib : GoLib) (k : String) (v : GoValue)
    (hfold : strings.EqualFold lib k "ts" = true) : Insert.entry lib (k, v) = .ok none := by
  simp only [Insert.entry, hfold, if_true]

theorem entry_some (lib : GoLib) (kv : String × GoValue) (e : String × String)
    (h : Insert.entry lib kv = .ok (some e)) :
    strings.EqualFold lib kv.1 "ts" = false ∧ e.1 = kv.1 := by
  unfold Insert.entry at h
  cases hf : strings.EqualFold lib kv.1 "ts" with
  | true => simp [hf] at h
  | false =>
    simp only [hf, Bool.false_eq_true, if_false] at h
    cases hs : sanitizeIdent kv.1 with
    | error err => simp [hs] at h
    | ok col =>
      cases hv : formatValue lib kv.2 with
      | error err => simp [hs, hv] at h
      | ok fv =>
        simp only [hs, hv, Except.ok.injEq, Option.some.injEq] at h
        refine ⟨rfl, ?_⟩
        rw [← h]
        exact ((sanitizeIdent_ok_iff kv.1 col).mp hs).2

/-- An entry whose key folds to `ts` without being spelled `ts` makes no difference to
`Insert`. -/
theorem Insert_skip (lib : GoLib) (db : Driver) (table : String) (pre post : Row)
    (k : String) (v : GoValue) (hfold : strings.EqualFold lib k "ts" = true)
    (hk : k ≠ "ts") :
    Client.Insert lib db table (pre ++ (k, v) :: post) =
      Client.Insert lib db table (pre ++ post) := by
  have hred : ∀ ya yb : List (Option (String × String)),
      (ya ++ none :: yb).reduceOption = (ya ++ yb).reduceOption := by
    intro ya yb
    simp [List.reduceOption_append]
  unfold Client.Insert
  rw [get?_skip pre post k v hk]
  cases hs : sanitizeIdent table with
  | error e => rfl
  | ok tbl =>
    simp only []
    rw [appendEach_append, appendEach_append]
    cases ha : appendEach (Insert.entry lib) pre with
    | error e => rfl
    | ok ya =>
      cases hb : appendEach (Insert.entry lib) post with
      | error e => simp [appendEach, entry_folded lib k v hfold, hb]
      | ok yb => simp [appendEach, entry_folded lib k v hfold, hb, hred]

/-- C27. `Insert` reads the caller's timestamp only under the key spelled `ts` but skips
every key that case folding equates with `ts`: for every row with an entry under such a key
that is not spelled `ts` (such as `TS` or `Ts`), the outcome of `Insert` is the outcome for
the row without that entry, whatever the value under the key, a value of an unsupported
type included, so the value reaches neither the statement nor `formatValue`; and when no
key of the row is spelled `ts`, every statement `Insert` executes has `NOW()` as its first
value and `ts` as its first column, no other column of which folds to `ts`. -/
theorem Insert_folded_key_ignored (lib : GoLib) (db : Driver) (table : String)
    (pre post : Row) (k : String) (v : GoValue)
    (hfold : strings.EqualFold lib k "ts" = true) (hk : k ≠ "ts") :
    Client.Insert lib db table (pre ++ (k, v) :: post) =
      Client.Insert lib db table (pre ++ post) ∧
    (∀ v2 : GoValue, Client.Insert lib db table (pre ++ (k, v2) :: post) =
      Client.Insert lib db table (pre ++ (k, v) :: post)) ∧
    ((∀ kv ∈ pre ++ post, kv.1 ≠ "ts") →
      ∀ sql ∈ (Client.Insert lib db table (pre ++ (k, v) :: post)).executed,
        ∃ cols vals : List String,
          sql = "INSERT INTO " ++ table ++ " (" ++ strings.Join ("ts" :: cols) ", " ++
            ") VALUES (" ++ strings.Join ("NOW()" :: vals) ", " ++ ")" ∧
          cols.length = vals.length ∧
          (∀ c ∈ cols, strings.EqualFold lib c "ts" = false)) ∧
    strings.EqualFold lib "ts" "ts" = true := by
  refine ⟨Insert_skip lib db table pre post k v hfold hk, ?_, ?_, rfl⟩
  · intro v2
    rw [Insert_skip lib db table pre post k v hfold hk,
      Insert_skip lib db table pre post k v2 hfold hk]
  · intro hno sql hsql
    rw [Insert_skip lib db table pre post k v hfold hk] at hsql
    have hg := get?_none_of_no_key (pre ++ post) "ts" hno
    cases hs : sanitizeIdent table with
    | error e => simp [Client.Insert, hs] at hsql
    | ok tbl =>
      have htbl : tbl = table := ((sanitizeIdent_ok_iff table tbl).mp hs).2
      cases he : appendEach (Insert.entry lib) (pre ++ post) with
      | error e => simp [Client.Insert, hs, hg, he] at hsql
      | ok entries =>
        simp only [Client.Insert, hs, hg, he, List.mem_singleton] at hsql
        refine ⟨entries.reduceOption.map (fun e => e.1),
          entries.reduceOption.map (fun e => e.2), ?_, by simp, ?_⟩
        · rw [hsql, htbl]
          rfl
        · intro c hc
          simp only [List.mem_map] at hc
          obtain ⟨e, hmem, rfl⟩ := hc
          have hmem2 : some e ∈ entries := List.reduceOption_mem_iff.mp hmem
          obtain ⟨kv, _, hkv⟩ := forall₂_mem_right ((appendEach_ok_iff _ _ _).mp he) hmem2
          obtain ⟨h1, h2⟩ := entry_some lib kv e hkv
          rw [h2]
          exact h1

/-- A row with the timestamp under `TS`: the statement is the one of the row without it,
with `NOW()`; a value of an unsupported type under `Ts` changes nothing. -/
theorem Insert_folded_key_ignored_witness :
    (Client.Insert GoLib.sample ⟨fun _ => .ok ⟨.ok 1⟩⟩ "d1001"
      ([("voltage", .int .int 219)] ++ ("TS", .string "2024-10-01 00:00:00.000") ::
        [("current", .int .int 10)])).executed =
      ["INSERT INTO d1001 (ts, voltage, current) VALUES (NOW(), 219, 10)"] ∧
    (Client.Insert GoLib.sample ⟨fun _ => .ok ⟨.ok 1⟩⟩ "d1001"
      ([] ++ ("Ts", .other "struct \x7b\x7d") :: [("current", .int .int 10)])).result =
      .ok () := by
  constructor
  · rw [(Insert_folded_key_ignored GoLib.sample ⟨fun _ => .ok ⟨.ok 1⟩⟩ "d1001"
      [("voltage", .int .int 219)] [("current", .int .int 10)] "TS"
      (.string "2024-10-01 00:00:00.000") rfl (by decide)).1]
    rfl
  · rw [(Insert_folded_key_ignored GoLib.sample ⟨fun _ => .ok ⟨.ok 1⟩⟩ "d1001"
      [] [("current", .int .int 10)] "Ts" (.other "struct \x7b\x7d") rfl (by decide)).1]
    rfl

/-! ## Batch insert: the statement -/

theorem vals_eq_cell (lib : GoLib) (r : Row) (sortCols : List String) :
    BatchInsert.vals lib r sortCols = appendEach (BatchInsert.cell lib r) sortCols := rfl

theorem get_supported (r : Row) (c : String) (hv : ∀ kv ∈ r, kv.2.Supported) :
    (r.get c).Supported := by
  unfold Row.get
  cases hg : r.get? c with
  | none => exact trivial
  | some v => exact hv (c, v) (get?_mem r c v hg)

theorem cell_supported (lib : GoLib) (r : Row) (c : String)
    (hv : ∀ kv ∈ r, kv.2.Supported) :
    BatchInsert.cell lib r c = .ok (cellText lib r c) := by
  unfold BatchInsert.cell cellText
  by_cases hc : c = "ts"
  · simp only [hc, if_true]
    cases hg : r.get? "ts" with
    | none => rfl
    | some v => exact formatValue_literal lib v (hv ("ts", v) (get?_mem r "ts" v hg))
  · simp only [hc, if_false]
    exact formatValue_literal lib _ (get_supported r c hv)

theorem vals_supported (lib : GoLib) (r : Row) (sortCols : List String)
    (hv : ∀ kv ∈ r, kv.2.Supported) :
    BatchInsert.vals lib r sortCols = .ok (sortCols.map (cellText lib r)) := by
  rw [vals_eq_cell, appendEach_ok_iff]
  induction sortCols with
  | nil => exact List.Forall₂.nil
  | cons c rest ih => exact List.Forall₂.cons (cell_supported lib r c hv) ih

theorem valGroups_supported (lib : GoLib) (sortCols : List String) (rows : List Row)
    (hv : ∀ r ∈ rows, ∀ kv ∈ r, kv.2.Supported) :
    BatchInsert.valGroups lib sortCols rows =
      .ok (rows.map (fun r =>
        "(" ++ strings.Join (sortCols.map (cellText lib r)) ", " ++ ")")) := by
  unfold BatchInsert.valGroups
  rw [appendEach_ok_iff]
  induction rows with
  | nil => exact List.Forall₂.nil
  | cons r rest ih =>
    refine List.Forall₂.cons ?_ (ih (fun r2 h2 => hv r2 (by simp [h2])))
    simp only [vals_supported lib r sortCols (hv r (by simp))]

theorem mem_colSet (rows : List Row) (k : String) :
    k ∈ BatchInsert.colSet rows ↔ k = "ts" ∨ ∃ r ∈ rows, ∃ kv ∈ r, kv.1 = k := by
  unfold BatchInsert.colSet
  simp only [List.mem_dedup, List.mem_cons, List.mem_flatMap, List.mem_map]

theorem sortCols_nodup (cols : List String) (rows : List Row)
    (hperm : cols.Perm (BatchInsert.colSet rows)) :
    ("ts" :: cols.filter (fun c => c ≠ "ts")).Nodup := by
  have hnd : cols.Nodup := hperm.nodup_iff.mpr (List.nodup_dedup _)
  rw [List.nodup_cons]
  constructor
  · simp [List.mem_filter]
  · exact hnd.filter _

theorem mem_sortCols (cols : List String) (rows : List Row)
    (hperm : cols.Perm (BatchInsert.colSet rows)) (k : String) :
    k ∈ "ts" :: cols.filter (fun c => c ≠ "ts") ↔
      k = "ts" ∨ ∃ r ∈ rows, ∃ kv ∈ r, kv.1 = k := by
  have hmem : k ∈ cols ↔ k = "ts" ∨ ∃ r ∈ rows, ∃ kv ∈ r, kv.1 = k := by
    rw [hperm.mem_iff, mem_colSet]
  simp only [List.mem_cons, List.mem_filter, hmem, ne_eq, decide_eq_true_eq]
  by_cases hk : k = "ts"
  · simp [hk]
  · simp [hk]

/-- C22. For every valid table name and every non-empty batch of rows whose values format,
the statement `BatchInsert` executes has a column list that is `ts` in first position
followed by every key other than `ts` that occurs in a row, each exactly once; one
parenthesised value group per row, in row order; in every group one value per column, the
value at a position belonging to the column at that position; and as the first value of a
group the literal of that row's own `ts` entry when the row has one and the text `NOW()`
otherwise. Here `cols` is the order in which the column set is visited. -/
theorem BatchInsert_statement (lib : GoLib) (db : Driver) (cols : List String)
    (table : String) (rows : List Row) (ht : ValidIdent table) (hne : rows ≠ [])
    (hv : ∀ r ∈ rows, ∀ kv ∈ r, kv.2.Supported)
    (hperm : cols.Perm (BatchInsert.colSet rows)) :
    (Client.BatchInsert lib db cols table rows).executed =
      ["INSERT INTO " ++ table ++ " (" ++
        strings.Join ("ts" :: cols.filter (fun c => c ≠ "ts")) ", " ++ ") VALUES " ++
        strings.Join (rows.map (fun r =>
          "(" ++ strings.Join (("ts" :: cols.filter (fun c => c ≠ "ts")).map (cellText lib r))
            ", " ++ ")")) " "] ∧
    ("ts" :: cols.filter (fun c => c ≠ "ts")).Nodup ∧
    (∀ k, k ∈ "ts" :: cols.filter (fun c => c ≠ "ts") ↔
      k = "ts" ∨ ∃ r ∈ rows, ∃ kv ∈ r, kv.1 = k) ∧
    (rows.map (fun r =>
      "(" ++ strings.Join (("ts" :: cols.filter (fun c => c ≠ "ts")).map (cellText lib r))
        ", " ++ ")")).length = rows.length ∧
    (∀ r : Row, (("ts" :: cols.filter (fun c => c ≠ "ts")).map (cellText lib r)).length =
      ("ts" :: cols.filter (fun c => c ≠ "ts")).length) ∧
    (∀ r ∈ rows, ∀ c, BatchInsert.cell lib r c = .ok (cellText lib r c)) ∧
    (∀ r : Row, ∀ v, r.get? "ts" = some v → cellText lib r "ts" = literal lib v) ∧
    (∀ r : Row, r.get? "ts" = none → cellText lib r "ts" = "NOW()") := by
  have hlen : rows.length ≠ 0 := fun h0 => hne (List.length_eq_zero.mp h0)
  refine ⟨?_, sortCols_nodup cols rows hperm, mem_sortCols cols rows hperm,
    List.length_map _ _, fun r => List.length_map _ _,
    fun r hr c => cell_supported lib r c (hv r hr), ?_, ?_⟩
  · simp only [Client.BatchInsert, hlen, if_false, sanitizeIdent_valid table ht,
      valGroups_supported lib _ rows hv]
  · intro r v h
    simp only [cellText, if_true, h]
  · intro r h
    simp only [cellText, if_true, h]

/-- A batch of two rows, the first with its own timestamp and the second without, with the
column set visited in the order `voltage`, `ts`, `current`. -/
theorem BatchInsert_statement_witness :
    (Client.BatchInsert GoLib.sample ⟨fun _ => .ok ⟨.ok 2⟩⟩ ["voltage", "ts", "current"]
      "d1001"
      [[("ts", .string "2024-10-01 00:00:00.000"), ("current", .int .int 10),
        ("voltage", .int .int 219)],
       [("voltage", .int .int 220), ("current", .int .int 11)]]).executed =
      ["INSERT INTO d1001 (ts, voltage, current) VALUES " ++
        "('2024-10-01 00:00:00.000', 219, 10) (NOW(), 220, 11)"] := by
  rw [(BatchInsert_statement GoLib.sample ⟨fun _ => .ok ⟨.ok 2⟩⟩
    ["voltage", "ts", "current"] "d1001"
    [[("ts", .string "2024-10-01 00:00:00.000"), ("current", .int .int 10),
      ("voltage", .int .int 219)],
     [("voltage", .int .int 220), ("current", .int .int 11)]]
    (by decide) (by simp) (by decide) (by decide)).1]
  rfl

/-! ## Batch insert: a column the row does not have -/

/-- C23 as stated fails: in the batch of the two rows `a: 1` and `b: 2`, the first row has no
entry for the column `b` and the second none for the column `a`, no entry of either row is
nil, and the value emitted at both places is the text `NULL`. -/
theorem BatchInsert_missing_entry_emits_NULL :
    Row.get? [("a", .int .int 1)] "b" = none ∧
    Row.get? [("b", .int .int 2)] "a" = none ∧
    BatchInsert.colSet [[("a", .int .int 1)], [("b", .int .int 2)]] = ["ts", "a", "b"] ∧
    (∀ (lib : GoLib) (db : Driver),
      (Client.BatchInsert lib db ["ts", "a", "b"] "t"
        [[("a", .int .int 1)], [("b", .int .int 2)]]).executed =
        ["INSERT INTO t (ts, a, b) VALUES (NOW(), 1, NULL) (NOW(), NULL, 2)"]) ∧
    (∀ lib : GoLib, BatchInsert.cell lib [("a", .int .int 1)] "b" = .ok "NULL") :=
  ⟨rfl, rfl, by decide, fun _ _ => rfl, fun _ => rfl⟩

theorem cell_missing (lib : GoLib) (r : Row) (c : String) (hc : c ≠ "ts")
    (hmiss : r.get? c = none) : BatchInsert.cell lib r c = .ok "NULL" := by
  simp only [BatchInsert.cell, hc, if_false, Row.get, hmiss, Option.getD_none, formatValue]

theorem cell_nil (lib : GoLib) (r : Row) (c : String) (hc : c ≠ "ts")
    (hnil : r.get? c = some .nil) : BatchInsert.cell lib r c = .ok "NULL" := by
  simp only [BatchInsert.cell, hc, if_false, Row.get, hnil, Option.getD_some, formatValue]

/-- C23, amended. In `BatchInsert`, when a row has no entry at all for a column, other than
`ts`, that another row of the batch supplies, the map access returns the zero value of
`interface{}`, which is nil, and the value emitted for that row and column is the text
`NULL`, at the position of the column: the same text as for an entry whose value is
explicitly nil. -/
theorem BatchInsert_missing_is_NULL (lib : GoLib) (r : Row) (c : String) (hc : c ≠ "ts")
    (hmiss : r.get? c = none) :
    r.get c = .nil ∧
    BatchInsert.cell lib r c = .ok "NULL" ∧
    (∀ (pre post vals : List String), BatchInsert.vals lib r (pre ++ c :: post) = .ok vals →
      vals.get? pre.length = some "NULL") ∧
    (∀ r2 : Row, r2.get? c = some .nil → BatchInsert.cell lib r2 c = .ok "NULL") := by
  refine ⟨by simp [Row.get, hmiss], cell_missing lib r c hc hmiss, ?_,
    fun r2 h => cell_nil lib r2 c hc h⟩
  intro pre post vals h
  rw [vals_eq_cell, appendEach_append] at h
  cases ha : appendEach (BatchInsert.cell lib r) pre with
  | error e => rw [ha] at h; cases h
  | ok ya =>
    have hl := appendEach_length _ _ _ ha
    cases hb : appendEach (BatchInsert.cell lib r) post with
    | error e => simp [ha, appendEach, cell_missing lib r c hc hmiss, hb] at h
    | ok yb =>
      simp only [ha, appendEach, cell_missing lib r c hc hmiss, hb, Except.ok.injEq] at h
      rw [← h, ← hl, List.get?_eq_getElem?, List.getElem?_append_right (Nat.le_refl _)]
      simp

/-- The second row of a batch has no entry for `a`, which the first row supplies: its value
in the column `a` is `NULL`. -/
theorem BatchInsert_missing_is_NULL_witness :
    BatchInsert.cell GoLib.sample [("b", .int .int 2)] "a" = .ok "NULL" ∧
    (["NOW()", "NULL", "2"] : List String).get? 1 = some "NULL" :=
  ⟨(BatchInsert_missing_is_NULL GoLib.sample [("b", .int .int 2)] "a" (by decide) rfl).2.1,
   (BatchInsert_missing_is_NULL GoLib.sample [("b", .int .int 2)] "a" (by decide) rfl).2.2.1
     ["ts"] ["b"] ["NOW()", "NULL", "2"] rfl⟩

end Tdorm
